import Mathlib

/-!
# sail-riscv C emulator: HPM event multiplexer and simulation driver

A shallow embedding of `c_emulator/riscv_hpmevents.c` and of the run loop,
the tandem comparator and the signature writer of `c2_emulator/riscv_sim.c`,
followed by the properties established about them.

Conventions.
* Global C variables become fields of an explicit state record that every
  function takes and returns.
* `uint64_t` values are natural numbers; the only arithmetic on them that can
  wrap, the counter increment, is reduced modulo `2 ^ 64` explicitly.
* `assert` is modelled by `Option`: a failed assertion is `none`.
* Arrays owned by the Sail model (`zmhpmevents.data`, `zmhpmcounters.data`) are
  total functions from the index.
-/

namespace Hpm

/-! ## Data model of riscv_hpmevents.c -/

/-- One entry of `event_map` (the typedef `event_info`): the platform event id
(0 = not tracked), the counter register last mapped to the event, and the
number of selectors holding the id (a C `int`). -/
structure event_info where
  plat_event_id : Nat
  regidx : Nat
  count : Int
deriving DecidableEq

/-- The globals of riscv_hpmevents.c together with the Sail registers the file
reads and writes.  `E_last` is the length of `event_map`. -/
structure State where
  event_map : List event_info
  usable_event_map : Bool
  hpm_eventset : Nat
  zhpm_eventset : Nat
  zmhpmevents : Nat → Nat
  zmhpmcounters : Nat → Nat
  zmcountinhibit : Nat

/-- The constant `nregs`. -/
def nregs : Nat := 29

/-- The number of event kinds, `E_last`: the size of `event_map`. -/
def E_last (s : State) : Nat := s.event_map.length

/-! ## riscv_write_mhpmevent -/

/-- Body of the first loop of `riscv_write_mhpmevent` for one entry: skip an
untracked entry, register the new value, deregister the old value and check
the assertion `count >= 0`. -/
def write_entry (regidx new_event_id prev_event_id : Nat) (ei : event_info) :
    Option event_info :=
  if ei.plat_event_id = 0 then some ei
  else
    let ei1 : event_info :=
      if ei.plat_event_id = new_event_id then
        { ei with regidx := regidx, count := ei.count + 1 }
      else ei
    if ei1.plat_event_id = prev_event_id then
      let ei2 : event_info := { ei1 with count := ei1.count - 1 }
      if 0 ≤ ei2.count then some ei2 else none
    else some ei1

/-- The first loop of `riscv_write_mhpmevent` over the whole `event_map`. -/
def write_loop (regidx new_event_id prev_event_id : Nat) :
    List event_info → Option (List event_info)
  | [] => some []
  | ei :: rest =>
    match write_entry regidx new_event_id prev_event_id ei with
    | none => none
    | some ei1 =>
      match write_loop regidx new_event_id prev_event_id rest with
      | none => none
      | some rest1 => some (ei1 :: rest1)

/-- The second loop of `riscv_write_mhpmevent`: `usable` starts true and is
cleared by every entry with `count > 1`. -/
def usable_loop (em : List event_info) : Bool :=
  em.foldl (fun usable ei => if 1 < ei.count then false else usable) true

/-- The hook `riscv_write_mhpmevent(regidx, new_event_id, prev_event_id)`. -/
def riscv_write_mhpmevent (s : State) (regidx new_event_id prev_event_id : Nat) :
    Option State :=
  if new_event_id = prev_event_id then some s
  else
    match write_loop regidx new_event_id prev_event_id s.event_map with
    | none => none
    | some em => some { s with event_map := em, usable_event_map := usable_loop em }

/-- The reset function `reset_platform_events`. -/
def reset_platform_events (s : State) : State :=
  { s with
    event_map := s.event_map.map (fun ei => { ei with regidx := 0, count := 0 })
    hpm_eventset := 0
    usable_event_map := true }

/-! ## Draining: increment_hpm_counter, slow_process_hpm_selector,
process_hpm_events -/

/-- The function `increment_hpm_counter(regidx)`: test bit `regidx + 3` of the
inhibit register and, when clear, add one to the 64-bit counter. -/
def increment_hpm_counter (s : State) (regidx : Nat) : State :=
  let counterin := s.zmcountinhibit
  let inhibit := 1 &&& (counterin >>> (regidx + 3))
  if inhibit = 0 then
    { s with zmhpmcounters :=
        Function.update s.zmhpmcounters regidx ((s.zmhpmcounters regidx + 1) % 2 ^ 64) }
  else s

/-- The function `slow_process_hpm_selector(plat_event_id)`: scan the `nregs`
selector registers and increment the counter of each one holding the id. -/
def slow_process_hpm_selector (s : State) (plat_event_id : Nat) : State :=
  (List.range nregs).foldl
    (fun st idx =>
      if st.zmhpmevents idx = plat_event_id then increment_hpm_counter st idx else st)
    s

/-- Body of the loop of `process_hpm_events` for event kind `eid` with entry
`ei`, where `acc` is the pending set read at entry. -/
def process_event (acc : Nat) (st : State) (eid : Nat) (ei : event_info) : State :=
  if (acc >>> eid) &&& 1 ≠ 0 then
    if ei.plat_event_id = 0 then st
    else if st.usable_event_map then
      if ei.count ≠ 0 then increment_hpm_counter st ei.regidx else st
    else slow_process_hpm_selector st ei.plat_event_id
  else st

/-- The loop of `process_hpm_events` over the entries from index `eid` on. -/
def process_loop (acc : Nat) : State → Nat → List event_info → State
  | st, _, [] => st
  | st, eid, ei :: rest => process_loop acc (process_event acc st eid ei) (eid + 1) rest

/-- The drain `process_hpm_events`. -/
def process_hpm_events (s : State) : State :=
  let acc := s.hpm_eventset
  { process_loop acc s 0 s.event_map with hpm_eventset := 0 }

/-! ## The caller's side of a selector write -/

/-- Modelled from the spec: the Sail model's write of `new_event_id` to
selector register `regidx`, which is not part of these sources.  It calls the
hook with the value the selector held before the write and then stores the new
value in `zmhpmevents`. -/
def selector_write (s : State) (regidx new_event_id : Nat) : Option State :=
  match riscv_write_mhpmevent s regidx new_event_id (s.zmhpmevents regidx) with
  | none => none
  | some s1 =>
    some { s1 with zmhpmevents := Function.update s1.zmhpmevents regidx new_event_id }

/-- A sequence of selector writes `(regidx, new_event_id)`, left to right. -/
def run_writes : State → List (Nat × Nat) → Option State
  | s, [] => some s
  | s, w :: ws =>
    match selector_write s w.1 w.2 with
    | none => none
    | some s1 => run_writes s1 ws

/-- No selector register holds the id of a tracked event kind. -/
def NoTrackedSelector (s : State) : Prop :=
  ∀ idx, idx < nregs → ∀ ei ∈ s.event_map, ei.plat_event_id ≠ 0 →
    s.zmhpmevents idx ≠ ei.plat_event_id

/-- The number of selector registers whose value is `id`. -/
def selecting (sels : Nat → Nat) (id : Nat) : Nat :=
  ((List.range nregs).filter (fun idx => sels idx = id)).length

/-- Event kind `eid` is in the pending set `acc`: the bit test of
`process_hpm_events`. -/
def pending (acc eid : Nat) : Prop := (acc >>> eid) &&& 1 ≠ 0

instance (acc eid : Nat) : Decidable (pending acc eid) := by
  unfold pending; infer_instance

/-- The tracked event kinds have pairwise distinct platform event ids. -/
def DistinctIds (em : List event_info) : Prop :=
  em.Pairwise (fun a b => a.plat_event_id ≠ 0 → b.plat_event_id ≠ 0 →
    a.plat_event_id ≠ b.plat_event_id)

/-- Every tracked entry counts the selectors holding its id; an untracked
entry has count 0. -/
def CountInv (sels : Nat → Nat) (em : List event_info) : Prop :=
  ∀ ei ∈ em, (ei.plat_event_id ≠ 0 → ei.count = (selecting sels ei.plat_event_id : Int)) ∧
    (ei.plat_event_id = 0 → ei.count = 0)

/-- What holds of every state reached from the reset of `s0` by selector
writes. -/
structure Inv (s0 s : State) : Prop where
  counts : CountInv s.zmhpmevents s.event_map
  usable : s.usable_event_map = usable_loop s.event_map
  ids : s.event_map.map (fun ei => ei.plat_event_id)
          = s0.event_map.map (fun ei => ei.plat_event_id)
  counters : s.zmhpmcounters = s0.zmhpmcounters
  inhibit : s.zmcountinhibit = s0.zmcountinhibit

/-- The hook `riscv_signal_event(id)`: or the value of the `int` expression
`0x1 << id` into both pending sets.  For `id >= 31` the shift is not
representable in a 32-bit `int` and the C behaviour is undefined: `none`. -/
def riscv_signal_event (s : State) (id : Nat) : Option State :=
  if id < 31 then
    some { s with
      hpm_eventset := s.hpm_eventset ||| (1 <<< id)
      zhpm_eventset := s.zhpm_eventset ||| (1 <<< id) }
  else none

/-- The drain with the slow path forced: `process_hpm_events` run with
`usable_event_map` false, so that every pending tracked event goes through
`slow_process_hpm_selector`. -/
def process_hpm_events_slow (s : State) : State :=
  process_hpm_events { s with usable_event_map := false }

/-- Counter `r` is inhibited: the test of `increment_hpm_counter`, bit `r + 3`
of the inhibit register. -/
def inhibited (counterin r : Nat) : Prop := 1 &&& (counterin >>> (r + 3)) ≠ 0

instance (counterin r : Nat) : Decidable (inhibited counterin r) := by
  unfold inhibited; infer_instance

/-- The state `t` differs from `s` at most in the counters and pending sets. -/
structure Frame (s t : State) : Prop where
  event_map : t.event_map = s.event_map
  usable : t.usable_event_map = s.usable_event_map
  sels : t.zmhpmevents = s.zmhpmevents
  inh : t.zmcountinhibit = s.zmcountinhibit

/-- A concrete machine with two tracked event kinds, ids 10 and 20, all
selectors, counters and the inhibit register zero. -/
def demo : State :=
  { event_map := [⟨10, 0, 0⟩, ⟨20, 0, 0⟩]
    usable_event_map := true
    hpm_eventset := 0
    zhpm_eventset := 0
    zmhpmevents := fun _ => 0
    zmhpmcounters := fun _ => 0
    zmcountinhibit := 0 }

/-- The machine `demo` with event kind 0 selected by counter 5 only, event
kind 0 pending, counter 5 inhibited (bit 8 of the inhibit register) and every
counter holding 7. -/
def demo_inhibited : State :=
  { event_map := [⟨10, 5, 1⟩, ⟨20, 0, 0⟩]
    usable_event_map := true
    hpm_eventset := 1
    zhpm_eventset := 1
    zmhpmevents := Function.update (fun _ => 0) 5 10
    zmhpmcounters := fun _ => 7
    zmcountinhibit := 256 }

instance (em : List event_info) : Decidable (DistinctIds em) := by
  unfold DistinctIds; infer_instance

/-- The machine reached from the reset of `demo` by the selector writes
5 := 10, 7 := 10, 7 := 0. -/
def demo_stale : State :=
  { demo with
    event_map := [⟨10, 7, 1⟩, ⟨20, 0, 0⟩]
    usable_event_map := true
    zmhpmevents :=
      Function.update (Function.update (Function.update (fun _ => 0) 5 10) 7 10) 7 0 }

/-- The machine reached from the reset of `demo` by the selector writes
5 := 10, 7 := 10. -/
def demo_aliased : State :=
  { demo with
    event_map := [⟨10, 7, 2⟩, ⟨20, 0, 0⟩]
    usable_event_map := false
    zmhpmevents := Function.update (Function.update (fun _ => 0) 5 10) 7 10 }

/-- The machine `demo_aliased` after event kind 0 has been signalled. -/
def demo_aliased_pending : State :=
  { demo_aliased with hpm_eventset := 1, zhpm_eventset := 1 }

/-- The machine reached from the reset of `demo` by the selector writes
5 := 10, 7 := 10, 6 := 20. -/
def demo_aliased_two : State :=
  { demo with
    event_map := [⟨10, 7, 2⟩, ⟨20, 6, 1⟩]
    usable_event_map := false
    zmhpmevents :=
      Function.update (Function.update (Function.update (fun _ => 0) 5 10) 7 10) 6 20 }

/-! ## init_platform_events -/

/-- One entry of the table passed to `init_platform_events` (the type
`riscv_hpm_event` of the missing header): the event kind and its platform
event id. -/
structure riscv_hpm_event where
  event : Nat
  plat_event_id : Nat
deriving DecidableEq

/-- The assignment `event_map[idx].plat_event_id = id`. -/
def set_plat_event_id : List event_info → Nat → Nat → List event_info
  | [], _, _ => []
  | ei :: rest, 0, id => { ei with plat_event_id := id } :: rest
  | ei :: rest, idx + 1, id => ei :: set_plat_event_id rest idx id

/-- The `while` loop of `init_platform_events` over the table from `e` on:
stop at the entry for `E_last`, check the three assertions, record the id and
count the entry.  A table without the entry for `E_last` is read past its
end: `none`, as for a failed assertion. -/
def init_loop (E_last : Nat) :
    List riscv_hpm_event → Nat → List event_info → Option (List event_info)
  | [], _, _ => none
  | e :: rest, event_cnt, em =>
    if e.event = E_last then some em
    else if ¬ event_cnt < 64 then none
    else if ¬ e.event < E_last then none
    else if e.plat_event_id = 0 then none
    else init_loop E_last rest (event_cnt + 1) (set_plat_event_id em e.event e.plat_event_id)

/-- The function `init_platform_events(events)`, where `none` is the null
pointer: clear the pending set, set the flag, zero `event_map` and fill in the
ids of the table. -/
def init_platform_events (s : State) (events : Option (List riscv_hpm_event)) :
    Option State :=
  let s1 : State :=
    { s with
      hpm_eventset := 0
      usable_event_map := true
      event_map := List.replicate s.event_map.length ⟨0, 0, 0⟩ }
  match events with
  | none => some s1
  | some es =>
    match init_loop s.event_map.length es 0 s1.event_map with
    | none => none
    | some em => some { s1 with event_map := em }

/-- The table that gives event kind 0 the id 10 and event kind 1 the id 20,
for two event kinds. -/
def demo_events : List riscv_hpm_event := [⟨0, 10⟩, ⟨1, 20⟩, ⟨2, 0⟩]

/-- A table that `init_platform_events` accepts for `E_last` event kinds: at
most 64 entries with an event kind below `E_last` and a non-zero id, followed
by the entry for `E_last`. -/
def WellFormedTable (E_last : Nat) (es : List riscv_hpm_event) : Prop :=
  ∃ pre last post, es = pre ++ last :: post ∧ last.event = E_last ∧ pre.length ≤ 64 ∧
    ∀ e ∈ pre, e.event < E_last ∧ e.plat_event_id ≠ 0

/-- The globals of `demo_aliased` just before the hook call for the write
7 := 10: event kind 0 is selected by counter 5 only and the flag is set. -/
def demo_before_alias : State :=
  { demo_aliased with event_map := [⟨10, 5, 1⟩, ⟨20, 0, 0⟩], usable_event_map := true }

end Hpm

namespace Sim

/-! ## Tandem comparator of riscv_sim.c -/

/-- The constant `CSR_SEPC` of riscv_sim.c. -/
def CSR_SEPC : Nat := 0x141

/-- The constant `CSR_SCAUSE` of riscv_sim.c. -/
def CSR_SCAUSE : Nat := 0x142

/-- The constant `CSR_STVAL` of riscv_sim.c. -/
def CSR_STVAL : Nat := 0x143

/-- The constant `CSR_MSTATUS` of riscv_sim.c. -/
def CSR_MSTATUS : Nat := 0x300

/-- The constant `CSR_MEPC` of riscv_sim.c. -/
def CSR_MEPC : Nat := 0x341

/-- The constant `CSR_MCAUSE` of riscv_sim.c. -/
def CSR_MCAUSE : Nat := 0x342

/-- The constant `CSR_MTVAL` of riscv_sim.c. -/
def CSR_MTVAL : Nat := 0x343

/-- The CSR number of sstatus in the RISC-V privileged architecture.  The file
riscv_sim.c defines no such constant. -/
def CSR_SSTATUS : Nat := 0x100

/-- The registers of the primary (Sail) model that `compare_states` reads:
`zcur_privilege`, `zPC`, the general registers `zx1` .. `zx31` (as `zx i`),
and the selected CSRs, `zmcause` and `zscause` standing for their
`zMcause_chunk_0`.  The last field is the supervisor status of the primary
model, which `compare_states` does not read. -/
structure SailRegs where
  zcur_privilege : Nat
  zPC : Nat
  zx : Nat → Nat
  zmcause : Nat
  zmepc : Nat
  zmtval : Nat
  zmstatus : Nat
  zscause : Nat
  zsepc : Nat
  zstval : Nat
  sstatus : Nat

/-- The state of the reference model (Spike) as far as its readback interface
exposes it: privilege, program counter, general registers by number and CSRs
by CSR number. -/
structure SpikeRegs where
  priv : Nat
  pc : Nat
  gpr : Nat → Nat
  csr : Nat → Nat

/-- Modelled from the spec: `tv_check_priv` of the Spike interface (its
definition is not part of these sources) is bitwise equality of the reference
privilege with the given value, 1 for equal and 0 for different. -/
def tv_check_priv (s : SpikeRegs) (priv : Nat) : Nat := if s.priv = priv then 1 else 0

/-- Modelled from the spec: `tv_check_pc` of the Spike interface, equality of
the reference program counter with the given value. -/
def tv_check_pc (s : SpikeRegs) (val : Nat) : Nat := if s.pc = val then 1 else 0

/-- Modelled from the spec: `tv_check_gpr` of the Spike interface, equality of
reference register `regno` with the given value. -/
def tv_check_gpr (s : SpikeRegs) (regno val : Nat) : Nat := if s.gpr regno = val then 1 else 0

/-- Modelled from the spec: `tv_check_csr` of the Spike interface, equality of
reference CSR `regno` with the given value. -/
def tv_check_csr (s : SpikeRegs) (regno val : Nat) : Nat := if s.csr regno = val then 1 else 0

/-- The value passed to `tv_check_priv`: `zcur_privilege` with 2 replaced by 3,
converted to `uint8_t`. -/
def remap_priv (z : SailRegs) : Nat :=
  (if z.zcur_privilege = 2 then 3 else z.zcur_privilege) % 256

/-- The results of the checks of `compare_states`, in source order (registers
15 and 25 are checked twice in the source). -/
def checks (z : SailRegs) (s : SpikeRegs) : List Nat :=
  [ tv_check_priv s (remap_priv z),
    tv_check_pc s z.zPC,
    tv_check_gpr s 1 (z.zx 1),
    tv_check_gpr s 2 (z.zx 2),
    tv_check_gpr s 3 (z.zx 3),
    tv_check_gpr s 4 (z.zx 4),
    tv_check_gpr s 5 (z.zx 5),
    tv_check_gpr s 6 (z.zx 6),
    tv_check_gpr s 7 (z.zx 7),
    tv_check_gpr s 8 (z.zx 8),
    tv_check_gpr s 9 (z.zx 9),
    tv_check_gpr s 10 (z.zx 10),
    tv_check_gpr s 11 (z.zx 11),
    tv_check_gpr s 12 (z.zx 12),
    tv_check_gpr s 13 (z.zx 13),
    tv_check_gpr s 14 (z.zx 14),
    tv_check_gpr s 15 (z.zx 15),
    tv_check_gpr s 15 (z.zx 15),
    tv_check_gpr s 16 (z.zx 16),
    tv_check_gpr s 17 (z.zx 17),
    tv_check_gpr s 18 (z.zx 18),
    tv_check_gpr s 19 (z.zx 19),
    tv_check_gpr s 20 (z.zx 20),
    tv_check_gpr s 21 (z.zx 21),
    tv_check_gpr s 22 (z.zx 22),
    tv_check_gpr s 23 (z.zx 23),
    tv_check_gpr s 24 (z.zx 24),
    tv_check_gpr s 25 (z.zx 25),
    tv_check_gpr s 25 (z.zx 25),
    tv_check_gpr s 26 (z.zx 26),
    tv_check_gpr s 27 (z.zx 27),
    tv_check_gpr s 28 (z.zx 28),
    tv_check_gpr s 29 (z.zx 29),
    tv_check_gpr s 30 (z.zx 30),
    tv_check_gpr s 31 (z.zx 31),
    tv_check_csr s CSR_MCAUSE z.zmcause,
    tv_check_csr s CSR_MEPC z.zmepc,
    tv_check_csr s CSR_MTVAL z.zmtval,
    tv_check_csr s CSR_MSTATUS z.zmstatus,
    tv_check_csr s CSR_SCAUSE z.zscause,
    tv_check_csr s CSR_SEPC z.zsepc,
    tv_check_csr s CSR_STVAL z.zstval ]

/-- The function `compare_states`: `passed` starts at 1 and every check is
folded in with `passed &= check`.  Without `ENABLE_SPIKE` nothing is checked
and the result is 1. -/
def compare_states (enable_spike : Bool) (z : SailRegs) (s : SpikeRegs) : Nat :=
  if enable_spike then (checks z s).foldl (fun passed chk => passed &&& chk) 1 else 1

/-- A primary register file holding 0 everywhere. -/
def zero_sail : SailRegs := ⟨0, 0, fun _ => 0, 0, 0, 0, 0, 0, 0, 0, 0⟩

/-- A reference register file holding 0 everywhere. -/
def zero_spike : SpikeRegs := ⟨0, 0, fun _ => 0, fun _ => 0⟩

/-- The all-zero reference register file with CSR `regno` set to 1. -/
def spike_csr_one (regno : Nat) : SpikeRegs :=
  { zero_spike with csr := Function.update (fun _ => 0) regno 1 }

/-- The all-zero reference register file with general register 17 set to 1. -/
def spike_x17_one : SpikeRegs :=
  { zero_spike with gpr := Function.update (fun _ => 0) 17 1 }

/-! ## The run loop of riscv_sim.c -/

/-- The primary (Sail) model as the run loop uses it, over its state `σ`: the
step function (returning the new state and `stepped`), the fields
`htif_done`, `htif_exit_code` and `have_exception` of the state, the platform
tick hooks, the registers read by the comparator, and the RVFI-DII entry
points of the model. -/
structure Model (σ : Type) where
  step : σ → Nat → σ × Bool
  htif_done : σ → Bool
  htif_exit_code : σ → Int
  have_exception : σ → Bool
  tick_clock : σ → σ
  tick_platform : σ → σ
  regs : σ → SailRegs
  zrvfi_set_instr_packet : σ → Nat → σ
  zrvfi_zzero_exec_packet : σ → σ
  zrvfi_get_cmd : σ → Nat
  zrvfi_halt_exec_packet : σ → σ
  exec_packet_len : σ → Nat

/-- The reference model (Spike) as the run loop uses it, over its state `ρ`:
`tv_step`, `tv_is_done`, the body of `tick_spike` (`tv_tick_clock` followed
by `tv_step_io`) and the register readback. -/
structure Spike (ρ : Type) where
  tv_step : ρ → ρ
  tv_is_done : ρ → Bool
  tick_spike : ρ → ρ
  regs : ρ → SpikeRegs

/-- The result of one `read` on the RVFI-DII socket: the return value and the
eight bytes read as a number. -/
structure ReadResult where
  res : Int
  instr_bits : Nat
deriving DecidableEq

/-- The transport: the result of the k-th `read` and whether the k-th `write`
fails (returns -1). -/
structure Transport where
  read : Nat → ReadResult
  write_fails : Nat → Bool

/-- The build and run configuration: the macros ENABLE_SPIKE and RVFI_DII with
the flag `rvfi_dii` (true when built with RVFI_DII and started in that
mode), `insn_limit` and `rv_insns_per_tick`. -/
structure Config where
  enable_spike : Bool
  rvfi_dii : Bool
  insn_limit : Int
  rv_insns_per_tick : Nat

/-- What the run loop does that is visible outside it, in order. -/
inductive Event where
  | step (step_no : Nat)
  | tv_step
  | frame (len : Nat) (halted : Bool)
  | tick_clock
  | tick_platform
  | tick_spike
deriving DecidableEq

/-- The variables of `run_sail` and the globals it updates: the two model
states, `step_no`, `insn_cnt`, `total_insns` (C integers that start at 0 and
are only incremented, hence natural numbers), the number of reads and writes
made on the socket, and the events so far. -/
structure Loop (σ ρ : Type) where
  state : σ
  spike : ρ
  step_no : Nat
  insn_cnt : Nat
  total_insns : Nat
  reads : Nat
  writes : Nat
  trace : List Event
deriving DecidableEq

/-- How `run_sail` ends: the loop condition fails, `break` with `diverged`
set, the jump to `step_exception`, a direct `exit(ec)`, `return` after the
peer closed the socket (with `rvfi_dii` cleared), or `return` after an
EndOfTrace command. -/
inductive Stop where
  | loop_exit
  | diverged
  | exception
  | fatal (ec : Nat)
  | closed
  | end_of_trace
deriving DecidableEq

/-- The result of one pass through the loop body. -/
inductive Outcome (σ ρ : Type) where
  | next (l : Loop σ ρ)
  | stop (r : Stop) (l : Loop σ ρ)
deriving DecidableEq

/-- The function `rvfi_send_trace`: fetch the execution packet, exit with
status 1 if its bit length is not a multiple of 8 or if the write fails,
otherwise the frame is written. -/
def rvfi_send_trace {σ ρ : Type} (m : Model σ) (tr : Transport) (halted : Bool)
    (l : Loop σ ρ) : Outcome σ ρ :=
  let len := m.exec_packet_len l.state
  if len % 8 ≠ 0 then .stop (.fatal 1) l
  else if tr.write_fails l.writes then .stop (.fatal 1) { l with writes := l.writes + 1 }
  else .next { l with writes := l.writes + 1, trace := l.trace ++ [.frame len halted] }

/-- The Sail step of the loop body (both branches): call `step` with
`step_no`, jump to `step_exception` if the model has an exception, and in
RVFI-DII mode send the trace.  Returns the outcome and `stepped`. -/
def sail_step {σ ρ : Type} (cfg : Config) (m : Model σ) (tr : Transport)
    (l : Loop σ ρ) : Outcome σ ρ × Bool :=
  let r := m.step l.state l.step_no
  let l1 : Loop σ ρ := { l with state := r.1, trace := l.trace ++ [.step l.step_no] }
  if m.have_exception r.1 then (.stop .exception l1, r.2)
  else if cfg.rvfi_dii then (rvfi_send_trace m tr false l1, r.2)
  else (.next l1, r.2)

/-- The first part of the loop body: in RVFI-DII mode read a command from the
socket and dispatch on it, then run the Sail step.  The test
`res < sizeof(instr_bits)` compares after conversion of `res` to the unsigned
64-bit `size_t`, hence the reduction modulo 2^64. -/
def fetch_and_step {σ ρ : Type} (cfg : Config) (m : Model σ) (tr : Transport)
    (l : Loop σ ρ) : Outcome σ ρ × Bool :=
  if cfg.rvfi_dii then
    let rd := tr.read l.reads
    let l1 : Loop σ ρ := { l with reads := l.reads + 1 }
    if rd.res = 0 then (.stop .closed l1, false)
    else if rd.res % 18446744073709551616 < 8 then (.stop (.fatal 1) l1, false)
    else if rd.res = -1 then (.stop (.fatal 1) l1, false)
    else
      let s1 := m.zrvfi_set_instr_packet l1.state rd.instr_bits
      let s2 := m.zrvfi_zzero_exec_packet s1
      let cmd := m.zrvfi_get_cmd s2
      if cmd = 0 then
        let l2 : Loop σ ρ := { l1 with state := m.zrvfi_halt_exec_packet s2 }
        match rvfi_send_trace m tr true l2 with
        | .next l3 => (.stop .end_of_trace l3, false)
        | .stop r l3 => (.stop r l3, false)
      else if cmd = 1 then sail_step cfg m tr { l1 with state := s2 }
      else (.stop (.fatal 1) { l1 with state := s2 }, false)
  else sail_step cfg m tr l

/-- The comparator call of the loop body: break with `diverged` set when
`compare_states` returns 0. -/
def compare_or_break {σ ρ : Type} (cfg : Config) (m : Model σ) (sp : Spike ρ)
    (l : Loop σ ρ) : Outcome σ ρ :=
  if compare_states cfg.enable_spike (m.regs l.state) (sp.regs l.spike) = 0 then
    .stop .diverged l
  else .next l

/-- The tandem part of the loop body under ENABLE_SPIKE: step Spike, exit with
status 1 when exactly one of the two models is done, then consult
`compare_states`. -/
def tandem_check {σ ρ : Type} (cfg : Config) (m : Model σ) (sp : Spike ρ)
    (l : Loop σ ρ) : Outcome σ ρ :=
  if cfg.enable_spike then
    let l1 : Loop σ ρ := { l with spike := sp.tv_step l.spike, trace := l.trace ++ [.tv_step] }
    let spike_done := sp.tv_is_done l1.spike
    if m.htif_done l1.state then
      if !spike_done then .stop (.fatal 1) l1 else compare_or_break cfg m sp l1
    else
      if spike_done then .stop (.fatal 1) l1 else compare_or_break cfg m sp l1
  else .next l

/-- The tick at the end of the loop body: when `insn_cnt` equals
`rv_insns_per_tick`, reset it and call `tick_clock`, `tick_platform` and
`tick_spike` (which does nothing without ENABLE_SPIKE). -/
def tick {σ ρ : Type} (cfg : Config) (m : Model σ) (sp : Spike ρ) (l : Loop σ ρ) :
    Loop σ ρ :=
  if l.insn_cnt = cfg.rv_insns_per_tick then
    { l with
      insn_cnt := 0
      state := m.tick_platform (m.tick_clock l.state)
      spike := if cfg.enable_spike then sp.tick_spike l.spike else l.spike
      trace := l.trace ++ [.tick_clock, .tick_platform, .tick_spike] }
  else l

/-- The statement `if (stepped) { step_no++; insn_cnt++; total_insns++; }`. -/
def count_retired {σ ρ : Type} (stepped : Bool) (l : Loop σ ρ) : Loop σ ρ :=
  if stepped then
    { l with step_no := l.step_no + 1, insn_cnt := l.insn_cnt + 1,
             total_insns := l.total_insns + 1 }
  else l

/-- The part of the loop body after the Sail step: count a retired
instruction, run the tandem check and the tick.  The report of the execution
rate under `do_show_times`, which only reads the wall clock and prints, is
left out. -/
def post_step {σ ρ : Type} (cfg : Config) (m : Model σ) (sp : Spike ρ)
    (stepped : Bool) (l : Loop σ ρ) : Outcome σ ρ :=
  match tandem_check cfg m sp (count_retired stepped l) with
  | .stop r l2 => .stop r l2
  | .next l2 => .next (tick cfg m sp l2)

/-- One pass through the body of the `while` loop of `run_sail`. -/
def iteration {σ ρ : Type} (cfg : Config) (m : Model σ) (sp : Spike ρ) (tr : Transport)
    (l : Loop σ ρ) : Outcome σ ρ :=
  match fetch_and_step cfg m tr l with
  | (.stop r l1, _) => .stop r l1
  | (.next l1, stepped) => post_step cfg m sp stepped l1

/-- The condition of the `while` loop of `run_sail`. -/
def loop_cond {σ ρ : Type} (cfg : Config) (m : Model σ) (l : Loop σ ρ) : Bool :=
  !m.htif_done l.state && (cfg.insn_limit == 0 || (l.total_insns : Int) < cfg.insn_limit)

/-- The `while` loop of `run_sail`, run for at most `fuel` passes: `none` when
the fuel runs out before the loop ends. -/
def run_loop {σ ρ : Type} (cfg : Config) (m : Model σ) (sp : Spike ρ) (tr : Transport) :
    Nat → Loop σ ρ → Option (Stop × Loop σ ρ)
  | 0, _ => none
  | fuel + 1, l =>
    if loop_cond cfg m l then
      match iteration cfg m sp tr l with
      | .next l1 => run_loop cfg m sp tr fuel l1
      | .stop r l1 => some (r, l1)
    else some (.loop_exit, l)

/-- The function `run_sail` from the initialised model states: `step_no` and
`insn_cnt` start at 0, `total_insns` is the global at entry. -/
def run_sail {σ ρ : Type} (cfg : Config) (m : Model σ) (sp : Spike ρ) (tr : Transport)
    (fuel : Nat) (state : σ) (spike : ρ) (total_insns : Nat) : Option (Stop × Loop σ ρ) :=
  run_loop cfg m sp tr fuel
    { state := state, spike := spike, step_no := 0, insn_cnt := 0,
      total_insns := total_insns, reads := 0, writes := 0, trace := [] }

/-- The function `finish(ec)`: after writing the signature and reporting the
times it calls `exit(ec)`; the result is the exit status.  A failing clock
read or coverage dump, which exit with a status of their own, are outside the
model. -/
def finish (ec : Nat) : Nat := ec

/-- The exit status of the process for each way `run_sail` ends: the loop
exit, the break and the exception jump all reach `finish(diverged)`; a direct
`exit(ec)` gives `ec`; the two returns hand control back to `main` without an
exit status from `run_sail`. -/
def exit_status : Stop → Option Nat
  | .loop_exit => some (finish 0)
  | .diverged => some (finish 1)
  | .exception => some (finish 0)
  | .fatal ec => some ec
  | .closed => none
  | .end_of_trace => none

/-- The number of `step` events in a trace. -/
def steps (trace : List Event) : Nat :=
  (trace.filter (fun e => match e with | .step _ => true | _ => false)).length

/-- A model over a counter: every step adds one and retires, the halted flag
is set from `done_at` steps on with exit code 1, an exception is raised from
`raise_at` steps on, all registers read 0 and every execution packet is an
Instruction reply of 8 bits. -/
def counter_model (done_at raise_at : Option Nat) : Model Nat :=
  { step := fun s _ => (s + 1, true)
    htif_done := fun s => match done_at with | some k => decide (k ≤ s) | none => false
    htif_exit_code := fun _ => 1
    have_exception := fun s => match raise_at with | some k => decide (k ≤ s) | none => false
    tick_clock := fun s => s
    tick_platform := fun s => s
    regs := fun _ => zero_sail
    zrvfi_set_instr_packet := fun s _ => s
    zrvfi_zzero_exec_packet := fun s => s
    zrvfi_get_cmd := fun _ => 1
    zrvfi_halt_exec_packet := fun s => s
    exec_packet_len := fun _ => 8 }

/-- A reference model over a counter: done from `done_at` steps on, register
x17 reads 1 from `differ_at` steps on and everything else reads 0. -/
def counter_spike (done_at differ_at : Option Nat) : Spike Nat :=
  { tv_step := fun t => t + 1
    tv_is_done := fun t => match done_at with | some k => decide (k ≤ t) | none => false
    tick_spike := fun t => t
    regs := fun t =>
      match differ_at with
      | some k => if k ≤ t then spike_x17_one else zero_spike
      | none => zero_spike }

/-- A transport on which every read delivers a full frame and every write
succeeds. -/
def good_transport : Transport :=
  { read := fun _ => ⟨8, 1⟩, write_fails := fun _ => false }

/-- The plain build (no ENABLE_SPIKE, no RVFI_DII) with the given instruction
limit and 100 instructions per tick. -/
def plain (insn_limit : Int) : Config :=
  { enable_spike := false, rvfi_dii := false, insn_limit := insn_limit,
    rv_insns_per_tick := 100 }

/-- The tandem build (ENABLE_SPIKE, no RVFI_DII) without instruction limit
and 100 instructions per tick. -/
def tandem : Config :=
  { enable_spike := true, rvfi_dii := false, insn_limit := 0, rv_insns_per_tick := 100 }

/-- The variables of `run_sail` at entry for the counter models, with
`total_insns` 0. -/
def start : Loop Nat Nat :=
  { state := 0, spike := 0, step_no := 0, insn_cnt := 0, total_insns := 0, reads := 0,
    writes := 0, trace := [] }

/-- The variables after the first Sail step of a counter model in a build
without RVFI_DII. -/
def after_first : Loop Nat Nat := { start with state := 1, trace := [.step 0] }

/-- The variables after the retirement count and the Spike step that follow
`after_first`. -/
def after_joint : Loop Nat Nat :=
  { state := 1, spike := 1, step_no := 1, insn_cnt := 1, total_insns := 1, reads := 0,
    writes := 0, trace := [.step 0, .tv_step] }

/-- The build with ENABLE_SPIKE and RVFI_DII, started in RVFI-DII mode, with
the given instruction limit and 2 instructions per tick. -/
def full (insn_limit : Int) : Config :=
  { enable_spike := true, rvfi_dii := true, insn_limit := insn_limit, rv_insns_per_tick := 2 }

/-- The variables of a counter model in the plain build after `k` retired
steps and no tick: the state has counted to `k`. -/
def after_steps (k : Nat) : Loop Nat Nat :=
  { state := k, spike := 0, step_no := k, insn_cnt := k, total_insns := k, reads := 0,
    writes := 0, trace := (List.range k).map Event.step }

/-- The variables of a counter model in the plain build when the second step
raises an exception: one step retired, the second not counted. -/
def after_exception : Loop Nat Nat :=
  { state := 2, spike := 0, step_no := 1, insn_cnt := 1, total_insns := 1, reads := 0,
    writes := 0, trace := [.step 0, .step 1] }

/-- The variables of the counter models in the tandem build when the second
joint step ends in a divergence. -/
def after_divergence : Loop Nat Nat :=
  { state := 2, spike := 2, step_no := 2, insn_cnt := 2, total_insns := 2, reads := 0,
    writes := 0, trace := [.step 0, .tv_step, .step 1, .tv_step] }

/-- What a way of ending tells about the final variables: the loop exit means
the halted flag is set or the limit is reached, a divergence means
`compare_states` returned 0 in a build with ENABLE_SPIKE, an exception means
the model has one. -/
def StopOk {σ ρ : Type} (cfg : Config) (m : Model σ) (sp : Spike ρ) (r : Stop)
    (l : Loop σ ρ) : Prop :=
  match r with
  | .loop_exit =>
    m.htif_done l.state = true ∨ (cfg.insn_limit ≠ 0 ∧ cfg.insn_limit ≤ (l.total_insns : Int))
  | .diverged =>
    cfg.enable_spike = true ∧ compare_states true (m.regs l.state) (sp.regs l.spike) = 0
  | .exception => m.have_exception l.state = true
  | _ => True

/-- The variables carried by an outcome of a pass. -/
def Outcome.loop {σ ρ : Type} : Outcome σ ρ → Loop σ ρ
  | .next l => l
  | .stop _ l => l

/-- The number of result frames written to the transport in a trace. -/
def frames (trace : List Event) : Nat :=
  (trace.filter (fun e => match e with | .frame _ _ => true | _ => false)).length

/-- The number of calls of `tick_clock` in a trace. -/
def tick_clocks (trace : List Event) : Nat :=
  (trace.filter (fun e => match e with | .tick_clock => true | _ => false)).length

/-- The number of calls of `tick_platform` in a trace. -/
def tick_platforms (trace : List Event) : Nat :=
  (trace.filter (fun e => match e with | .tick_platform => true | _ => false)).length

/-- The variables after the `read` of a pass in RVFI-DII mode. -/
def after_read {σ ρ : Type} (l : Loop σ ρ) : Loop σ ρ := { l with reads := l.reads + 1 }

/-- The variables after a full command frame has been read and installed with
`zrvfi_set_instr_packet` and `zrvfi_zzero_exec_packet`. -/
def after_command {σ ρ : Type} (m : Model σ) (tr : Transport) (l : Loop σ ρ) : Loop σ ρ :=
  { after_read l with
    state := m.zrvfi_zzero_exec_packet
      (m.zrvfi_set_instr_packet l.state (tr.read l.reads).instr_bits) }

/-- The variables after an EndOfTrace command has put the halt marker into the
execution packet with `zrvfi_halt_exec_packet`. -/
def after_halt {σ ρ : Type} (m : Model σ) (tr : Transport) (l : Loop σ ρ) : Loop σ ρ :=
  { after_command m tr l with state := m.zrvfi_halt_exec_packet (after_command m tr l).state }

/-- The variables after the Sail step of an Instruction command. -/
def after_step {σ ρ : Type} (m : Model σ) (tr : Transport) (l : Loop σ ρ) : Loop σ ρ :=
  { after_command m tr l with
    state := (m.step (after_command m tr l).state l.step_no).1
    trace := l.trace ++ [.step l.step_no] }

/-- The variables `l` after the frame of its execution packet has been
written. -/
def after_frame {σ ρ : Type} (m : Model σ) (halted : Bool) (l : Loop σ ρ) : Loop σ ρ :=
  { l with writes := l.writes + 1
           trace := l.trace ++ [.frame (m.exec_packet_len l.state) halted] }

/-- A model over a counter that answers every command frame with the command
`cmd` and an execution packet of `len` bits; it steps like `counter_model` and
never halts or raises. -/
def protocol_model (cmd len : Nat) : Model Nat :=
  { counter_model none none with
    zrvfi_get_cmd := fun _ => cmd
    exec_packet_len := fun _ => len }

/-- A transport on which every read returns `res` and every write succeeds. -/
def reading (res : Int) : Transport :=
  { read := fun _ => ⟨res, 1⟩, write_fails := fun _ => false }

/-- The variables of `run_sail` at entry to the loop. -/
def entry_loop {σ ρ : Type} (state : σ) (spike : ρ) (total_insns : Nat) : Loop σ ρ :=
  { state := state, spike := spike, step_no := 0, insn_cnt := 0,
    total_insns := total_insns, reads := 0, writes := 0, trace := [] }

/-- The variables after `n` passes of the loop body that all ran to their
end; `none` when one of them left the loop. -/
def passes {σ ρ : Type} (cfg : Config) (m : Model σ) (sp : Spike ρ) (tr : Transport) :
    Nat → Loop σ ρ → Option (Loop σ ρ)
  | 0, l => some l
  | n + 1, l =>
    match iteration cfg m sp tr l with
    | .next l1 => passes cfg m sp tr n l1
    | .stop _ _ => none

/-- The variables `l1` have the counters and the tick counts of `l`. -/
structure SameCount {σ ρ : Type} (l l1 : Loop σ ρ) : Prop where
  step_no : l1.step_no = l.step_no
  insn_cnt : l1.insn_cnt = l.insn_cnt
  total_insns : l1.total_insns = l.total_insns
  clocks : tick_clocks l1.trace = tick_clocks l.trace
  platforms : tick_platforms l1.trace = tick_platforms l.trace

/-- The variables of the pass at the loop head `l` when it reaches the tick
statement: after the step, the retirement count and the tandem check. -/
def before_tick {σ ρ : Type} (cfg : Config) (m : Model σ) (sp : Spike ρ) (tr : Transport)
    (l : Loop σ ρ) : Loop σ ρ :=
  (tandem_check cfg m sp
    (count_retired (fetch_and_step cfg m tr l).2 (fetch_and_step cfg m tr l).1.loop)).loop

/-- A model state that records what the tick hooks did: the number of calls of
`step`, the clock, and the clock values the platform has seen. -/
structure Clocked where
  calls : Nat
  clock : Nat
  seen : List Nat
deriving DecidableEq

/-- A model over `Clocked` whose steps retire at every second call:
`tick_clock` advances the clock by one and `tick_platform` records the clock
value it finds; the model never halts or raises. -/
def clock_model : Model Clocked :=
  { step := fun s _ => ({ s with calls := s.calls + 1 }, decide (s.calls % 2 = 1))
    htif_done := fun _ => false
    htif_exit_code := fun _ => 0
    have_exception := fun _ => false
    tick_clock := fun s => { s with clock := s.clock + 1 }
    tick_platform := fun s => { s with seen := s.seen ++ [s.clock] }
    regs := fun _ => zero_sail
    zrvfi_set_instr_packet := fun s _ => s
    zrvfi_zzero_exec_packet := fun s => s
    zrvfi_get_cmd := fun _ => 1
    zrvfi_halt_exec_packet := fun s => s
    exec_packet_len := fun _ => 8 }

/-- The plain build with 2 instructions per tick and no instruction limit. -/
def ticking : Config :=
  { enable_spike := false, rvfi_dii := false, insn_limit := 0, rv_insns_per_tick := 2 }

/-- The variables of `run_sail` at entry for `clock_model`. -/
def clocked_start : Loop Clocked Nat := entry_loop ⟨0, 0, []⟩ 0 0

/-- The variables of `clock_model` in the build `ticking` after three passes:
one instruction retired, no hook called. -/
def clocked_three : Loop Clocked Nat :=
  { state := ⟨3, 0, []⟩, spike := 0, step_no := 1, insn_cnt := 1, total_insns := 1,
    reads := 0, writes := 0, trace := [.step 0, .step 0, .step 1] }

/-- The variables of the fourth pass when it reaches the tick statement: the
second instruction has retired and the hooks have not been called yet. -/
def clocked_ready : Loop Clocked Nat :=
  { state := ⟨4, 0, []⟩, spike := 0, step_no := 2, insn_cnt := 2, total_insns := 2,
    reads := 0, writes := 0, trace := [.step 0, .step 0, .step 1, .step 1] }

/-- The variables after four passes: two instructions retired, the clock
advanced once and seen once by the platform. -/
def clocked_four : Loop Clocked Nat :=
  { state := ⟨4, 1, [1]⟩, spike := 0, step_no := 2, insn_cnt := 0, total_insns := 2,
    reads := 0, writes := 0,
    trace := [.step 0, .step 0, .step 1, .step 1, .tick_clock, .tick_platform, .tick_spike] }

/-- The variables after five passes: the fifth step did not retire and no
hook was called. -/
def clocked_five : Loop Clocked Nat :=
  { state := ⟨5, 1, [1]⟩, spike := 0, step_no := 2, insn_cnt := 0, total_insns := 2,
    reads := 0, writes := 0,
    trace := [.step 0, .step 0, .step 1, .step 1, .tick_clock, .tick_platform, .tick_spike,
      .step 2] }

/-- The variables after eight passes: four instructions retired, the clock
advanced twice and seen by the platform after each advance. -/
def clocked_eight : Loop Clocked Nat :=
  { state := ⟨8, 2, [1, 2]⟩, spike := 0, step_no := 4, insn_cnt := 0, total_insns := 4,
    reads := 0, writes := 0,
    trace := [.step 0, .step 0, .step 1, .step 1, .tick_clock, .tick_platform, .tick_spike,
      .step 2, .step 2, .step 3, .step 3, .tick_clock, .tick_platform, .tick_spike] }

/-! ## write_signature -/

/-- One lowercase hexadecimal digit, as `printf` prints it. -/
def hex_digit (n : Nat) : Char :=
  "0123456789abcdef".data.getD n '0'

/-- The text of `fprintf(f, "%02x", byte)` for a `uint8_t` value. -/
def hex02 (byte : Nat) : String := String.mk [hex_digit (byte / 16), hex_digit (byte % 16)]

/-- The value of `(uint8_t) read_mem(addr+i)`, the address computed in
`uint64_t`. -/
def sig_byte (read_mem : Nat → Nat) (addr i : Nat) : Nat :=
  read_mem ((addr + i) % 2 ^ 64) % 256

/-- The text written by one pass of the outer loop of `write_signature`: the
inner loop for `i` from 3 down to 0, then the newline. -/
def sig_word (read_mem : Nat → Nat) (addr : Nat) : String :=
  hex02 (sig_byte read_mem addr 3) ++ hex02 (sig_byte read_mem addr 2) ++
    hex02 (sig_byte read_mem addr 1) ++ hex02 (sig_byte read_mem addr 0) ++ "\n"

/-- The addresses passed to `read_mem` by one pass of the outer loop, in
order. -/
def sig_reads (addr : Nat) : List Nat :=
  [(addr + 3) % 2 ^ 64, (addr + 2) % 2 ^ 64, (addr + 1) % 2 ^ 64, (addr + 0) % 2 ^ 64]

/-- What `write_signature` has done so far: the text written to the file, one
element per pass of the outer loop, and the addresses read. -/
structure SigOut where
  lines : List String
  reads : List Nat
deriving DecidableEq

/-- The outer loop of `write_signature` from `addr`, for at most `fuel` tests
of its condition; `addr += 4` is computed in `uint64_t`. -/
def signature_loop (read_mem : Nat → Nat) (mem_sig_end : Nat) :
    Nat → Nat → SigOut → Option SigOut
  | 0, _, _ => none
  | fuel + 1, addr, out =>
    if addr < mem_sig_end then
      signature_loop read_mem mem_sig_end fuel ((addr + 4) % 2 ^ 64)
        { lines := out.lines ++ [sig_word read_mem addr]
          reads := out.reads ++ sig_reads addr }
    else some out

/-- How `write_signature` returns: after the diagnostic for an invalid
region, after the diagnostic for a file that cannot be opened, or after
writing the file. -/
inductive SigResult where
  | invalid_region
  | cannot_open
  | written (out : SigOut)
deriving DecidableEq

/-- The function `write_signature(file)` over the globals `mem_sig_start` and
`mem_sig_end`, the memory `read_mem` and the outcome of `fopen`. -/
def write_signature (fopen_ok : Bool) (read_mem : Nat → Nat)
    (mem_sig_start mem_sig_end fuel : Nat) : Option SigResult :=
  if mem_sig_start ≥ mem_sig_end then some .invalid_region
  else if !fopen_ok then some .cannot_open
  else
    match signature_loop read_mem mem_sig_end fuel mem_sig_start ⟨[], []⟩ with
    | none => none
    | some out => some (.written out)

/-- The content of the signature file: the texts written, in order. -/
def file_content (out : SigOut) : String := String.join out.lines

/-- The `n` word addresses `a`, `a + 4`, `a + 8`, ... -/
def word_addrs : Nat → Nat → List Nat
  | _, 0 => []
  | a, n + 1 => a :: word_addrs (a + 4) n

/-- The byte addresses of the `n` words from `a`, each word from its last byte
down to its first. -/
def read_addrs : Nat → Nat → List Nat
  | _, 0 => []
  | a, n + 1 => [a + 3, a + 2, a + 1, a] ++ read_addrs (a + 4) n

/-- The number of word addresses `start`, `start + 4`, ... below `stop`. -/
def word_count (start stop : Nat) : Nat := (stop - start + 3) / 4

/-- The signature line of the word at address `a`: the two hexadecimal digits
of each of the bytes at `a + 3`, `a + 2`, `a + 1` and `a`, then a newline. -/
def line_of (read_mem : Nat → Nat) (a : Nat) : String :=
  hex02 (read_mem (a + 3) % 256) ++ hex02 (read_mem (a + 2) % 256) ++
    hex02 (read_mem (a + 1) % 256) ++ hex02 (read_mem a % 256) ++ "\n"

/-- A memory holding the bytes DE AD BE EF CA FE BA BE from address 0x1000 and
0 elsewhere. -/
def sig_memory (a : Nat) : Nat :=
  if 0x1000 ≤ a then [0xDE, 0xAD, 0xBE, 0xEF, 0xCA, 0xFE, 0xBA, 0xBE].getD (a - 0x1000) 0
  else 0

/-- The lowercase hexadecimal digits. -/
def hex_alphabet : List Char := "0123456789abcdef".data

/-! ## Passes without a halting condition -/

/-- The state on which the pass at the loop head `l` calls `step`: in RVFI-DII
mode the command frame has been installed first. -/
def step_input {σ ρ : Type} (cfg : Config) (m : Model σ) (tr : Transport) (l : Loop σ ρ) : σ :=
  if cfg.rvfi_dii then (after_command m tr l).state else l.state

/-- The result of the call of `step` in the pass at the loop head `l`: the new
state and `stepped`. -/
def step_result {σ ρ : Type} (cfg : Config) (m : Model σ) (tr : Transport) (l : Loop σ ρ) :
    σ × Bool :=
  m.step (step_input cfg m tr l) l.step_no

/-- The pass at the loop head `l` triggers no halting condition and retires:
the halted flag is clear at the loop head, the step raises no exception and
retires, in a build with ENABLE_SPIKE the two models agree on being done and
`compare_states` does not return 0, and in RVFI-DII mode the read delivers a
full frame with the command Instruction and the byte-aligned result frame is
written. -/
@[reducible] def Quiet {σ ρ : Type} (cfg : Config) (m : Model σ) (sp : Spike ρ)
    (tr : Transport) (l : Loop σ ρ) : Prop :=
  m.htif_done l.state = false ∧
  m.have_exception (step_result cfg m tr l).1 = false ∧
  (step_result cfg m tr l).2 = true ∧
  (cfg.enable_spike = true →
    sp.tv_is_done (sp.tv_step l.spike) = m.htif_done (step_result cfg m tr l).1 ∧
    compare_states true (m.regs (step_result cfg m tr l).1) (sp.regs (sp.tv_step l.spike))
      ≠ 0) ∧
  (cfg.rvfi_dii = true →
    (tr.read l.reads).res = 8 ∧ m.zrvfi_get_cmd (after_command m tr l).state = 1 ∧
    m.exec_packet_len (step_result cfg m tr l).1 % 8 = 0 ∧ tr.write_fails l.writes = false)

end Sim

namespace Hpm

/-! ## Counting selectors under an update -/

theorem selecting_eq_countP (sels : Nat → Nat) (id : Nat) :
    selecting sels id = (List.range nregs).countP (fun idx => decide (sels idx = id)) := by
  unfold selecting
  rw [List.countP_eq_length_filter]

theorem countP_update (f : Nat → Nat) (c v id : Nat) (l : List Nat) (hl : l.Nodup) :
    l.countP (fun i => decide (Function.update f c v i = id))
        + (if c ∈ l ∧ f c = id then 1 else 0)
      = l.countP (fun i => decide (f i = id)) + (if c ∈ l ∧ v = id then 1 else 0) := by
  induction l with
  | nil => simp
  | cons a t ih =>
    have hnd := List.nodup_cons.mp hl
    have ih := ih hnd.2
    by_cases hac : a = c
    · subst hac
      have hnot : a ∉ t := hnd.1
      simp only [hnot, false_and, if_false, Nat.add_zero] at ih
      simp only [List.countP_cons, List.mem_cons, true_or, true_and, Function.update_same,
        decide_eq_true_eq, ih]
      omega
    · have hca : c ≠ a := fun h => hac h.symm
      simp only [List.countP_cons, List.mem_cons, hca, false_or, Function.update_noteq hac,
        decide_eq_true_eq]
      omega

theorem selecting_update (sels : Nat → Nat) (c v id : Nat) (hc : c < nregs) :
    selecting (Function.update sels c v) id + (if sels c = id then 1 else 0)
      = selecting sels id + (if v = id then 1 else 0) := by
  have h := countP_update sels c v id (List.range nregs) (List.nodup_range nregs)
  have hm : c ∈ List.range nregs := List.mem_range.mpr hc
  simp only [hm, true_and] at h
  rw [selecting_eq_countP, selecting_eq_countP]
  exact h

/-! ## The selector-count invariant -/

theorem write_entry_inv (sels : Nat → Nat) (c new : Nat) (hc : c < nregs)
    (hne : new ≠ sels c) (ei : event_info)
    (h1 : ei.plat_event_id ≠ 0 → ei.count = (selecting sels ei.plat_event_id : Int))
    (h0 : ei.plat_event_id = 0 → ei.count = 0) :
    ∃ ei1, write_entry c new (sels c) ei = some ei1 ∧
      ei1.plat_event_id = ei.plat_event_id ∧
      (ei1.plat_event_id ≠ 0 →
        ei1.count = (selecting (Function.update sels c new) ei1.plat_event_id : Int)) ∧
      (ei1.plat_event_id = 0 → ei1.count = 0) := by
  obtain ⟨id, r, cnt⟩ := ei
  simp only at h1 h0
  have hsel := selecting_update sels c new id hc
  unfold write_entry
  simp only
  by_cases hz : id = 0
  · exact ⟨⟨id, r, cnt⟩, by simp [hz], rfl, fun h => absurd hz h, h0⟩
  · have hcnt := h1 hz
    by_cases hn : id = new
    · subst hn
      have hp : ¬ id = sels c := hne
      have hp2 : ¬ sels c = id := fun h => hp h.symm
      simp only [hp2, if_false, if_true, Nat.add_zero] at hsel
      refine ⟨⟨id, c, cnt + 1⟩, by simp [hz, hp], rfl, fun _ => ?_, fun h => absurd h hz⟩
      simp only
      omega
    · have hn2 : ¬ new = id := fun h => hn h.symm
      by_cases hp : id = sels c
      · have hp2 : sels c = id := hp.symm
        simp only [hp2, hn2, if_true, if_false, Nat.add_zero] at hsel
        have hge : (0 : Int) ≤ cnt - 1 := by omega
        refine ⟨⟨id, r, cnt - 1⟩, by simp [hz, hn, hp2, hge], rfl, fun _ => ?_,
          fun h => absurd h hz⟩
        simp only
        omega
      · have hp2 : ¬ sels c = id := fun h => hp h.symm
        simp only [hp2, hn2, if_false, Nat.add_zero] at hsel
        refine ⟨⟨id, r, cnt⟩, by simp [hz, hn, hp], rfl, fun _ => ?_, fun h => absurd h hz⟩
        simp only
        omega

theorem write_loop_inv (sels : Nat → Nat) (c new : Nat) (hc : c < nregs)
    (hne : new ≠ sels c) (em : List event_info) (h : CountInv sels em) :
    ∃ em1, write_loop c new (sels c) em = some em1 ∧
      em1.map (fun ei => ei.plat_event_id) = em.map (fun ei => ei.plat_event_id) ∧
      CountInv (Function.update sels c new) em1 := by
  induction em with
  | nil => exact ⟨[], rfl, rfl, fun _ hm => absurd hm (List.not_mem_nil _)⟩
  | cons ei rest ih =>
    have hhead := h ei (List.mem_cons_self _ _)
    obtain ⟨ei1, he1, hid, hc1, hc0⟩ := write_entry_inv sels c new hc hne ei hhead.1 hhead.2
    obtain ⟨rest1, hr1, hids, hinv⟩ := ih (fun x hx => h x (List.mem_cons_of_mem _ hx))
    refine ⟨ei1 :: rest1, ?_, ?_, ?_⟩
    · simp only [write_loop, he1, hr1]
    · simp only [List.map_cons, hid, hids]
    · intro x hx
      rcases List.mem_cons.mp hx with hx | hx
      · subst hx; exact ⟨hc1, hc0⟩
      · exact hinv x hx

theorem usable_loop_eq_all (em : List event_info) :
    usable_loop em = em.all (fun ei => decide (ei.count ≤ 1)) := by
  unfold usable_loop
  have key : ∀ (l : List event_info) (b : Bool),
      l.foldl (fun usable ei => if 1 < ei.count then false else usable) b
        = (b && l.all (fun ei => decide (ei.count ≤ 1))) := by
    intro l
    induction l with
    | nil => intro b; simp
    | cons a t ih =>
      intro b
      simp only [List.foldl_cons, List.all_cons, ih]
      by_cases ha : 1 < a.count
      · have : ¬ a.count ≤ 1 := by omega
        simp [ha, this]
      · have : a.count ≤ 1 := by omega
        simp [ha, this]
  rw [key]; simp

theorem selecting_eq_zero (sels : Nat → Nat) (id : Nat)
    (h : ∀ idx, idx < nregs → sels idx ≠ id) : selecting sels id = 0 := by
  unfold selecting
  rw [List.length_eq_zero, List.filter_eq_nil_iff]
  intro a ha
  simpa using h a (List.mem_range.mp ha)

theorem inv_reset (s0 : State) (h0 : NoTrackedSelector s0) :
    Inv s0 (reset_platform_events s0) := by
  refine ⟨?_, ?_, ?_, rfl, rfl⟩
  · intro ei hei
    simp only [reset_platform_events, List.mem_map] at hei
    obtain ⟨a, ha, rfl⟩ := hei
    refine ⟨fun hz => ?_, fun _ => rfl⟩
    simp only at hz ⊢
    have hsz : selecting (reset_platform_events s0).zmhpmevents a.plat_event_id = 0 :=
      selecting_eq_zero _ _ (fun idx hidx => h0 idx hidx a ha hz)
    rw [hsz]
    rfl
  · rw [usable_loop_eq_all]
    simp [reset_platform_events]
  · simp [reset_platform_events, Function.comp_def]

theorem inv_selector_write (s0 s : State) (h : Inv s0 s) (c new : Nat) (hc : c < nregs) :
    ∃ s1, selector_write s c new = some s1 ∧ Inv s0 s1 := by
  unfold selector_write riscv_write_mhpmevent
  by_cases hne : new = s.zmhpmevents c
  · refine ⟨{ s with zmhpmevents := Function.update s.zmhpmevents c new }, by simp [hne], ?_⟩
    have hup : Function.update s.zmhpmevents c new = s.zmhpmevents := by
      rw [hne]; exact Function.update_eq_self c s.zmhpmevents
    exact ⟨by simpa [hup] using h.counts, h.usable, h.ids, h.counters, h.inhibit⟩
  · obtain ⟨em1, hw, hids, hinv⟩ := write_loop_inv s.zmhpmevents c new hc hne s.event_map h.counts
    refine ⟨{ s with event_map := em1, usable_event_map := usable_loop em1,
                     zmhpmevents := Function.update s.zmhpmevents c new },
      by simp only [hne, if_false, hw], ?_⟩
    exact ⟨hinv, rfl, hids.trans h.ids, h.counters, h.inhibit⟩

theorem inv_run_writes (s0 : State) (ws : List (Nat × Nat))
    (hw : ∀ w ∈ ws, w.1 < nregs) :
    ∀ s, Inv s0 s → ∃ s1, run_writes s ws = some s1 ∧ Inv s0 s1 := by
  induction ws with
  | nil => intro s h; exact ⟨s, rfl, h⟩
  | cons w ws ih =>
    intro s h
    obtain ⟨s1, h1, hi1⟩ := inv_selector_write s0 s h w.1 w.2 (hw w (List.mem_cons_self _ _))
    obtain ⟨s2, h2, hi2⟩ := ih (fun x hx => hw x (List.mem_cons_of_mem _ hx)) s1 hi1
    exact ⟨s2, by simp only [run_writes, h1, h2], hi2⟩

/-! ## Effect of the drain on the counters -/

theorem Frame.refl (s : State) : Frame s s := ⟨rfl, rfl, rfl, rfl⟩

theorem Frame.trans {s t u : State} (h1 : Frame s t) (h2 : Frame t u) : Frame s u :=
  ⟨h2.event_map.trans h1.event_map, h2.usable.trans h1.usable, h2.sels.trans h1.sels,
    h2.inh.trans h1.inh⟩

theorem increment_hpm_counter_spec (s : State) (r : Nat) :
    Frame s (increment_hpm_counter s r) ∧
    ∀ c, (increment_hpm_counter s r).zmhpmcounters c =
      if c = r ∧ ¬ inhibited s.zmcountinhibit r then (s.zmhpmcounters c + 1) % 2 ^ 64
      else s.zmhpmcounters c := by
  refine ⟨?_, fun c => ?_⟩
  · unfold increment_hpm_counter
    simp only
    split_ifs
    · exact ⟨rfl, rfl, rfl, rfl⟩
    · exact Frame.refl s
  · unfold increment_hpm_counter inhibited
    simp only
    by_cases h : 1 &&& (s.zmcountinhibit >>> (r + 3)) = 0
    · rw [if_pos h]
      by_cases hc : c = r
      · subst hc
        rw [if_pos ⟨rfl, fun h2 => h2 h⟩]
        exact Function.update_same _ _ _
      · rw [if_neg (fun h2 => hc h2.1)]
        exact Function.update_noteq hc _ _
    · rw [if_neg h, if_neg (fun h2 => h2.2 h)]

theorem slow_fold_spec (id : Nat) (l : List Nat) (hl : l.Nodup) :
    ∀ s : State,
      Frame s (l.foldl (fun st idx =>
        if st.zmhpmevents idx = id then increment_hpm_counter st idx else st) s) ∧
      ∀ c, (l.foldl (fun st idx =>
        if st.zmhpmevents idx = id then increment_hpm_counter st idx else st) s).zmhpmcounters c =
        if c ∈ l ∧ s.zmhpmevents c = id ∧ ¬ inhibited s.zmcountinhibit c then
          (s.zmhpmcounters c + 1) % 2 ^ 64
        else s.zmhpmcounters c := by
  induction l with
  | nil => intro s; exact ⟨Frame.refl s, fun c => by simp⟩
  | cons a rest ih =>
    intro s
    have hnd := List.nodup_cons.mp hl
    simp only [List.foldl_cons]
    by_cases ha : s.zmhpmevents a = id
    · simp only [ha, if_true]
      obtain ⟨hf1, hc1⟩ := increment_hpm_counter_spec s a
      obtain ⟨hf2, hc2⟩ := ih hnd.2 (increment_hpm_counter s a)
      refine ⟨hf1.trans hf2, fun c => ?_⟩
      rw [hc2 c, hc1 c, hf1.sels, hf1.inh]
      by_cases hca : c = a
      · subst hca
        have hnot : c ∉ rest := hnd.1
        simp [hnot, ha]
      · simp [hca]
    · simp only [ha, if_false]
      obtain ⟨hf2, hc2⟩ := ih hnd.2 s
      refine ⟨hf2, fun c => ?_⟩
      rw [hc2 c]
      by_cases hca : c = a
      · subst hca
        have hnot : c ∉ rest := hnd.1
        simp [hnot, ha]
      · simp [hca]

theorem slow_process_hpm_selector_spec (s : State) (id : Nat) :
    Frame s (slow_process_hpm_selector s id) ∧
    ∀ c, (slow_process_hpm_selector s id).zmhpmcounters c =
      if c < nregs ∧ s.zmhpmevents c = id ∧ ¬ inhibited s.zmcountinhibit c then
        (s.zmhpmcounters c + 1) % 2 ^ 64
      else s.zmhpmcounters c := by
  unfold slow_process_hpm_selector
  refine ⟨(slow_fold_spec id (List.range nregs) (List.nodup_range nregs) s).1, fun c => ?_⟩
  rw [(slow_fold_spec id (List.range nregs) (List.nodup_range nregs) s).2 c]
  simp only [List.mem_range]

/-- An inhibited counter is not changed by one loop iteration of the drain. -/
theorem process_event_inhibited (acc : Nat) (s : State) (eid : Nat) (ei : event_info)
    (r : Nat) (hr : inhibited s.zmcountinhibit r) :
    Frame s (process_event acc s eid ei) ∧
    (process_event acc s eid ei).zmhpmcounters r = s.zmhpmcounters r := by
  unfold process_event
  split_ifs with h1 h2 h3 h4
  · exact ⟨Frame.refl s, rfl⟩
  · obtain ⟨hf, hc⟩ := increment_hpm_counter_spec s ei.regidx
    refine ⟨hf, ?_⟩
    rw [hc r]
    by_cases hre : r = ei.regidx
    · subst hre; simp [hr]
    · simp [hre]
  · exact ⟨Frame.refl s, rfl⟩
  · obtain ⟨hf, hc⟩ := slow_process_hpm_selector_spec s ei.plat_event_id
    refine ⟨hf, ?_⟩
    rw [hc r]
    simp [hr]
  · exact ⟨Frame.refl s, rfl⟩

theorem process_loop_inhibited (acc : Nat) (r : Nat) (l : List event_info) :
    ∀ (s : State) (eid : Nat), inhibited s.zmcountinhibit r →
      Frame s (process_loop acc s eid l) ∧
      (process_loop acc s eid l).zmhpmcounters r = s.zmhpmcounters r := by
  induction l with
  | nil => intro s eid _; exact ⟨Frame.refl s, rfl⟩
  | cons ei rest ih =>
    intro s eid hr
    obtain ⟨hf1, hc1⟩ := process_event_inhibited acc s eid ei r hr
    obtain ⟨hf2, hc2⟩ := ih (process_event acc s eid ei) (eid + 1) (by rw [hf1.inh]; exact hr)
    exact ⟨hf1.trans hf2, by simp only [process_loop]; rw [hc2, hc1]⟩

theorem process_event_slow_spec (acc : Nat) (s : State) (eid : Nat) (ei : event_info)
    (hu : s.usable_event_map = false) :
    Frame s (process_event acc s eid ei) ∧
    ∀ c, (process_event acc s eid ei).zmhpmcounters c =
      if (pending acc eid ∧ ei.plat_event_id ≠ 0) ∧
          c < nregs ∧ s.zmhpmevents c = ei.plat_event_id ∧ ¬ inhibited s.zmcountinhibit c then
        (s.zmhpmcounters c + 1) % 2 ^ 64
      else s.zmhpmcounters c := by
  unfold process_event pending
  by_cases h1 : (acc >>> eid) &&& 1 ≠ 0
  · by_cases h2 : ei.plat_event_id = 0
    · rw [if_pos h1, if_pos h2]
      exact ⟨Frame.refl s, fun c => by rw [if_neg (fun h => h.1.2 h2)]⟩
    · rw [if_pos h1, if_neg h2, hu]
      simp only [Bool.false_eq_true, if_false]
      obtain ⟨hf, hc⟩ := slow_process_hpm_selector_spec s ei.plat_event_id
      refine ⟨hf, fun c => ?_⟩
      rw [hc c]
      by_cases h3 : c < nregs ∧ s.zmhpmevents c = ei.plat_event_id ∧
          ¬ inhibited s.zmcountinhibit c
      · rw [if_pos h3, if_pos ⟨⟨h1, h2⟩, h3⟩]
      · rw [if_neg h3, if_neg (fun h => h3 h.2)]
  · rw [if_neg h1]
    exact ⟨Frame.refl s, fun c => by rw [if_neg (fun h => h1 h.1.1)]⟩

theorem process_loop_slow_single (acc id e : Nat) (l : List event_info) :
    ∀ (s : State) (eid : Nat), s.usable_event_map = false →
      (∀ p ∈ l.enumFrom eid, pending acc p.1 → p.2.plat_event_id ≠ 0 →
        p.1 = e ∧ p.2.plat_event_id = id) →
      Frame s (process_loop acc s eid l) ∧
      ∀ c, (process_loop acc s eid l).zmhpmcounters c =
        if (∃ p ∈ l.enumFrom eid, pending acc p.1 ∧ p.2.plat_event_id ≠ 0) ∧
            (c < nregs ∧ s.zmhpmevents c = id ∧ ¬ inhibited s.zmcountinhibit c) then
          (s.zmhpmcounters c + 1) % 2 ^ 64
        else s.zmhpmcounters c := by
  induction l with
  | nil =>
    intro s eid _ _
    refine ⟨Frame.refl s, fun c => ?_⟩
    have hno : ¬ ((∃ p ∈ ([] : List event_info).enumFrom eid,
        pending acc p.1 ∧ p.2.plat_event_id ≠ 0) ∧
        (c < nregs ∧ s.zmhpmevents c = id ∧ ¬ inhibited s.zmcountinhibit c)) := by
      rintro ⟨⟨p, hp, _⟩, _⟩
      simp at hp
    rw [if_neg hno]
    rfl
  | cons ei rest ih =>
    intro s eid hu hall
    obtain ⟨hf1, hc1⟩ := process_event_slow_spec acc s eid ei hu
    have hall_rest : ∀ p ∈ rest.enumFrom (eid + 1), pending acc p.1 →
        p.2.plat_event_id ≠ 0 → p.1 = e ∧ p.2.plat_event_id = id := by
      intro p hp
      exact hall p (by simp only [List.enumFrom_cons, List.mem_cons]; exact Or.inr hp)
    obtain ⟨hf2, hc2⟩ := ih (process_event acc s eid ei) (eid + 1)
      (by rw [hf1.usable]; exact hu) hall_rest
    refine ⟨hf1.trans hf2, fun c => ?_⟩
    simp only [process_loop]
    rw [hc2 c, hc1 c, hf1.sels, hf1.inh]
    have hex_iff : (∃ p ∈ (ei :: rest).enumFrom eid, pending acc p.1 ∧ p.2.plat_event_id ≠ 0) ↔
        (pending acc eid ∧ ei.plat_event_id ≠ 0) ∨
          ∃ p ∈ rest.enumFrom (eid + 1), pending acc p.1 ∧ p.2.plat_event_id ≠ 0 := by
      simp only [List.enumFrom_cons, List.mem_cons, exists_eq_or_imp]
    by_cases hsel : c < nregs ∧ s.zmhpmevents c = id ∧ ¬ inhibited s.zmcountinhibit c
    · by_cases hhead : pending acc eid ∧ ei.plat_event_id ≠ 0
      · have hhe := hall (eid, ei) (by simp) hhead.1 hhead.2
        have hrest : ¬ ∃ p ∈ rest.enumFrom (eid + 1),
            pending acc p.1 ∧ p.2.plat_event_id ≠ 0 := by
          rintro ⟨p, hp, hpp, hp0⟩
          have h1 := (hall_rest p hp hpp hp0).1
          have h2 := List.le_fst_of_mem_enumFrom hp
          have h3 : eid = e := hhe.1
          omega
        have hA : ¬ ((∃ p ∈ rest.enumFrom (eid + 1),
            pending acc p.1 ∧ p.2.plat_event_id ≠ 0) ∧
            (c < nregs ∧ s.zmhpmevents c = id ∧ ¬ inhibited s.zmcountinhibit c)) :=
          fun h => hrest h.1
        have hB : (pending acc eid ∧ ei.plat_event_id ≠ 0) ∧ c < nregs ∧
            s.zmhpmevents c = ei.plat_event_id ∧ ¬ inhibited s.zmcountinhibit c :=
          ⟨hhead, hsel.1, hsel.2.1.trans hhe.2.symm, hsel.2.2⟩
        have hC : (∃ p ∈ (ei :: rest).enumFrom eid,
            pending acc p.1 ∧ p.2.plat_event_id ≠ 0) ∧
            (c < nregs ∧ s.zmhpmevents c = id ∧ ¬ inhibited s.zmcountinhibit c) :=
          ⟨hex_iff.mpr (Or.inl hhead), hsel⟩
        rw [if_neg hA, if_pos hB, if_pos hC]
      · have hB : ¬ ((pending acc eid ∧ ei.plat_event_id ≠ 0) ∧ c < nregs ∧
            s.zmhpmevents c = ei.plat_event_id ∧ ¬ inhibited s.zmcountinhibit c) :=
          fun h => hhead h.1
        by_cases hrest : ∃ p ∈ rest.enumFrom (eid + 1),
            pending acc p.1 ∧ p.2.plat_event_id ≠ 0
        · have hA : (∃ p ∈ rest.enumFrom (eid + 1),
              pending acc p.1 ∧ p.2.plat_event_id ≠ 0) ∧
              (c < nregs ∧ s.zmhpmevents c = id ∧ ¬ inhibited s.zmcountinhibit c) :=
            ⟨hrest, hsel⟩
          have hC : (∃ p ∈ (ei :: rest).enumFrom eid,
              pending acc p.1 ∧ p.2.plat_event_id ≠ 0) ∧
              (c < nregs ∧ s.zmhpmevents c = id ∧ ¬ inhibited s.zmcountinhibit c) :=
            ⟨hex_iff.mpr (Or.inr hrest), hsel⟩
          rw [if_pos hA, if_neg hB, if_pos hC]
        · have hA : ¬ ((∃ p ∈ rest.enumFrom (eid + 1),
              pending acc p.1 ∧ p.2.plat_event_id ≠ 0) ∧
              (c < nregs ∧ s.zmhpmevents c = id ∧ ¬ inhibited s.zmcountinhibit c)) :=
            fun h => hrest h.1
          have hC : ¬ ((∃ p ∈ (ei :: rest).enumFrom eid,
              pending acc p.1 ∧ p.2.plat_event_id ≠ 0) ∧
              (c < nregs ∧ s.zmhpmevents c = id ∧ ¬ inhibited s.zmcountinhibit c)) :=
            fun h => (hex_iff.mp h.1).elim hhead hrest
          rw [if_neg hA, if_neg hB, if_neg hC]
    · have hA : ¬ ((∃ p ∈ rest.enumFrom (eid + 1),
          pending acc p.1 ∧ p.2.plat_event_id ≠ 0) ∧
          (c < nregs ∧ s.zmhpmevents c = id ∧ ¬ inhibited s.zmcountinhibit c)) :=
        fun h => hsel h.2
      have hC : ¬ ((∃ p ∈ (ei :: rest).enumFrom eid,
          pending acc p.1 ∧ p.2.plat_event_id ≠ 0) ∧
          (c < nregs ∧ s.zmhpmevents c = id ∧ ¬ inhibited s.zmcountinhibit c)) :=
        fun h => hsel h.2
      by_cases hB : (pending acc eid ∧ ei.plat_event_id ≠ 0) ∧ c < nregs ∧
          s.zmhpmevents c = ei.plat_event_id ∧ ¬ inhibited s.zmcountinhibit c
      · have hhe := hall (eid, ei) (by simp) hB.1.1 hB.1.2
        exact absurd ⟨hB.2.1, hB.2.2.1.trans hhe.2, hB.2.2.2⟩ hsel
      · rw [if_neg hA, if_neg hB, if_neg hC]

theorem usable_false_of_count (em : List event_info) (h : ∃ ei ∈ em, 1 < ei.count) :
    usable_loop em = false := by
  rw [usable_loop_eq_all, List.all_eq_false]
  obtain ⟨ei, hm, hc⟩ := h
  exact ⟨ei, hm, by simp only [decide_eq_true_eq]; omega⟩

/-! ## Properties of the event multiplexer -/

theorem noTrackedSelector_demo : NoTrackedSelector demo := by
  intro idx _ ei _ hz h
  exact hz h.symm

/-- C1 (the code departs from the claim). From reset, the writes 5 := 10,
7 := 10, 7 := 0 (each passing the true previous value) leave selector 5
holding the id of event kind 0 and selector 7 holding no tracked id.  With
event kind 0 signalled and no counter inhibited, the drain leaves counter 5
unchanged and adds one to counter 7: the fast path follows the stale `regidx`
recorded by the second write. -/
theorem drain_follows_stale_regidx :
    run_writes (reset_platform_events demo) [(5, 10), (7, 10), (7, 0)] = some demo_stale ∧
    DistinctIds demo_stale.event_map ∧
    demo_stale.event_map[0]? = some ⟨10, 7, 1⟩ ∧
    demo_stale.zmhpmevents 5 = 10 ∧ demo_stale.zmhpmevents 7 = 0 ∧
    ¬ inhibited demo_stale.zmcountinhibit 5 ∧ ¬ inhibited demo_stale.zmcountinhibit 7 ∧
    ∃ s1, riscv_signal_event demo_stale 0 = some s1 ∧ pending s1.hpm_eventset 0 ∧
      (process_hpm_events s1).zmhpmcounters 5 = demo_stale.zmhpmcounters 5 ∧
      (process_hpm_events s1).zmhpmcounters 7 = demo_stale.zmhpmcounters 7 + 1 := by
  refine ⟨rfl, by decide, by decide, by decide, by decide, by decide, by decide, ?_⟩
  exact ⟨{ demo_stale with hpm_eventset := 1, zhpm_eventset := 1 }, rfl, by decide, by decide,
    by decide⟩

/-- C2. Selector-count invariant: from the reset state with no selector
holding a tracked id, every sequence of selector writes to counters below 29,
each passing the value the selector held before, runs without an assertion
failure, and afterwards no count is negative and the count of every event kind
with a non-zero platform event id equals the number of selector registers
currently holding that id. -/
theorem selector_count_invariant (s0 : State) (h0 : NoTrackedSelector s0)
    (ws : List (Nat × Nat)) (hw : ∀ w ∈ ws, w.1 < nregs) :
    ∃ s, run_writes (reset_platform_events s0) ws = some s ∧
      ∀ (e : Nat) (ei : event_info), s.event_map[e]? = some ei →
        0 ≤ ei.count ∧
        (ei.plat_event_id ≠ 0 →
          ei.count = (selecting s.zmhpmevents ei.plat_event_id : Int)) := by
  obtain ⟨s, hs, hinv⟩ := inv_run_writes s0 ws hw _ (inv_reset s0 h0)
  refine ⟨s, hs, fun e ei he => ?_⟩
  have hm : ei ∈ s.event_map := List.getElem?_mem he
  have h := hinv.counts ei hm
  refine ⟨?_, h.1⟩
  by_cases hz : ei.plat_event_id = 0
  · rw [h.2 hz]
  · rw [h.1 hz]; exact Int.ofNat_nonneg _

/-- The selector-count invariant on the machine `demo` after the writes
5 := 10, 7 := 10, 7 := 0. -/
theorem selector_count_invariant_witness :
    NoTrackedSelector demo ∧ (∀ w ∈ [(5, 10), (7, 10), (7, 0)], w.1 < nregs) ∧
    ∃ s, run_writes (reset_platform_events demo) [(5, 10), (7, 10), (7, 0)] = some s ∧
      ∀ (e : Nat) (ei : event_info), s.event_map[e]? = some ei →
        0 ≤ ei.count ∧
        (ei.plat_event_id ≠ 0 →
          ei.count = (selecting s.zmhpmevents ei.plat_event_id : Int)) :=
  ⟨noTrackedSelector_demo, by decide,
    selector_count_invariant demo noTrackedSelector_demo [(5, 10), (7, 10), (7, 0)] (by decide)⟩

/-- C3 (the code departs from the claim). After the writes 5 := 10, 7 := 10,
7 := 0 from reset every event kind has count at most 1 and the fast-path flag
is set, yet with event kind 0 pending the fast path increments counter 7 and
not counter 5, while the slow path on the same state increments counter 5 and
not counter 7. -/
theorem fast_path_differs_from_slow_path :
    run_writes (reset_platform_events demo) [(5, 10), (7, 10), (7, 0)] = some demo_stale ∧
    (∀ ei ∈ demo_stale.event_map, ei.count ≤ 1) ∧ demo_stale.usable_event_map = true ∧
    (process_hpm_events { demo_stale with hpm_eventset := 1 }).zmhpmcounters 5 = 0 ∧
    (process_hpm_events { demo_stale with hpm_eventset := 1 }).zmhpmcounters 7 = 1 ∧
    (process_hpm_events_slow { demo_stale with hpm_eventset := 1 }).zmhpmcounters 5 = 1 ∧
    (process_hpm_events_slow { demo_stale with hpm_eventset := 1 }).zmhpmcounters 7 = 0 := by
  refine ⟨rfl, by decide, by decide, by decide, by decide, by decide, by decide⟩

/-- C4 as stated fails: after the writes 5 := 10, 7 := 10, 6 := 20 event kind
0 has count 2; draining the pending set holding event kinds 0 and 1 changes
counter 6, whose selector does not hold the id of event kind 0. -/
theorem drain_changes_unselected_counter :
    run_writes (reset_platform_events demo) [(5, 10), (7, 10), (6, 20)]
      = some demo_aliased_two ∧
    demo_aliased_two.event_map[0]? = some ⟨10, 7, 2⟩ ∧ pending 3 0 ∧
    demo_aliased_two.usable_event_map = false ∧
    demo_aliased_two.zmhpmevents 6 ≠ 10 ∧
    (process_hpm_events { demo_aliased_two with hpm_eventset := 3 }).zmhpmcounters 6
      ≠ demo_aliased_two.zmhpmcounters 6 := by
  refine ⟨rfl, by decide, by decide, by decide, by decide, by decide⟩

/-- C4 (amended). After any sequence of selector writes from reset, if some
event kind has count above 1 then `usable_event_map` is false, and draining a
pending set in which that event kind is pending and is the only pending
tracked kind adds exactly one (modulo 2^64) to every counter below 29 that is
not inhibited and whose selector holds the id of the event, and leaves every
other counter unchanged. -/
theorem aliased_drain (s0 : State) (h0 : NoTrackedSelector s0) (ws : List (Nat × Nat))
    (hw : ∀ w ∈ ws, w.1 < nregs) :
    ∃ s, run_writes (reset_platform_events s0) ws = some s ∧
      ∀ (e : Nat) (ei : event_info), s.event_map[e]? = some ei → 1 < ei.count →
        s.usable_event_map = false ∧
        ∀ p, pending p e →
          (∀ (e1 : Nat) (ei1 : event_info), s.event_map[e1]? = some ei1 → pending p e1 →
            ei1.plat_event_id ≠ 0 → e1 = e) →
          ∀ c, (process_hpm_events { s with hpm_eventset := p }).zmhpmcounters c =
            if c < nregs ∧ s.zmhpmevents c = ei.plat_event_id ∧
                ¬ inhibited s.zmcountinhibit c then
              (s.zmhpmcounters c + 1) % 2 ^ 64
            else s.zmhpmcounters c := by
  obtain ⟨s, hs, hinv⟩ := inv_run_writes s0 ws hw _ (inv_reset s0 h0)
  refine ⟨s, hs, fun e ei he hcnt => ?_⟩
  have hmem : ei ∈ s.event_map := List.getElem?_mem he
  have hu : s.usable_event_map = false := by
    rw [hinv.usable]; exact usable_false_of_count _ ⟨ei, hmem, hcnt⟩
  have htracked : ei.plat_event_id ≠ 0 := by
    intro hz
    have := (hinv.counts ei hmem).2 hz
    omega
  refine ⟨hu, fun p hp honly c => ?_⟩
  have hall : ∀ q ∈ s.event_map.enumFrom 0, pending p q.1 → q.2.plat_event_id ≠ 0 →
      q.1 = e ∧ q.2.plat_event_id = ei.plat_event_id := by
    rintro ⟨e1, ei1⟩ hq hq1 hq2
    have hget : s.event_map[e1]? = some ei1 := List.mk_mem_enum_iff_getElem?.mp hq
    have he1 : e1 = e := honly e1 ei1 hget hq1 hq2
    subst he1
    rw [he] at hget
    exact ⟨rfl, by rw [Option.some.inj hget]⟩
  have hspec := (process_loop_slow_single p ei.plat_event_id e s.event_map
    { s with hpm_eventset := p } 0 hu hall).2 c
  have hex : ∃ q ∈ s.event_map.enumFrom 0, pending p q.1 ∧ q.2.plat_event_id ≠ 0 :=
    ⟨(e, ei), List.mk_mem_enum_iff_getElem?.mpr he, hp, htracked⟩
  simp only [process_hpm_events]
  rw [hspec]
  by_cases hsel : c < nregs ∧ s.zmhpmevents c = ei.plat_event_id ∧
      ¬ inhibited s.zmcountinhibit c
  · rw [if_pos ⟨hex, hsel⟩, if_pos hsel]
  · rw [if_neg (fun h => hsel h.2), if_neg hsel]

/-- The aliased drain on the machine `demo`: after the writes 5 := 10 and
7 := 10, signalling event kind 0 once and draining adds one to counters 5 and
7 and changes no other counter. -/
theorem aliased_drain_witness :
    NoTrackedSelector demo ∧ (∀ w ∈ [(5, 10), (7, 10)], w.1 < nregs) ∧
    run_writes (reset_platform_events demo) [(5, 10), (7, 10)] = some demo_aliased ∧
    riscv_signal_event demo_aliased 0 = some demo_aliased_pending ∧
    demo_aliased.usable_event_map = false ∧
    ∀ c, (process_hpm_events demo_aliased_pending).zmhpmcounters c
      = if c = 5 ∨ c = 7 then demo_aliased.zmhpmcounters c + 1
        else demo_aliased.zmhpmcounters c := by
  refine ⟨noTrackedSelector_demo, by decide, rfl, rfl, rfl, fun c => ?_⟩
  obtain ⟨s, hs, h⟩ := aliased_drain demo noTrackedSelector_demo [(5, 10), (7, 10)]
    (by decide)
  have hs2 : run_writes (reset_platform_events demo) [(5, 10), (7, 10)] = some demo_aliased :=
    rfl
  rw [hs2] at hs
  have hse := Option.some.inj hs
  subst hse
  have honly : ∀ (e1 : Nat) (ei1 : event_info), demo_aliased.event_map[e1]? = some ei1 →
      pending 1 e1 → ei1.plat_event_id ≠ 0 → e1 = 0 := by
    intro e1 ei1 hget hp _
    match e1, hget, hp with
    | 0, _, _ => rfl
    | 1, _, hp => exact absurd hp (by decide)
    | n + 2, hget, _ => simp [demo_aliased] at hget
  have hc := (h 0 ⟨10, 7, 2⟩ rfl (by decide)).2 1 (by decide) honly c
  have hgoal : (process_hpm_events demo_aliased_pending).zmhpmcounters c
      = (process_hpm_events { demo_aliased with hpm_eventset := 1 }).zmhpmcounters c := rfl
  rw [hgoal, hc]
  by_cases h5 : c = 5
  · subst h5; decide
  · by_cases h7 : c = 7
    · subst h7; decide
    · have hsel : demo_aliased.zmhpmevents c = 0 := by
        simp only [demo_aliased]
        rw [Function.update_noteq h7, Function.update_noteq h5]
      have hno : ¬ (c = 5 ∨ c = 7) := fun h => h.elim h5 h7
      rw [if_neg hno, hsel, if_neg]
      intro h
      exact absurd h.2.1 (by decide)

/-- C5. Inhibit frame property: for every state of the multiplexer, selector
table, pending set and inhibit register, a counter whose inhibit bit (bit
`r + 3`) is set has the same value after `process_hpm_events` as before, on
the dispatch chosen by the flag and on the slow dispatch. -/
theorem inhibited_counter_unchanged (s : State) (r : Nat)
    (hr : Nat.testBit s.zmcountinhibit (r + 3) = true) :
    (process_hpm_events s).zmhpmcounters r = s.zmhpmcounters r ∧
    (process_hpm_events_slow s).zmhpmcounters r = s.zmhpmcounters r := by
  have hi : inhibited s.zmcountinhibit r := by
    unfold inhibited
    simpa [Nat.testBit] using hr
  constructor
  · exact (process_loop_inhibited s.hpm_eventset r s.event_map s 0 hi).2
  · exact (process_loop_inhibited s.hpm_eventset r s.event_map
      { s with usable_event_map := false } 0 hi).2

/-- The inhibited counter 5 of `demo_inhibited` keeps its value 7 through the
drain. -/
theorem inhibited_counter_unchanged_witness :
    Nat.testBit demo_inhibited.zmcountinhibit (5 + 3) = true ∧
    (process_hpm_events demo_inhibited).zmhpmcounters 5 = 7 ∧
    (process_hpm_events_slow demo_inhibited).zmhpmcounters 5 = 7 :=
  ⟨by decide, inhibited_counter_unchanged demo_inhibited 5 (by decide)⟩

/-! ## Signalling and the fast-path flag -/

/-- C14 (the code departs from the claim). The hook computes the bit as the
`int` expression `0x1 << id`.  For event kind 30 the pending set gains bit 30
and nothing else; for event kinds 31 and 63, which are below the maximum of
64 kinds, the shift overflows the 32-bit `int` and the C behaviour is
undefined, so no pending set with exactly that bit added is produced. -/
theorem signal_event_shift_overflows :
    riscv_signal_event demo 30
      = some { demo with hpm_eventset := 2 ^ 30, zhpm_eventset := 2 ^ 30 } ∧
    riscv_signal_event demo 31 = none ∧
    riscv_signal_event demo 63 = none := by
  refine ⟨?_, rfl, rfl⟩
  simp only [riscv_signal_event]
  rfl

theorem set_plat_event_id_counts (em : List event_info) :
    ∀ idx id, (set_plat_event_id em idx id).map (fun ei => ei.count)
      = em.map (fun ei => ei.count) := by
  induction em with
  | nil => intro idx id; rfl
  | cons ei rest ih =>
    intro idx id
    cases idx with
    | zero => rfl
    | succ n => simp only [set_plat_event_id, List.map_cons, ih]

theorem init_loop_counts (E_last : Nat) (es : List riscv_hpm_event) :
    ∀ (cnt : Nat) (em em1 : List event_info), init_loop E_last es cnt em = some em1 →
      em1.map (fun ei => ei.count) = em.map (fun ei => ei.count) := by
  induction es with
  | nil => intro cnt em em1 h; cases h
  | cons e rest ih =>
    intro cnt em em1 h
    unfold init_loop at h
    split_ifs at h with h1 h2 h3 h4
    · cases h; rfl
    · rw [ih _ _ _ h, set_plat_event_id_counts]

theorem init_loop_total (E_last : Nat) (last : riscv_hpm_event) (post : List riscv_hpm_event)
    (hlast : last.event = E_last) (pre : List riscv_hpm_event) :
    ∀ (cnt : Nat) (em : List event_info), cnt + pre.length ≤ 64 →
      (∀ e ∈ pre, e.event < E_last ∧ e.plat_event_id ≠ 0) →
      ∃ em1, init_loop E_last (pre ++ last :: post) cnt em = some em1 := by
  induction pre with
  | nil =>
    intro cnt em _ _
    exact ⟨em, by simp only [List.nil_append, init_loop, hlast, if_true]⟩
  | cons e rest ih =>
    intro cnt em hlen hall
    have he := hall e (List.mem_cons_self _ _)
    have hne : ¬ e.event = E_last := by omega
    have hcnt : cnt < 64 := by simp only [List.length_cons] at hlen; omega
    obtain ⟨em1, h1⟩ := ih (cnt + 1) (set_plat_event_id em e.event e.plat_event_id)
      (by simp only [List.length_cons] at hlen; omega)
      (fun x hx => hall x (List.mem_cons_of_mem _ hx))
    refine ⟨em1, ?_⟩
    simp only [List.cons_append, init_loop, hne, if_false, hcnt, not_true_eq_false, he.1,
      he.2]
    exact h1

theorem counts_zero_of_map (em : List event_info) (n : Nat)
    (h : em.map (fun ei => ei.count)
      = (List.replicate n (⟨0, 0, 0⟩ : event_info)).map (fun ei => ei.count)) :
    ∀ ei ∈ em, ei.count = 0 := by
  intro ei hei
  have hm : ei.count ∈ em.map (fun ei => ei.count) := List.mem_map_of_mem _ hei
  rw [h, List.map_replicate] at hm
  exact (List.mem_replicate.mp hm).2

theorem init_platform_events_counts (s s1 : State) (events : Option (List riscv_hpm_event))
    (h : init_platform_events s events = some s1) :
    s1.usable_event_map = true ∧ ∀ ei ∈ s1.event_map, ei.count = 0 := by
  unfold init_platform_events at h
  cases events with
  | none =>
    simp only at h
    cases h
    exact ⟨rfl, counts_zero_of_map _ s.event_map.length rfl⟩
  | some es =>
    simp only at h
    cases hl : init_loop s.event_map.length es 0
        (List.replicate s.event_map.length (⟨0, 0, 0⟩ : event_info)) with
    | none => rw [hl] at h; cases h
    | some em =>
      rw [hl] at h
      cases h
      exact ⟨rfl, counts_zero_of_map _ s.event_map.length (init_loop_counts _ _ _ _ _ hl)⟩

theorem write_mhpmevent_usable (s s1 : State) (c new prev : Nat) (hne : new ≠ prev)
    (h : riscv_write_mhpmevent s c new prev = some s1) :
    s1.usable_event_map = usable_loop s1.event_map := by
  unfold riscv_write_mhpmevent at h
  rw [if_neg hne] at h
  cases hw : write_loop c new prev s.event_map with
  | none => rw [hw] at h; cases h
  | some em =>
    rw [hw] at h
    cases h
    rfl

theorem usable_loop_iff (em : List event_info) :
    usable_loop em = true ↔ ∀ ei ∈ em, ei.count ≤ 1 := by
  rw [usable_loop_eq_all, List.all_eq_true]
  constructor
  · intro h ei hei
    simpa using h ei hei
  · intro h ei hei
    simpa using h ei hei

/-- C15. Fast-path flag.  After `init_platform_events` (which returns for the
null pointer and for every well-formed table), after `reset_platform_events`
and after every call `riscv_write_mhpmevent(c, new, prev)` with `new != prev`,
`usable_event_map` is true if and only if every event kind has count at most
1; a call with `new == prev` returns the state unchanged. -/
theorem fast_path_flag :
    (∀ s : State, ∃ s1, init_platform_events s none = some s1) ∧
    (∀ (s : State) (es : List riscv_hpm_event), WellFormedTable s.event_map.length es →
      ∃ s1, init_platform_events s (some es) = some s1) ∧
    (∀ (s s1 : State) (events : Option (List riscv_hpm_event)),
      init_platform_events s events = some s1 →
      (s1.usable_event_map = true ↔ ∀ ei ∈ s1.event_map, ei.count ≤ 1)) ∧
    (∀ s : State, (reset_platform_events s).usable_event_map = true ↔
      ∀ ei ∈ (reset_platform_events s).event_map, ei.count ≤ 1) ∧
    (∀ (s s1 : State) (c new prev : Nat), new ≠ prev →
      riscv_write_mhpmevent s c new prev = some s1 →
      (s1.usable_event_map = true ↔ ∀ ei ∈ s1.event_map, ei.count ≤ 1)) ∧
    (∀ (s : State) (c new : Nat), riscv_write_mhpmevent s c new new = some s) := by
  refine ⟨fun s => ⟨_, rfl⟩, fun s es hwf => ?_, fun s s1 events h => ?_, fun s => ?_,
    fun s s1 c new prev hne h => ?_, fun s c new => ?_⟩
  · obtain ⟨pre, last, post, hes, hlast, hlen, hall⟩ := hwf
    obtain ⟨em1, h1⟩ := init_loop_total s.event_map.length last post hlast pre 0
      (List.replicate s.event_map.length (⟨0, 0, 0⟩ : event_info)) (by omega) hall
    subst hes
    exact ⟨{ s with hpm_eventset := 0, usable_event_map := true, event_map := em1 },
      by simp only [init_platform_events, h1]⟩
  · obtain ⟨hu, hc⟩ := init_platform_events_counts s s1 events h
    exact ⟨fun _ ei hei => by rw [hc ei hei]; decide, fun _ => hu⟩
  · constructor
    · intro _ ei hei
      simp only [reset_platform_events, List.mem_map] at hei
      obtain ⟨a, _, rfl⟩ := hei
      show (0 : Int) ≤ 1
      decide
    · intro _; rfl
  · rw [write_mhpmevent_usable s s1 c new prev hne h]
    exact usable_loop_iff _
  · simp only [riscv_write_mhpmevent, if_true]

/-- The flag on the machine `demo`: the table `demo_events` initialises it,
and the writes 5 := 10 and 7 := 10 clear the flag exactly when the count of
event kind 0 reaches 2. -/
theorem fast_path_flag_witness :
    WellFormedTable demo.event_map.length demo_events ∧
    (∃ s1, init_platform_events demo (some demo_events) = some s1) ∧
    (demo.usable_event_map = true ↔ ∀ ei ∈ demo.event_map, ei.count ≤ 1) ∧
    (demo_aliased.usable_event_map = true ↔ ∀ ei ∈ demo_aliased.event_map, ei.count ≤ 1) ∧
    riscv_write_mhpmevent demo_aliased 5 10 10 = some demo_aliased :=
  ⟨⟨[⟨0, 10⟩, ⟨1, 20⟩], ⟨2, 0⟩, [], rfl, rfl, by decide, by decide⟩,
    fast_path_flag.2.1 demo demo_events
      ⟨[⟨0, 10⟩, ⟨1, 20⟩], ⟨2, 0⟩, [], rfl, rfl, by decide, by decide⟩,
    fast_path_flag.2.2.1 demo demo (some demo_events) rfl,
    fast_path_flag.2.2.2.2.1 demo_before_alias demo_aliased 7 10 0 (by decide) rfl,
    fast_path_flag.2.2.2.2.2 demo_aliased 5 10⟩

end Hpm

namespace Sim

/-! ## Properties of the tandem comparator -/

theorem foldl_land_zero (l : List Nat) :
    l.foldl (fun passed chk => passed &&& chk) 0 = 0 := by
  induction l with
  | nil => rfl
  | cons a t ih => simp only [List.foldl_cons, Nat.zero_and, ih]

theorem foldl_land_of_mem_zero (l : List Nat) (h : 0 ∈ l) :
    ∀ b, l.foldl (fun passed chk => passed &&& chk) b = 0 := by
  induction l with
  | nil => exact absurd h (List.not_mem_nil _)
  | cons a t ih =>
    intro b
    rcases List.mem_cons.mp h with h0 | ht
    · subst h0
      simp only [List.foldl_cons, Nat.and_zero, foldl_land_zero]
    · simp only [List.foldl_cons]
      exact ih ht _

theorem foldl_land_all_one (l : List Nat) (h : ∀ x ∈ l, x = 1) :
    l.foldl (fun passed chk => passed &&& chk) 1 = 1 := by
  induction l with
  | nil => rfl
  | cons a t ih =>
    have ha : a = 1 := h a (List.mem_cons_self _ _)
    subst ha
    simp only [List.foldl_cons, Nat.and_self]
    exact ih (fun x hx => h x (List.mem_cons_of_mem _ hx))

theorem compare_states_zero_of_check (z : SailRegs) (s : SpikeRegs) (h : 0 ∈ checks z s) :
    compare_states true z s = 0 := by
  unfold compare_states
  simp only [if_true]
  exact foldl_land_of_mem_zero _ h 1

theorem gpr_check_mem (z : SailRegs) (s : SpikeRegs) (i : Nat) (h1 : 1 ≤ i) (h31 : i ≤ 31) :
    tv_check_gpr s i (z.zx i) ∈ checks z s := by
  interval_cases i <;> simp [checks]

/-- C6. Tandem comparator agreement, for the build with ENABLE_SPIKE.  If the
reference privilege equals `zcur_privilege` after the remap of 2 to 3 (the
privilege being a value that fits the `uint8_t` it is stored in), the program
counters are equal, registers x1..x31 are pairwise equal and the compared CSRs
are equal, then `compare_states` returns 1; and for every register index `i`
from 1 to 31, if the two states differ in the value of `xi`, it returns 0. -/
theorem compare_states_agreement (z : SailRegs) (s : SpikeRegs) :
    (z.zcur_privilege < 256 →
      s.priv = (if z.zcur_privilege = 2 then 3 else z.zcur_privilege) →
      s.pc = z.zPC →
      (∀ i, 1 ≤ i → i ≤ 31 → s.gpr i = z.zx i) →
      s.csr CSR_MCAUSE = z.zmcause → s.csr CSR_MEPC = z.zmepc →
      s.csr CSR_MTVAL = z.zmtval → s.csr CSR_MSTATUS = z.zmstatus →
      s.csr CSR_SCAUSE = z.zscause → s.csr CSR_SEPC = z.zsepc →
      s.csr CSR_STVAL = z.zstval →
      compare_states true z s = 1) ∧
    (∀ i, 1 ≤ i → i ≤ 31 → s.gpr i ≠ z.zx i → compare_states true z s = 0) := by
  constructor
  · intro hlt hpriv hpc hgpr h1 h2 h3 h4 h5 h6 h7
    unfold compare_states
    simp only [if_true]
    apply foldl_land_all_one
    have hremap : s.priv = remap_priv z := by
      unfold remap_priv
      rw [hpriv, Nat.mod_eq_of_lt]
      split_ifs <;> omega
    intro x hx
    simp only [checks, List.mem_cons, List.mem_singleton, List.not_mem_nil, or_false] at hx
    have hg : ∀ i, 1 ≤ i → i ≤ 31 → tv_check_gpr s i (z.zx i) = 1 := by
      intro i hi1 hi2
      simp only [tv_check_gpr, hgpr i hi1 hi2, if_true]
    rcases hx with hx | hx | hx | hx | hx | hx | hx | hx | hx | hx | hx | hx | hx | hx | hx |
      hx | hx | hx | hx | hx | hx | hx | hx | hx | hx | hx | hx | hx | hx | hx | hx | hx | hx |
      hx | hx | hx | hx | hx | hx | hx | hx | hx
    all_goals first
      | (rw [hx]; exact hg _ (by decide) (by decide))
      | (rw [hx]; simp only [tv_check_priv, tv_check_pc, tv_check_csr, hremap, hpc, h1, h2, h3,
          h4, h5, h6, h7, if_true])
  · intro i hi1 hi2 hne
    apply compare_states_zero_of_check
    have hm := gpr_check_mem z s i hi1 hi2
    have h0 : tv_check_gpr s i (z.zx i) = 0 := by
      simp only [tv_check_gpr, hne, if_false]
    rw [h0] at hm
    exact hm

/-- The comparator on all-zero register files, and with x17 changed in the
reference. -/
theorem compare_states_agreement_witness :
    compare_states true zero_sail zero_spike = 1 ∧
    compare_states true zero_sail spike_x17_one = 0 :=
  ⟨(compare_states_agreement zero_sail zero_spike).1 (by decide) rfl rfl
      (fun _ _ _ => rfl) rfl rfl rfl rfl rfl rfl rfl,
    (compare_states_agreement zero_sail spike_x17_one).2 17 (by decide) (by decide)
      (by decide)⟩

/-- C7 as stated fails for sstatus: the all-zero primary state and the
reference state that is zero except for CSR sstatus agree on the privilege, the
program counter, every general register and the seven other CSRs, differ in
sstatus, and `compare_states` returns 1. -/
theorem compare_states_ignores_sstatus :
    (spike_csr_one CSR_SSTATUS).priv = remap_priv zero_sail ∧
    (spike_csr_one CSR_SSTATUS).pc = zero_sail.zPC ∧
    (∀ i, (spike_csr_one CSR_SSTATUS).gpr i = zero_sail.zx i) ∧
    (spike_csr_one CSR_SSTATUS).csr CSR_MCAUSE = zero_sail.zmcause ∧
    (spike_csr_one CSR_SSTATUS).csr CSR_MEPC = zero_sail.zmepc ∧
    (spike_csr_one CSR_SSTATUS).csr CSR_MTVAL = zero_sail.zmtval ∧
    (spike_csr_one CSR_SSTATUS).csr CSR_MSTATUS = zero_sail.zmstatus ∧
    (spike_csr_one CSR_SSTATUS).csr CSR_SCAUSE = zero_sail.zscause ∧
    (spike_csr_one CSR_SSTATUS).csr CSR_SEPC = zero_sail.zsepc ∧
    (spike_csr_one CSR_SSTATUS).csr CSR_STVAL = zero_sail.zstval ∧
    (spike_csr_one CSR_SSTATUS).csr CSR_SSTATUS ≠ zero_sail.sstatus ∧
    compare_states true zero_sail (spike_csr_one CSR_SSTATUS) = 1 := by
  refine ⟨by decide, by decide, fun _ => rfl, by decide, by decide, by decide, by decide,
    by decide, by decide, by decide, by decide, by decide⟩

/-- C7 (amended). Comparator CSR coverage, for the build with ENABLE_SPIKE:
for each of mcause, mepc, mtval, mstatus, scause, sepc and stval, if the
primary and the reference state differ in that register, `compare_states`
returns 0. -/
theorem compare_states_csr_coverage (z : SailRegs) (s : SpikeRegs) :
    (s.csr CSR_MCAUSE ≠ z.zmcause → compare_states true z s = 0) ∧
    (s.csr CSR_MEPC ≠ z.zmepc → compare_states true z s = 0) ∧
    (s.csr CSR_MTVAL ≠ z.zmtval → compare_states true z s = 0) ∧
    (s.csr CSR_MSTATUS ≠ z.zmstatus → compare_states true z s = 0) ∧
    (s.csr CSR_SCAUSE ≠ z.zscause → compare_states true z s = 0) ∧
    (s.csr CSR_SEPC ≠ z.zsepc → compare_states true z s = 0) ∧
    (s.csr CSR_STVAL ≠ z.zstval → compare_states true z s = 0) := by
  refine ⟨?_, ?_, ?_, ?_, ?_, ?_, ?_⟩ <;>
  · intro hne
    apply compare_states_zero_of_check
    simp [checks, tv_check_csr, hne]

/-- The comparator on all-zero register files with one of the seven compared
CSRs changed in the reference. -/
theorem compare_states_csr_coverage_witness :
    compare_states true zero_sail (spike_csr_one CSR_MCAUSE) = 0 ∧
    compare_states true zero_sail (spike_csr_one CSR_MEPC) = 0 ∧
    compare_states true zero_sail (spike_csr_one CSR_MTVAL) = 0 ∧
    compare_states true zero_sail (spike_csr_one CSR_MSTATUS) = 0 ∧
    compare_states true zero_sail (spike_csr_one CSR_SCAUSE) = 0 ∧
    compare_states true zero_sail (spike_csr_one CSR_SEPC) = 0 ∧
    compare_states true zero_sail (spike_csr_one CSR_STVAL) = 0 :=
  ⟨(compare_states_csr_coverage zero_sail (spike_csr_one CSR_MCAUSE)).1 (by decide),
    (compare_states_csr_coverage zero_sail (spike_csr_one CSR_MEPC)).2.1 (by decide),
    (compare_states_csr_coverage zero_sail (spike_csr_one CSR_MTVAL)).2.2.1 (by decide),
    (compare_states_csr_coverage zero_sail (spike_csr_one CSR_MSTATUS)).2.2.2.1 (by decide),
    (compare_states_csr_coverage zero_sail (spike_csr_one CSR_SCAUSE)).2.2.2.2.1 (by decide),
    (compare_states_csr_coverage zero_sail (spike_csr_one CSR_SEPC)).2.2.2.2.2.1 (by decide),
    (compare_states_csr_coverage zero_sail (spike_csr_one CSR_STVAL)).2.2.2.2.2.2 (by decide)⟩

/-! ## Properties of the run loop -/

/-- C8. One-sided completion is fatal.  In a build with ENABLE_SPIKE, take a
pass of the loop whose Sail step ended normally in `l1` with flag `stepped`,
and let `l2` be the variables after the retirement count and the Spike step.
If exactly one of `htif_done` and the Spike done flag is set, the run loop
ends with `exit(1)`, whatever the two register files hold; otherwise no such
exit occurs and the pass ends as `compare_states` decides: a break with
`diverged` when it returns 0, the tick and the next pass when not. -/
theorem one_sided_completion_fatal {σ ρ : Type} (cfg : Config) (m : Model σ) (sp : Spike ρ)
    (tr : Transport) (fuel : Nat) (l l1 : Loop σ ρ) (stepped : Bool)
    (hspike : cfg.enable_spike = true) (hcond : loop_cond cfg m l = true)
    (hstep : fetch_and_step cfg m tr l = (.next l1, stepped)) :
    (m.htif_done l1.state ≠ sp.tv_is_done (sp.tv_step l1.spike) →
      run_loop cfg m sp tr (fuel + 1) l
        = some (.fatal 1, { count_retired stepped l1 with
            spike := sp.tv_step l1.spike
            trace := (count_retired stepped l1).trace ++ [.tv_step] }) ∧
      exit_status (.fatal 1) = some 1) ∧
    (m.htif_done l1.state = sp.tv_is_done (sp.tv_step l1.spike) →
      iteration cfg m sp tr l
        = if compare_states true (m.regs l1.state) (sp.regs (sp.tv_step l1.spike)) = 0 then
            .stop .diverged { count_retired stepped l1 with
              spike := sp.tv_step l1.spike
              trace := (count_retired stepped l1).trace ++ [.tv_step] }
          else
            .next (tick cfg m sp { count_retired stepped l1 with
              spike := sp.tv_step l1.spike
              trace := (count_retired stepped l1).trace ++ [.tv_step] })) := by
  have hst : (count_retired stepped l1).state = l1.state := by
    unfold count_retired; split_ifs <;> rfl
  have hsp : (count_retired stepped l1).spike = l1.spike := by
    unfold count_retired; split_ifs <;> rfl
  constructor
  · intro hne
    refine ⟨?_, rfl⟩
    simp only [run_loop, hcond, if_true, iteration, hstep, post_step, tandem_check, hspike,
      hst, hsp]
    cases hd : m.htif_done l1.state <;> cases hs : sp.tv_is_done (sp.tv_step l1.spike) <;>
      simp_all
  · intro heq
    simp only [iteration, hstep, post_step, tandem_check, hspike, if_true, hst, hsp,
      compare_or_break]
    cases hd : m.htif_done l1.state <;> cases hs : sp.tv_is_done (sp.tv_step l1.spike) <;>
      simp_all <;> split_ifs <;> rfl

/-- The tandem pass on the counter models: a primary model that is done after
one step against a reference that is not ends the loop with `exit(1)`; with
neither done the pass goes on to the next one. -/
theorem one_sided_completion_fatal_witness :
    run_loop tandem (counter_model (some 1) none) (counter_spike none none) good_transport 1
        start = some (.fatal 1, after_joint) ∧
    exit_status (.fatal 1) = some 1 ∧
    iteration tandem (counter_model (some 5) none) (counter_spike none none) good_transport
        start = .next after_joint :=
  ⟨((one_sided_completion_fatal tandem (counter_model (some 1) none) (counter_spike none none)
      good_transport 0 start after_first true rfl (by decide) (by decide)).1 (by decide)).1,
    ((one_sided_completion_fatal tandem (counter_model (some 1) none) (counter_spike none none)
      good_transport 0 start after_first true rfl (by decide) (by decide)).1 (by decide)).2,
    (one_sided_completion_fatal tandem (counter_model (some 5) none) (counter_spike none none)
      good_transport 0 start after_first true rfl (by decide) (by decide)).2 (by decide)⟩

theorem steps_append (a b : List Event) : steps (a ++ b) = steps a + steps b := by
  unfold steps
  rw [List.filter_append, List.length_append]

theorem tick_fields {σ ρ : Type} (cfg : Config) (m : Model σ) (sp : Spike ρ) (l : Loop σ ρ) :
    (tick cfg m sp l).total_insns = l.total_insns ∧ (tick cfg m sp l).step_no = l.step_no ∧
    steps (tick cfg m sp l).trace = steps l.trace := by
  unfold tick
  by_cases h : l.insn_cnt = cfg.rv_insns_per_tick
  · rw [if_pos h]
    refine ⟨rfl, rfl, ?_⟩
    simp only [steps_append]
    rfl
  · rw [if_neg h]
    exact ⟨rfl, rfl, rfl⟩

/-- C10 as stated fails: in the plain build, a model that halts after three
steps with exit code 1, a run that reaches the instruction limit 2, and a
model that raises an exception in its second step all end with exit status
0. -/
theorem exit_status_zero_without_success :
    (run_sail (plain 0) (counter_model (some 3) none) (counter_spike none none)
        good_transport 10 0 0 0 = some (.loop_exit, after_steps 3) ∧
      (counter_model (some 3) none).htif_done (after_steps 3).state = true ∧
      (counter_model (some 3) none).htif_exit_code (after_steps 3).state = 1 ∧
      exit_status .loop_exit = some 0) ∧
    (run_sail (plain 2) (counter_model none none) (counter_spike none none)
        good_transport 10 0 0 0 = some (.loop_exit, after_steps 2) ∧
      (counter_model none none).htif_done (after_steps 2).state = false ∧
      ((after_steps 2).total_insns : Int) = (plain 2).insn_limit ∧
      exit_status .loop_exit = some 0) ∧
    (run_sail (plain 0) (counter_model none (some 2)) (counter_spike none none)
        good_transport 10 0 0 0 = some (.exception, after_exception) ∧
      (counter_model none (some 2)).have_exception after_exception.state = true ∧
      exit_status .exception = some 0) := by
  refine ⟨⟨by decide, by decide, by decide, by decide⟩,
    ⟨by decide, by decide, by decide, by decide⟩, ⟨by decide, by decide, by decide⟩⟩

theorem rvfi_send_trace_stop {σ ρ : Type} (cfg : Config) (m : Model σ) (sp : Spike ρ)
    (tr : Transport) (halted : Bool) (l l1 : Loop σ ρ) (r : Stop)
    (h : rvfi_send_trace m tr halted l = .stop r l1) : StopOk cfg m sp r l1 := by
  unfold rvfi_send_trace at h
  simp only at h
  split_ifs at h <;> cases h <;> trivial

theorem sail_step_stop {σ ρ : Type} (cfg : Config) (m : Model σ) (sp : Spike ρ)
    (tr : Transport) (l l1 : Loop σ ρ) (r : Stop) (b : Bool)
    (h : sail_step cfg m tr l = (.stop r l1, b)) : StopOk cfg m sp r l1 := by
  unfold sail_step at h
  simp only at h
  split_ifs at h with h1 h2
  · cases h
    exact h1
  · have h3 := (Prod.mk.inj h).1
    exact rvfi_send_trace_stop cfg m sp tr _ _ _ _ h3
  · cases h

theorem fetch_and_step_stop {σ ρ : Type} (cfg : Config) (m : Model σ) (sp : Spike ρ)
    (tr : Transport) (l l1 : Loop σ ρ) (r : Stop) (b : Bool)
    (h : fetch_and_step cfg m tr l = (.stop r l1, b)) : StopOk cfg m sp r l1 := by
  unfold fetch_and_step at h
  simp only at h
  split_ifs at h with h1 h2 h3 h4 h5 h6
  · cases h; trivial
  · cases h; trivial
  · cases h; trivial
  · split at h
    · cases h; trivial
    · rename_i r2 l3 hs
      cases h
      exact rvfi_send_trace_stop cfg m sp tr _ _ _ _ hs
  · exact sail_step_stop cfg m sp tr _ _ _ _ h
  · cases h; trivial
  · exact sail_step_stop cfg m sp tr _ _ _ _ h

theorem compare_or_break_stop {σ ρ : Type} (cfg : Config) (m : Model σ) (sp : Spike ρ)
    (l l1 : Loop σ ρ) (r : Stop) (hs : cfg.enable_spike = true)
    (h : compare_or_break cfg m sp l = .stop r l1) : StopOk cfg m sp r l1 := by
  unfold compare_or_break at h
  split_ifs at h with h1
  cases h
  rw [hs] at h1
  exact ⟨hs, h1⟩

theorem tandem_check_stop {σ ρ : Type} (cfg : Config) (m : Model σ) (sp : Spike ρ)
    (l l1 : Loop σ ρ) (r : Stop)
    (h : tandem_check cfg m sp l = .stop r l1) : StopOk cfg m sp r l1 := by
  unfold tandem_check at h
  simp only at h
  split_ifs at h with h1 h2 h3 h4
  · cases h; trivial
  · exact compare_or_break_stop cfg m sp _ _ _ h1 h
  · cases h; trivial
  · exact compare_or_break_stop cfg m sp _ _ _ h1 h

theorem iteration_stop {σ ρ : Type} (cfg : Config) (m : Model σ) (sp : Spike ρ)
    (tr : Transport) (l l1 : Loop σ ρ) (r : Stop)
    (h : iteration cfg m sp tr l = .stop r l1) : StopOk cfg m sp r l1 := by
  unfold iteration at h
  split at h
  · rename_i r2 l2 b hf
    cases h
    exact fetch_and_step_stop cfg m sp tr _ _ _ _ hf
  · rename_i l2 stepped hf
    unfold post_step at h
    split at h
    · rename_i r2 l3 ht
      cases h
      exact tandem_check_stop cfg m sp _ _ _ ht
    · cases h

theorem run_loop_stop {σ ρ : Type} (cfg : Config) (m : Model σ) (sp : Spike ρ)
    (tr : Transport) :
    ∀ (fuel : Nat) (l l1 : Loop σ ρ) (r : Stop),
      run_loop cfg m sp tr fuel l = some (r, l1) → StopOk cfg m sp r l1 := by
  intro fuel
  induction fuel with
  | zero => intro l l1 r h; cases h
  | succ f ih =>
    intro l l1 r h
    unfold run_loop at h
    by_cases hc : loop_cond cfg m l = true
    · rw [if_pos hc] at h
      split at h
      · exact ih _ _ _ h
      · rename_i r2 l2 hi
        cases h
        exact iteration_stop cfg m sp tr _ _ _ hi
    · rw [if_neg hc] at h
      cases h
      show m.htif_done l.state = true ∨
        (cfg.insn_limit ≠ 0 ∧ cfg.insn_limit ≤ (l.total_insns : Int))
      simp only [loop_cond, Bool.and_eq_true, Bool.not_eq_true', Bool.or_eq_true, beq_iff_eq,
        decide_eq_true_eq, not_and, not_or] at hc
      by_cases hd : m.htif_done l.state = true
      · exact Or.inl hd
      · have hd2 : m.htif_done l.state = false := by simpa using hd
        have := hc hd2
        exact Or.inr ⟨this.1, by omega⟩

/-- C10 (amended). Exit status by termination reason: the exit status produced
by `run_sail` through `finish` is the divergence flag.  Whenever the run ends
by leaving the loop, which happens when the model completed (with whatever
exit code) or the instruction limit is reached, the status is 0; when it ends
by an exception of the model the status is 0; when it ends by a flagged tandem
divergence the status is 1. -/
theorem exit_status_is_divergence_flag {σ ρ : Type} (cfg : Config) (m : Model σ)
    (sp : Spike ρ) (tr : Transport) (fuel : Nat) (s0 : σ) (t0 : ρ) (total_insns : Nat)
    (r : Stop) (l : Loop σ ρ)
    (h : run_sail cfg m sp tr fuel s0 t0 total_insns = some (r, l)) :
    (r = .loop_exit →
      (m.htif_done l.state = true ∨
        (cfg.insn_limit ≠ 0 ∧ cfg.insn_limit ≤ (l.total_insns : Int))) ∧
      exit_status r = some 0) ∧
    (r = .exception → m.have_exception l.state = true ∧ exit_status r = some 0) ∧
    (r = .diverged →
      (cfg.enable_spike = true ∧
        compare_states true (m.regs l.state) (sp.regs l.spike) = 0) ∧
      exit_status r = some 1) := by
  have hs := run_loop_stop cfg m sp tr fuel _ l r h
  refine ⟨?_, ?_, ?_⟩ <;>
  · intro hr
    subst hr
    exact ⟨hs, rfl⟩

/-- The exit status of a diverging tandem run and of a run whose model halts
with exit code 1, on the counter models. -/
theorem exit_status_is_divergence_flag_witness :
    run_sail tandem (counter_model (some 5) none) (counter_spike none (some 2))
        good_transport 10 0 0 0
      = some (.diverged, after_divergence) ∧
    exit_status .diverged = some 1 ∧
    ((counter_model (some 3) none).htif_done (after_steps 3).state = true ∨
      ((plain 0).insn_limit ≠ 0 ∧ (plain 0).insn_limit ≤ ((after_steps 3).total_insns : Int))) ∧
    exit_status .loop_exit = some 0 :=
  ⟨by decide,
    ((exit_status_is_divergence_flag tandem (counter_model (some 5) none)
      (counter_spike none (some 2)) good_transport 10 0 0 0 .diverged
      after_divergence
      (by decide)).2.2 rfl).2,
    ((exit_status_is_divergence_flag (plain 0) (counter_model (some 3) none)
      (counter_spike none none) good_transport 10 0 0 0 .loop_exit (after_steps 3)
      (by decide)).1 rfl).1,
    ((exit_status_is_divergence_flag (plain 0) (counter_model (some 3) none)
      (counter_spike none none) good_transport 10 0 0 0 .loop_exit (after_steps 3)
      (by decide)).1 rfl).2⟩

/-! ## The instruction limit -/

theorem quiet_fetch {σ ρ : Type} (cfg : Config) (m : Model σ) (sp : Spike ρ)
    (tr : Transport) (l : Loop σ ρ) (h : Quiet cfg m sp tr l) :
    ∃ l1, fetch_and_step cfg m tr l = (.next l1, true) ∧ l1.total_insns = l.total_insns ∧
      l1.step_no = l.step_no ∧ l1.state = (step_result cfg m tr l).1 ∧ l1.spike = l.spike ∧
      steps l1.trace = steps l.trace + 1 := by
  obtain ⟨_, he, hr, _, hp⟩ := h
  by_cases hrv : cfg.rvfi_dii = true
  · obtain ⟨hres, hcmd, hlen, hw⟩ := hp hrv
    have hsr : step_result cfg m tr l = m.step (after_command m tr l).state l.step_no := by
      simp only [step_result, step_input, hrv, if_true]
    rw [hsr] at he hr hlen
    have hcmd2 : m.zrvfi_get_cmd (m.zrvfi_zzero_exec_packet
        (m.zrvfi_set_instr_packet l.state (tr.read l.reads).instr_bits)) = 1 := hcmd
    have he2 : m.have_exception (m.step (m.zrvfi_zzero_exec_packet
        (m.zrvfi_set_instr_packet l.state (tr.read l.reads).instr_bits)) l.step_no).1
          = false := he
    have hr2 : (m.step (m.zrvfi_zzero_exec_packet
        (m.zrvfi_set_instr_packet l.state (tr.read l.reads).instr_bits)) l.step_no).2
          = true := hr
    have hlen2 : m.exec_packet_len (m.step (m.zrvfi_zzero_exec_packet
        (m.zrvfi_set_instr_packet l.state (tr.read l.reads).instr_bits)) l.step_no).1 % 8
          = 0 := hlen
    have h1 : ¬ ((8 : Int) = 0) := by decide
    have h2 : ¬ ((8 : Int) % 18446744073709551616 < 8) := by decide
    have h3 : ¬ ((8 : Int) = -1) := by decide
    have h4 : ¬ ((1 : Nat) = 0) := by decide
    refine ⟨after_frame m false (after_step m tr l), ?_, rfl, rfl, ?_, rfl, ?_⟩
    · unfold fetch_and_step sail_step rvfi_send_trace
      simp only [hrv, if_true, hres, h1, h2, h3, if_false, hcmd2, h4, he2, hr2, hlen2, hw,
        ne_eq, not_true_eq_false, Bool.false_eq_true]
      rfl
    · rw [hsr]; rfl
    · show steps ((l.trace ++ [Event.step l.step_no]) ++ [Event.frame _ false]) = _
      simp only [steps_append]
      rfl
  · have hsr : step_result cfg m tr l = m.step l.state l.step_no := by
      simp only [step_result, step_input, hrv, if_false, Bool.false_eq_true]
    rw [hsr] at he hr
    refine ⟨{ l with state := (m.step l.state l.step_no).1,
                     trace := l.trace ++ [.step l.step_no] }, ?_, rfl, rfl, ?_, rfl, ?_⟩
    · unfold fetch_and_step sail_step
      simp only [hrv, if_false, he, hr, Bool.false_eq_true]
    · rw [hsr]
    · simp only [steps_append]
      rfl

theorem quiet_post_step {σ ρ : Type} (cfg : Config) (m : Model σ) (sp : Spike ρ)
    (l : Loop σ ρ)
    (hd : cfg.enable_spike = true →
      sp.tv_is_done (sp.tv_step l.spike) = m.htif_done l.state ∧
      compare_states true (m.regs l.state) (sp.regs (sp.tv_step l.spike)) ≠ 0) :
    ∃ l2, post_step cfg m sp true l = .next l2 ∧ l2.total_insns = l.total_insns + 1 ∧
      l2.step_no = l.step_no + 1 ∧ steps l2.trace = steps l.trace := by
  unfold post_step tandem_check count_retired
  by_cases hs : cfg.enable_spike = true
  · obtain ⟨hdone, hcmp⟩ := hd hs
    obtain ⟨h1, h2, h3⟩ := tick_fields cfg m sp
      { l with step_no := l.step_no + 1, insn_cnt := l.insn_cnt + 1,
               total_insns := l.total_insns + 1, spike := sp.tv_step l.spike,
               trace := l.trace ++ [.tv_step] }
    have h4 : steps (l.trace ++ [Event.tv_step]) = steps l.trace := by
      simp only [steps_append]; rfl
    cases hh : m.htif_done l.state
    · rw [hh] at hdone
      simp only [hs, if_true, hh, hdone, compare_or_break, hcmp, Bool.false_eq_true, if_false]
      exact ⟨_, rfl, h1, h2, h3.trans h4⟩
    · rw [hh] at hdone
      simp only [hs, if_true, hh, hdone, compare_or_break, hcmp, Bool.not_true,
        Bool.false_eq_true, if_false]
      exact ⟨_, rfl, h1, h2, h3.trans h4⟩
  · simp only [hs, if_false, if_true, Bool.false_eq_true]
    obtain ⟨h1, h2, h3⟩ := tick_fields cfg m sp
      { l with step_no := l.step_no + 1, insn_cnt := l.insn_cnt + 1,
               total_insns := l.total_insns + 1 }
    exact ⟨_, rfl, h1, h2, h3⟩

theorem quiet_iteration {σ ρ : Type} (cfg : Config) (m : Model σ) (sp : Spike ρ)
    (tr : Transport) (l : Loop σ ρ) (h : Quiet cfg m sp tr l) :
    ∃ l2, iteration cfg m sp tr l = .next l2 ∧ l2.total_insns = l.total_insns + 1 ∧
      l2.step_no = l.step_no + 1 ∧ steps l2.trace = steps l.trace + 1 := by
  obtain ⟨l1, h1, h2, h3, hst, hsp, h4⟩ := quiet_fetch cfg m sp tr l h
  have hd : cfg.enable_spike = true →
      sp.tv_is_done (sp.tv_step l1.spike) = m.htif_done l1.state ∧
      compare_states true (m.regs l1.state) (sp.regs (sp.tv_step l1.spike)) ≠ 0 := by
    intro hs
    rw [hst, hsp]
    exact h.2.2.2.1 hs
  obtain ⟨l2, g1, g2, g3, g4⟩ := quiet_post_step cfg m sp l1 hd
  refine ⟨l2, ?_, by omega, by omega, by omega⟩
  simp only [iteration, h1, g1]

theorem quiet_run_to_limit {σ ρ : Type} (cfg : Config) (m : Model σ) (sp : Spike ρ)
    (tr : Transport) (n : Nat) (hn : 0 < n) (hlim : cfg.insn_limit = n) :
    ∀ (d : Nat) (l : Loop σ ρ) (fuel : Nat),
      (∀ k, k < d → ∀ l1, passes cfg m sp tr k l = some l1 → Quiet cfg m sp tr l1) →
      l.total_insns + d = n → d < fuel →
      ∃ l1, run_loop cfg m sp tr fuel l = some (.loop_exit, l1) ∧
        passes cfg m sp tr d l = some l1 ∧ l1.total_insns = n ∧
        l1.step_no = l.step_no + d ∧ steps l1.trace = steps l.trace + d := by
  intro d
  induction d with
  | zero =>
    intro l fuel _ hl hf
    obtain ⟨f, rfl⟩ : ∃ f, fuel = f + 1 := ⟨fuel - 1, by omega⟩
    have hc : loop_cond cfg m l = false := by
      simp only [loop_cond, hlim]
      have : ¬ ((l.total_insns : Int) < (n : Int)) := by omega
      have h0 : ¬ ((n : Int) = 0) := by omega
      simp [this, h0]
    refine ⟨l, ?_, rfl, by omega, rfl, rfl⟩
    simp only [run_loop, hc, Bool.false_eq_true, if_false]
  | succ d ih =>
    intro l fuel hq hl hf
    obtain ⟨f, rfl⟩ : ∃ f, fuel = f + 1 := ⟨fuel - 1, by omega⟩
    have hq0 : Quiet cfg m sp tr l := hq 0 (Nat.succ_pos d) l rfl
    have hc : loop_cond cfg m l = true := by
      simp only [loop_cond, hq0.1, hlim]
      have : (l.total_insns : Int) < (n : Int) := by omega
      simp [this]
    obtain ⟨l2, h1, h2, h3, h4⟩ := quiet_iteration cfg m sp tr l hq0
    have hq2 : ∀ k, k < d → ∀ l1, passes cfg m sp tr k l2 = some l1 → Quiet cfg m sp tr l1 := by
      intro k hk l1 hp
      refine hq (k + 1) (Nat.succ_lt_succ hk) l1 ?_
      simp only [passes, h1, hp]
    obtain ⟨l3, g1, gp, g2, g3, g4⟩ := ih l2 f hq2 (by omega) (by omega)
    refine ⟨l3, ?_, ?_, g2, by omega, by omega⟩
    · simp only [run_loop, hc, if_true, h1, g1]
    · simp only [passes, h1, gp]

theorem quiet_run_unlimited {σ ρ : Type} (cfg : Config) (m : Model σ) (sp : Spike ρ)
    (tr : Transport) (hlim : cfg.insn_limit = 0) :
    ∀ (fuel : Nat) (l : Loop σ ρ),
      (∀ k l1, passes cfg m sp tr k l = some l1 → Quiet cfg m sp tr l1) →
      run_loop cfg m sp tr fuel l = none := by
  intro fuel
  induction fuel with
  | zero => intro l _; rfl
  | succ f ih =>
    intro l hq
    have hq0 : Quiet cfg m sp tr l := hq 0 l rfl
    have hc : loop_cond cfg m l = true := by
      simp [loop_cond, hq0.1, hlim]
    obtain ⟨l2, h1, _⟩ := quiet_iteration cfg m sp tr l hq0
    have hq2 : ∀ k l1, passes cfg m sp tr k l2 = some l1 → Quiet cfg m sp tr l1 := by
      intro k l1 hp
      refine hq (k + 1) l1 ?_
      simp only [passes, h1, hp]
    simp only [run_loop, hc, if_true, h1, ih l2 hq2]

theorem quiet_passes {σ ρ : Type} (cfg : Config) (m : Model σ) (sp : Spike ρ)
    (tr : Transport) :
    ∀ (d : Nat) (l : Loop σ ρ),
      (∀ k, k < d → ∀ l1, passes cfg m sp tr k l = some l1 → Quiet cfg m sp tr l1) →
      ∃ l1, passes cfg m sp tr d l = some l1 ∧ l1.total_insns = l.total_insns + d := by
  intro d
  induction d with
  | zero => intro l _; exact ⟨l, rfl, rfl⟩
  | succ d ih =>
    intro l hq
    have hq0 : Quiet cfg m sp tr l := hq 0 (Nat.succ_pos d) l rfl
    obtain ⟨l2, h1, h2, _⟩ := quiet_iteration cfg m sp tr l hq0
    have hq2 : ∀ k, k < d → ∀ l1, passes cfg m sp tr k l2 = some l1 → Quiet cfg m sp tr l1 := by
      intro k hk l1 hp
      refine hq (k + 1) (Nat.succ_lt_succ hk) l1 ?_
      simp only [passes, h1, hp]
    obtain ⟨l3, g1, g2⟩ := ih l2 hq2
    refine ⟨l3, ?_, by omega⟩
    simp only [passes, h1, g1]

theorem counter_quiet (cfg : Config) (l : Loop Nat Nat) :
    Quiet cfg (counter_model none none) (counter_spike none none) good_transport l := by
  refine ⟨rfl, rfl, rfl, fun _ => ⟨rfl, ?_⟩, fun _ => ⟨rfl, rfl, Nat.mod_self 8, rfl⟩⟩
  show compare_states true zero_sail zero_spike ≠ 0
  decide

/-- C9. Instruction limit.  Let the limit be `n > 0` and `total_insns` start
at 0, and let none of the first `n` passes of the run trigger a halting
condition: at each of their loop heads the halted flag is clear, the step
raises no exception and retires, the tandem check finds no divergence and, in
RVFI-DII mode, the peer keeps the protocol going.  Then `run_sail` leaves its
loop through the loop condition after exactly `n` passes, with
`total_insns = n`, `step_no = n` and `n` steps made, the limit test being
false at the exit and the loop condition true at every earlier loop head.
With limit 0 the loop condition is the halted flag alone: a run that leaves
the loop through its condition has the halted flag set, and a run none of
whose passes triggers a halting condition does not end. -/
theorem instruction_limit {σ ρ : Type} (cfg : Config) (m : Model σ) (sp : Spike ρ)
    (tr : Transport) (s0 : σ) (t0 : ρ) :
    (∀ n : Nat, 0 < n → cfg.insn_limit = n →
      (∀ k, k < n → ∀ l, passes cfg m sp tr k (entry_loop s0 t0 0) = some l →
        Quiet cfg m sp tr l) →
      ∀ fuel, n < fuel →
        ∃ l, run_sail cfg m sp tr fuel s0 t0 0 = some (.loop_exit, l) ∧
          passes cfg m sp tr n (entry_loop s0 t0 0) = some l ∧
          l.total_insns = n ∧ l.step_no = n ∧ steps l.trace = n ∧
          ¬ ((l.total_insns : Int) < cfg.insn_limit) ∧
          ∀ k, k < n → ∀ l1, passes cfg m sp tr k (entry_loop s0 t0 0) = some l1 →
            loop_cond cfg m l1 = true) ∧
    (cfg.insn_limit = 0 →
      (∀ l : Loop σ ρ, loop_cond cfg m l = !m.htif_done l.state) ∧
      (∀ fuel l, run_sail cfg m sp tr fuel s0 t0 0 = some (.loop_exit, l) →
        m.htif_done l.state = true) ∧
      ((∀ k l, passes cfg m sp tr k (entry_loop s0 t0 0) = some l → Quiet cfg m sp tr l) →
        ∀ fuel, run_sail cfg m sp tr fuel s0 t0 0 = none)) := by
  constructor
  · intro n hn hlim hq fuel hf
    obtain ⟨l, h1, hp, h2, h3, h4⟩ := quiet_run_to_limit cfg m sp tr n hn hlim n
      (entry_loop s0 t0 0) fuel hq (by simp [entry_loop]) hf
    refine ⟨l, h1, hp, h2, by simpa [entry_loop] using h3, by simpa [entry_loop, steps] using h4,
      ?_, ?_⟩
    · rw [hlim, h2]
      omega
    · intro k hk l1 hp1
      have hq1 : Quiet cfg m sp tr l1 := hq k hk l1 hp1
      obtain ⟨l2, g1, g2⟩ := quiet_passes cfg m sp tr k (entry_loop s0 t0 0)
        (fun j hj l3 h3 => hq j (Nat.lt_trans hj hk) l3 h3)
      rw [hp1] at g1
      have hl : l1 = l2 := Option.some.inj g1
      subst hl
      have ht : l1.total_insns = k := by simpa [entry_loop] using g2
      simp only [loop_cond, hq1.1, hlim, ht]
      have : (k : Int) < (n : Int) := by omega
      simp [this]
  · intro hlim
    refine ⟨fun l => ?_, fun fuel l hr => ?_, fun hq fuel => ?_⟩
    · simp [loop_cond, hlim]
    · have hs := run_loop_stop cfg m sp tr fuel _ l .loop_exit hr
      have hs2 : m.htif_done l.state = true ∨
          (cfg.insn_limit ≠ 0 ∧ cfg.insn_limit ≤ (l.total_insns : Int)) := hs
      rcases hs2 with h | h
      · exact h
      · exact absurd hlim h.1
    · exact quiet_run_unlimited cfg m sp tr hlim fuel _ hq

/-- The instruction limit on the counter models.  With limit 3 in the build
with ENABLE_SPIKE and RVFI_DII, a model that would halt after five steps and a
reference model that would differ after four: none of the first three passes
triggers a halting condition and the loop is left after three steps.  With
limit 0, a run that leaves the loop has the halted flag set, and the run of
the model that never halts does not end. -/
theorem instruction_limit_witness :
    (∀ k, k < 3 → ∀ l, passes (full 3) (counter_model (some 5) none)
        (counter_spike (some 5) (some 4)) good_transport k (entry_loop 0 0 0) = some l →
      Quiet (full 3) (counter_model (some 5) none) (counter_spike (some 5) (some 4))
        good_transport l) ∧
    (∃ l, run_sail (full 3) (counter_model (some 5) none) (counter_spike (some 5) (some 4))
        good_transport 4 0 0 0 = some (.loop_exit, l) ∧
      passes (full 3) (counter_model (some 5) none) (counter_spike (some 5) (some 4))
        good_transport 3 (entry_loop 0 0 0) = some l ∧
      l.total_insns = 3 ∧ l.step_no = 3 ∧ steps l.trace = 3 ∧
      ¬ ((l.total_insns : Int) < (full 3).insn_limit) ∧
      ∀ k, k < 3 → ∀ l1, passes (full 3) (counter_model (some 5) none)
          (counter_spike (some 5) (some 4)) good_transport k (entry_loop 0 0 0) = some l1 →
        loop_cond (full 3) (counter_model (some 5) none) l1 = true) ∧
    (counter_model (some 3) none).htif_done (after_steps 3).state = true ∧
    ∀ fuel, run_sail (full 0) (counter_model none none) (counter_spike none none)
        good_transport fuel 0 0 0 = none := by
  have hq : ∀ k, k < 3 → ∀ l, passes (full 3) (counter_model (some 5) none)
        (counter_spike (some 5) (some 4)) good_transport k (entry_loop 0 0 0) = some l →
      Quiet (full 3) (counter_model (some 5) none) (counter_spike (some 5) (some 4))
        good_transport l := by
    intro k hk
    interval_cases k <;>
    · show ∀ l ∈ passes _ _ _ _ _ _, _
      decide
  exact ⟨hq,
    (instruction_limit (full 3) (counter_model (some 5) none)
      (counter_spike (some 5) (some 4)) good_transport 0 0).1 3 (by decide) rfl hq 4
      (by decide),
    ((instruction_limit (plain 0) (counter_model (some 3) none) (counter_spike none none)
      good_transport 0 0).2 rfl).2.1 10 (after_steps 3) (by decide),
    ((instruction_limit (full 0) (counter_model none none) (counter_spike none none)
      good_transport 0 0).2 rfl).2.2 (fun _ l _ => counter_quiet _ l)⟩

/-! ## Remote-protocol dispatch -/

theorem frames_append (a b : List Event) : frames (a ++ b) = frames a + frames b := by
  unfold frames
  rw [List.filter_append, List.length_append]

theorem tick_trace {σ ρ : Type} (cfg : Config) (m : Model σ) (sp : Spike ρ) (l : Loop σ ρ) :
    steps (tick cfg m sp l).trace = steps l.trace ∧
    frames (tick cfg m sp l).trace = frames l.trace ∧
    (tick cfg m sp l).writes = l.writes := by
  unfold tick
  by_cases h : l.insn_cnt = cfg.rv_insns_per_tick
  · rw [if_pos h]
    refine ⟨?_, ?_, rfl⟩
    · simp only [steps_append]; rfl
    · simp only [frames_append]; rfl
  · rw [if_neg h]
    exact ⟨rfl, rfl, rfl⟩

theorem count_retired_trace {σ ρ : Type} (stepped : Bool) (l : Loop σ ρ) :
    (count_retired stepped l).trace = l.trace ∧ (count_retired stepped l).writes = l.writes ∧
    (count_retired stepped l).state = l.state ∧ (count_retired stepped l).spike = l.spike := by
  unfold count_retired
  cases stepped <;> exact ⟨rfl, rfl, rfl, rfl⟩

theorem compare_or_break_loop {σ ρ : Type} (cfg : Config) (m : Model σ) (sp : Spike ρ)
    (l : Loop σ ρ) : (compare_or_break cfg m sp l).loop = l := by
  unfold compare_or_break
  split_ifs <;> rfl

theorem tandem_check_trace {σ ρ : Type} (cfg : Config) (m : Model σ) (sp : Spike ρ)
    (l : Loop σ ρ) :
    steps (tandem_check cfg m sp l).loop.trace = steps l.trace ∧
    frames (tandem_check cfg m sp l).loop.trace = frames l.trace ∧
    (tandem_check cfg m sp l).loop.writes = l.writes := by
  unfold tandem_check
  by_cases hs : cfg.enable_spike = true
  · simp only [hs, if_true]
    have key : steps (l.trace ++ [Event.tv_step]) = steps l.trace ∧
        frames (l.trace ++ [Event.tv_step]) = frames l.trace := by
      constructor
      · simp only [steps_append]; rfl
      · simp only [frames_append]; rfl
    split_ifs
    all_goals first
      | exact ⟨key.1, key.2, rfl⟩
      | (rw [compare_or_break_loop]; exact ⟨key.1, key.2, rfl⟩)
  · simp only [hs, if_false, Bool.false_eq_true]
    exact ⟨rfl, rfl, rfl⟩

theorem post_step_trace {σ ρ : Type} (cfg : Config) (m : Model σ) (sp : Spike ρ)
    (stepped : Bool) (l : Loop σ ρ) :
    steps (post_step cfg m sp stepped l).loop.trace = steps l.trace ∧
    frames (post_step cfg m sp stepped l).loop.trace = frames l.trace ∧
    (post_step cfg m sp stepped l).loop.writes = l.writes := by
  have ht := tandem_check_trace cfg m sp (count_retired stepped l)
  have hc := count_retired_trace stepped l
  rw [hc.1, hc.2.1] at ht
  unfold post_step
  cases ho : tandem_check cfg m sp (count_retired stepped l) with
  | stop r l2 =>
    rw [ho] at ht
    exact ht
  | next l2 =>
    rw [ho] at ht
    obtain ⟨h1, h2, h3⟩ := tick_trace cfg m sp l2
    exact ⟨h1.trans ht.1, h2.trans ht.2.1, h3.trans ht.2.2⟩

theorem fetch_full_frame {σ ρ : Type} (cfg : Config) (m : Model σ) (tr : Transport)
    (l : Loop σ ρ) (hrv : cfg.rvfi_dii = true) (hres : (tr.read l.reads).res = 8) :
    fetch_and_step cfg m tr l =
      if m.zrvfi_get_cmd (after_command m tr l).state = 0 then
        match rvfi_send_trace m tr true (after_halt m tr l) with
        | .next l3 => (.stop .end_of_trace l3, false)
        | .stop r l3 => (.stop r l3, false)
      else if m.zrvfi_get_cmd (after_command m tr l).state = 1 then
        sail_step cfg m tr (after_command m tr l)
      else (.stop (.fatal 1) (after_command m tr l), false) := by
  have h1 : ¬ ((8 : Int) = 0) := by decide
  have h2 : ¬ ((8 : Int) % 18446744073709551616 < 8) := by decide
  have h3 : ¬ ((8 : Int) = -1) := by decide
  unfold fetch_and_step
  simp only [hrv, if_true, hres, h1, h2, h3, if_false]
  rfl

theorem sail_step_rvfi {σ ρ : Type} (cfg : Config) (m : Model σ) (tr : Transport)
    (l : Loop σ ρ) (hrv : cfg.rvfi_dii = true) :
    sail_step cfg m tr (after_command m tr l) =
      if m.have_exception (after_step m tr l).state then
        (.stop .exception (after_step m tr l), (m.step (after_command m tr l).state l.step_no).2)
      else
        (rvfi_send_trace m tr false (after_step m tr l),
          (m.step (after_command m tr l).state l.step_no).2) := by
  unfold sail_step
  simp only [hrv, if_true]
  rfl

theorem rvfi_send_trace_cases {σ ρ : Type} (m : Model σ) (tr : Transport) (halted : Bool)
    (l : Loop σ ρ) :
    (m.exec_packet_len l.state % 8 ≠ 0 →
      rvfi_send_trace m tr halted l = .stop (.fatal 1) l) ∧
    (m.exec_packet_len l.state % 8 = 0 → tr.write_fails l.writes = true →
      rvfi_send_trace m tr halted l
        = .stop (.fatal 1) { l with writes := l.writes + 1 }) ∧
    (m.exec_packet_len l.state % 8 = 0 → tr.write_fails l.writes = false →
      rvfi_send_trace m tr halted l = .next (after_frame m halted l)) := by
  unfold rvfi_send_trace after_frame
  refine ⟨fun h => ?_, fun h hw => ?_, fun h hw => ?_⟩
  · simp only [h, ne_eq, not_false_eq_true, if_true]
  · simp only [h, ne_eq, not_true_eq_false, if_false, hw, if_true]
  · simp only [h, ne_eq, not_true_eq_false, if_false, hw, Bool.false_eq_true]

/-- C11. Remote-protocol command dispatch.  In RVFI-DII mode one pass of the
loop treats the result of the `read` as follows.  A return value 0 ends the
run by `return`, with the trace unchanged and no exit status.  A return value
between 1 and 7, or -1, ends in `exit(1)` with the trace unchanged.  A full
frame with command 0 never steps the model; when its execution packet, marked
halted, is byte aligned it is written once and the run returns, and when it is
not byte aligned nothing is written and the pass ends in `exit(1)`.  A full
frame with command 1 steps the model exactly once; an exception ends the pass
without a frame, otherwise a byte-aligned packet is written exactly once and a
packet that is not byte aligned is not written and ends the pass in `exit(1)`.
Any other command ends in `exit(1)` with the trace unchanged. -/
theorem rvfi_command_dispatch {σ ρ : Type} (cfg : Config) (m : Model σ) (sp : Spike ρ)
    (tr : Transport) (l : Loop σ ρ) (hrv : cfg.rvfi_dii = true) :
    ((tr.read l.reads).res = 0 →
      iteration cfg m sp tr l = .stop .closed (after_read l) ∧
      exit_status .closed = none) ∧
    (((0 < (tr.read l.reads).res ∧ (tr.read l.reads).res < 8) ∨ (tr.read l.reads).res = -1) →
      iteration cfg m sp tr l = .stop (.fatal 1) (after_read l) ∧
      exit_status (.fatal 1) = some 1) ∧
    ((tr.read l.reads).res = 8 →
      (m.zrvfi_get_cmd (after_command m tr l).state = 0 →
        steps (iteration cfg m sp tr l).loop.trace = steps l.trace ∧
        (m.exec_packet_len (after_halt m tr l).state % 8 = 0 →
          tr.write_fails l.writes = false →
          iteration cfg m sp tr l
            = .stop .end_of_trace (after_frame m true (after_halt m tr l))) ∧
        (m.exec_packet_len (after_halt m tr l).state % 8 ≠ 0 →
          iteration cfg m sp tr l = .stop (.fatal 1) (after_halt m tr l))) ∧
      (m.zrvfi_get_cmd (after_command m tr l).state = 1 →
        steps (iteration cfg m sp tr l).loop.trace = steps l.trace + 1 ∧
        (m.have_exception (after_step m tr l).state = true →
          iteration cfg m sp tr l = .stop .exception (after_step m tr l)) ∧
        (m.have_exception (after_step m tr l).state = false →
          (m.exec_packet_len (after_step m tr l).state % 8 = 0 →
            tr.write_fails l.writes = false →
            frames (iteration cfg m sp tr l).loop.trace = frames l.trace + 1 ∧
            (iteration cfg m sp tr l).loop.writes = l.writes + 1) ∧
          (m.exec_packet_len (after_step m tr l).state % 8 ≠ 0 →
            iteration cfg m sp tr l = .stop (.fatal 1) (after_step m tr l)))) ∧
      (m.zrvfi_get_cmd (after_command m tr l).state ≠ 0 →
        m.zrvfi_get_cmd (after_command m tr l).state ≠ 1 →
        iteration cfg m sp tr l = .stop (.fatal 1) (after_command m tr l))) := by
  refine ⟨fun h0 => ⟨?_, rfl⟩, fun hshort => ⟨?_, rfl⟩, fun hfull => ⟨fun hc0 => ?_,
    fun hc1 => ?_, fun hn0 hn1 => ?_⟩⟩
  · unfold iteration fetch_and_step
    simp only [hrv, if_true, h0]
    rfl
  · have hne : ¬ ((tr.read l.reads).res = 0) := by omega
    unfold iteration fetch_and_step
    simp only [hrv, if_true, hne, if_false]
    by_cases hlt : (tr.read l.reads).res % 18446744073709551616 < 8
    · simp only [hlt, if_true]
      rfl
    · have hm1 : (tr.read l.reads).res = -1 := by omega
      simp only [hlt, if_false, hm1, if_true]
      rfl
  · have hf := fetch_full_frame cfg m tr l hrv hfull
    rw [if_pos hc0] at hf
    obtain ⟨hbad, hfail, hok⟩ := rvfi_send_trace_cases m tr true (after_halt m tr l)
    have hw : (after_halt m tr l).writes = l.writes := rfl
    have ht : (after_halt m tr l).trace = l.trace := rfl
    refine ⟨?_, fun hal hwok => ?_, fun hal => ?_⟩
    · by_cases hal : m.exec_packet_len (after_halt m tr l).state % 8 = 0
      · cases hwf : tr.write_fails l.writes
        · rw [hok hal (hw ▸ hwf)] at hf
          simp only [iteration, hf, Outcome.loop, after_frame, steps_append, ht]
          rfl
        · rw [hfail hal (hw ▸ hwf)] at hf
          simp only [iteration, hf, Outcome.loop, ht]
      · rw [hbad hal] at hf
        simp only [iteration, hf, Outcome.loop, ht]
    · rw [hok hal (hw ▸ hwok)] at hf
      simp only [iteration, hf]
    · rw [hbad hal] at hf
      simp only [iteration, hf]
  · have hc0 : ¬ (m.zrvfi_get_cmd (after_command m tr l).state = 0) := by omega
    have hf := fetch_full_frame cfg m tr l hrv hfull
    rw [if_neg hc0, if_pos hc1, sail_step_rvfi cfg m tr l hrv] at hf
    obtain ⟨hbad, hfail, hok⟩ := rvfi_send_trace_cases m tr false (after_step m tr l)
    have hw : (after_step m tr l).writes = l.writes := rfl
    have hsteps : steps (after_step m tr l).trace = steps l.trace + 1 := by
      simp only [after_step, steps_append]
      rfl
    have hframes : frames (after_step m tr l).trace = frames l.trace := by
      simp only [after_step, frames_append]
      rfl
    refine ⟨?_, fun hex => ?_, fun hex => ⟨fun hal hwok => ?_, fun hal => ?_⟩⟩
    · cases hex : m.have_exception (after_step m tr l).state
      · simp only [hex, Bool.false_eq_true, if_false] at hf
        by_cases hal : m.exec_packet_len (after_step m tr l).state % 8 = 0
        · cases hwf : tr.write_fails l.writes
          · rw [hok hal (hw ▸ hwf)] at hf
            simp only [iteration, hf]
            rw [(post_step_trace cfg m sp _ _).1]
            simp only [after_frame, steps_append, hsteps]
            rfl
          · rw [hfail hal (hw ▸ hwf)] at hf
            simp only [iteration, hf, Outcome.loop, hsteps]
        · rw [hbad hal] at hf
          simp only [iteration, hf, Outcome.loop, hsteps]
      · simp only [hex, if_true] at hf
        simp only [iteration, hf, Outcome.loop, hsteps]
    · simp only [hex, if_true] at hf
      simp only [iteration, hf]
    · simp only [hex, Bool.false_eq_true, if_false] at hf
      rw [hok hal (hw ▸ hwok)] at hf
      simp only [iteration, hf]
      rw [(post_step_trace cfg m sp _ _).2.1, (post_step_trace cfg m sp _ _).2.2]
      refine ⟨?_, rfl⟩
      simp only [after_frame, frames_append, hframes]
      rfl
    · simp only [hex, Bool.false_eq_true, if_false] at hf
      rw [hbad hal] at hf
      simp only [iteration, hf]
  · have hf := fetch_full_frame cfg m tr l hrv hfull
    rw [if_neg hn0, if_neg hn1] at hf
    simp only [iteration, hf]

/-- The dispatch on the counter models from the entry variables `start`: a
closed socket, a short read, an EndOfTrace command, an Instruction command
with an aligned and with an unaligned packet, and an unknown command. -/
theorem rvfi_command_dispatch_witness :
    (iteration (full 0) (protocol_model 1 8) (counter_spike none none) (reading 0) start
        = .stop .closed (after_read start) ∧ exit_status .closed = none) ∧
    (iteration (full 0) (protocol_model 1 8) (counter_spike none none) (reading 3) start
        = .stop (.fatal 1) (after_read start) ∧ exit_status (.fatal 1) = some 1) ∧
    iteration (full 0) (protocol_model 0 8) (counter_spike none none) (reading 8) start
        = .stop .end_of_trace
            (after_frame (protocol_model 0 8) true
              (after_halt (protocol_model 0 8) (reading 8) start)) ∧
    (frames (iteration (full 0) (protocol_model 1 8) (counter_spike none none) (reading 8)
          start).loop.trace = frames start.trace + 1 ∧
      (iteration (full 0) (protocol_model 1 8) (counter_spike none none) (reading 8)
          start).loop.writes = start.writes + 1) ∧
    iteration (full 0) (protocol_model 1 7) (counter_spike none none) (reading 8) start
        = .stop (.fatal 1) (after_step (protocol_model 1 7) (reading 8) start) ∧
    iteration (full 0) (protocol_model 2 8) (counter_spike none none) (reading 8) start
        = .stop (.fatal 1) (after_command (protocol_model 2 8) (reading 8) start) :=
  ⟨(rvfi_command_dispatch (full 0) (protocol_model 1 8) (counter_spike none none) (reading 0)
      start rfl).1 rfl,
    (rvfi_command_dispatch (full 0) (protocol_model 1 8) (counter_spike none none) (reading 3)
      start rfl).2.1 (Or.inl ⟨by decide, by decide⟩),
    (((rvfi_command_dispatch (full 0) (protocol_model 0 8) (counter_spike none none)
      (reading 8) start rfl).2.2 rfl).1 rfl).2.1 (by decide) rfl,
    ((((rvfi_command_dispatch (full 0) (protocol_model 1 8) (counter_spike none none)
      (reading 8) start rfl).2.2 rfl).2.1 rfl).2.2 rfl).1 (by decide) rfl,
    ((((rvfi_command_dispatch (full 0) (protocol_model 1 7) (counter_spike none none)
      (reading 8) start rfl).2.2 rfl).2.1 rfl).2.2 rfl).2 (by decide),
    ((rvfi_command_dispatch (full 0) (protocol_model 2 8) (counter_spike none none)
      (reading 8) start rfl).2.2 rfl).2.2 (by decide) (by decide)⟩

/-! ## The tick schedule -/

theorem tick_clocks_append (a b : List Event) :
    tick_clocks (a ++ b) = tick_clocks a + tick_clocks b := by
  unfold tick_clocks
  rw [List.filter_append, List.length_append]

theorem tick_platforms_append (a b : List Event) :
    tick_platforms (a ++ b) = tick_platforms a + tick_platforms b := by
  unfold tick_platforms
  rw [List.filter_append, List.length_append]

theorem sameCount_refl {σ ρ : Type} (l : Loop σ ρ) : SameCount l l := ⟨rfl, rfl, rfl, rfl, rfl⟩

theorem sameCount_trans {σ ρ : Type} {a b c : Loop σ ρ} (h1 : SameCount a b)
    (h2 : SameCount b c) : SameCount a c :=
  ⟨h2.step_no.trans h1.step_no, h2.insn_cnt.trans h1.insn_cnt,
    h2.total_insns.trans h1.total_insns, h2.clocks.trans h1.clocks,
    h2.platforms.trans h1.platforms⟩

theorem sameCount_of_trace {σ ρ : Type} (l l1 : Loop σ ρ) (e : Event)
    (h1 : l1.step_no = l.step_no) (h2 : l1.insn_cnt = l.insn_cnt)
    (h3 : l1.total_insns = l.total_insns) (h4 : l1.trace = l.trace ++ [e])
    (hc : e ≠ .tick_clock) (hp : e ≠ .tick_platform) : SameCount l l1 := by
  refine ⟨h1, h2, h3, ?_, ?_⟩
  · rw [h4, tick_clocks_append]
    cases e <;> first | rfl | exact absurd rfl hc
  · rw [h4, tick_platforms_append]
    cases e <;> first | rfl | exact absurd rfl hp

theorem rvfi_send_trace_same {σ ρ : Type} (m : Model σ) (tr : Transport) (halted : Bool)
    (l : Loop σ ρ) : SameCount l (rvfi_send_trace m tr halted l).loop := by
  unfold rvfi_send_trace
  simp only
  split_ifs
  · exact sameCount_refl l
  · exact ⟨rfl, rfl, rfl, rfl, rfl⟩
  · exact sameCount_of_trace l _ _ rfl rfl rfl rfl (by simp) (by simp)

theorem sail_step_same {σ ρ : Type} (cfg : Config) (m : Model σ) (tr : Transport)
    (l : Loop σ ρ) : SameCount l (sail_step cfg m tr l).1.loop := by
  have h1 : SameCount l
      { l with state := (m.step l.state l.step_no).1, trace := l.trace ++ [.step l.step_no] } :=
    sameCount_of_trace l _ _ rfl rfl rfl rfl (by simp) (by simp)
  unfold sail_step
  simp only
  split_ifs
  · exact h1
  · exact sameCount_trans h1 (rvfi_send_trace_same m tr false _)
  · exact h1

theorem fetch_and_step_same {σ ρ : Type} (cfg : Config) (m : Model σ) (tr : Transport)
    (l : Loop σ ρ) : SameCount l (fetch_and_step cfg m tr l).1.loop := by
  have hr : ∀ s : σ, SameCount l { l with reads := l.reads + 1, state := s } :=
    fun _ => ⟨rfl, rfl, rfl, rfl, rfl⟩
  unfold fetch_and_step
  simp only
  split_ifs
  · exact ⟨rfl, rfl, rfl, rfl, rfl⟩
  · exact ⟨rfl, rfl, rfl, rfl, rfl⟩
  · exact ⟨rfl, rfl, rfl, rfl, rfl⟩
  · have h2 := rvfi_send_trace_same m tr true
      { l with reads := l.reads + 1,
               state := m.zrvfi_halt_exec_packet (m.zrvfi_zzero_exec_packet
                 (m.zrvfi_set_instr_packet l.state (tr.read l.reads).instr_bits)) }
    split
    · rename_i l3 h3
      rw [h3] at h2
      exact sameCount_trans (hr _) h2
    · rename_i r l3 h3
      rw [h3] at h2
      exact sameCount_trans (hr _) h2
  · exact sameCount_trans (hr _) (sail_step_same cfg m tr _)
  · exact hr _
  · exact sail_step_same cfg m tr l

theorem tandem_check_same {σ ρ : Type} (cfg : Config) (m : Model σ) (sp : Spike ρ)
    (l : Loop σ ρ) : SameCount l (tandem_check cfg m sp l).loop := by
  have h1 : SameCount l { l with spike := sp.tv_step l.spike, trace := l.trace ++ [.tv_step] } :=
    sameCount_of_trace l _ _ rfl rfl rfl rfl (by simp) (by simp)
  unfold tandem_check
  simp only
  split_ifs
  all_goals first
    | exact h1
    | exact sameCount_refl l
    | (rw [compare_or_break_loop]; exact h1)

theorem iteration_next_tick {σ ρ : Type} (cfg : Config) (m : Model σ) (sp : Spike ρ)
    (tr : Transport) (l l1 : Loop σ ρ) (h : iteration cfg m sp tr l = .next l1) :
    ∃ l2, l1 = tick cfg m sp l2 ∧
      l2.step_no = l.step_no + (if (fetch_and_step cfg m tr l).2 then 1 else 0) ∧
      l2.insn_cnt = l.insn_cnt + (if (fetch_and_step cfg m tr l).2 then 1 else 0) ∧
      l2.total_insns = l.total_insns + (if (fetch_and_step cfg m tr l).2 then 1 else 0) ∧
      tick_clocks l2.trace = tick_clocks l.trace ∧
      tick_platforms l2.trace = tick_platforms l.trace := by
  have hf := fetch_and_step_same cfg m tr l
  unfold iteration at h
  cases hfs : fetch_and_step cfg m tr l with
  | mk o b =>
    rw [hfs] at h hf
    cases o with
    | stop r l3 => cases h
    | next l3 =>
      simp only [Outcome.loop] at hf
      simp only [post_step] at h
      have ht := tandem_check_same cfg m sp (count_retired b l3)
      cases htc : tandem_check cfg m sp (count_retired b l3) with
      | stop r l4 => rw [htc] at h; cases h
      | next l4 =>
        rw [htc] at h ht
        simp only [Outcome.loop] at ht
        have hl : l1 = tick cfg m sp l4 := (Outcome.next.inj h).symm
        refine ⟨l4, hl, ?_, ?_, ?_, ?_, ?_⟩
        · rw [ht.step_no]
          cases b <;> simp [count_retired, hf.step_no]
        · rw [ht.insn_cnt]
          cases b <;> simp [count_retired, hf.insn_cnt]
        · rw [ht.total_insns]
          cases b <;> simp [count_retired, hf.total_insns]
        · rw [ht.clocks, ← hf.clocks]
          cases b <;> rfl
        · rw [ht.platforms, ← hf.platforms]
          cases b <;> rfl

theorem tick_effect {σ ρ : Type} (cfg : Config) (m : Model σ) (sp : Spike ρ) (l : Loop σ ρ) :
    (tick cfg m sp l).step_no = l.step_no ∧ (tick cfg m sp l).total_insns = l.total_insns ∧
    (l.insn_cnt = cfg.rv_insns_per_tick →
      (tick cfg m sp l).insn_cnt = 0 ∧
      tick_clocks (tick cfg m sp l).trace = tick_clocks l.trace + 1 ∧
      tick_platforms (tick cfg m sp l).trace = tick_platforms l.trace + 1) ∧
    (l.insn_cnt ≠ cfg.rv_insns_per_tick →
      (tick cfg m sp l).insn_cnt = l.insn_cnt ∧
      tick_clocks (tick cfg m sp l).trace = tick_clocks l.trace ∧
      tick_platforms (tick cfg m sp l).trace = tick_platforms l.trace) := by
  unfold tick
  by_cases h : l.insn_cnt = cfg.rv_insns_per_tick
  · rw [if_pos h]
    refine ⟨rfl, rfl, fun _ => ⟨rfl, ?_, ?_⟩, fun hn => absurd h hn⟩
    · simp only [tick_clocks_append]; rfl
    · simp only [tick_platforms_append]; rfl
  · rw [if_neg h]
    exact ⟨rfl, rfl, fun hy => absurd hy h, fun _ => ⟨rfl, rfl, rfl⟩⟩

theorem succ_div_mod (T s : Nat) (hT : 0 < T) :
    (s % T + 1 = T → (s + 1) % T = 0 ∧ (s + 1) / T = s / T + 1) ∧
    (s % T + 1 ≠ T → (s + 1) % T = s % T + 1 ∧ (s + 1) / T = s / T) := by
  have h := Nat.div_add_mod s T
  have hlt := Nat.mod_lt s hT
  constructor
  · intro he
    have hs : s + 1 = T * (s / T + 1) := by rw [Nat.mul_succ]; omega
    rw [hs]
    exact ⟨Nat.mul_mod_right _ _, Nat.mul_div_cancel_left _ hT⟩
  · intro hne
    have hr : s % T + 1 < T := by omega
    have hs : s + 1 = (s % T + 1) + T * (s / T) := by omega
    constructor
    · conv_lhs => rw [hs]
      rw [Nat.add_mul_mod_self_left, Nat.mod_eq_of_lt hr]
    · conv_lhs => rw [hs]
      rw [Nat.add_mul_div_left _ _ hT, Nat.div_eq_of_lt hr, Nat.zero_add]

theorem iteration_schedule {σ ρ : Type} (cfg : Config) (m : Model σ) (sp : Spike ρ)
    (tr : Transport) (hT : 0 < cfg.rv_insns_per_tick) (l l1 : Loop σ ρ)
    (hcnt : l.insn_cnt = l.step_no % cfg.rv_insns_per_tick)
    (h : iteration cfg m sp tr l = .next l1) :
    ((fetch_and_step cfg m tr l).2 = false →
      l1.step_no = l.step_no ∧ l1.insn_cnt = l.insn_cnt ∧ l1.total_insns = l.total_insns ∧
      tick_clocks l1.trace = tick_clocks l.trace ∧
      tick_platforms l1.trace = tick_platforms l.trace) ∧
    ((fetch_and_step cfg m tr l).2 = true →
      l1.step_no = l.step_no + 1 ∧ l1.total_insns = l.total_insns + 1 ∧
      l1.insn_cnt = (l.step_no + 1) % cfg.rv_insns_per_tick ∧
      tick_clocks l1.trace = tick_clocks l.trace
        + (if (l.step_no + 1) % cfg.rv_insns_per_tick = 0 then 1 else 0) ∧
      tick_platforms l1.trace = tick_platforms l.trace
        + (if (l.step_no + 1) % cfg.rv_insns_per_tick = 0 then 1 else 0)) := by
  obtain ⟨l2, hl, h1, h2, h3, h4, h5⟩ := iteration_next_tick cfg m sp tr l l1 h
  obtain ⟨t1, t2, tyes, tno⟩ := tick_effect cfg m sp l2
  have hlt := Nat.mod_lt l.step_no hT
  obtain ⟨ayes, ano⟩ := succ_div_mod cfg.rv_insns_per_tick l.step_no hT
  subst hl
  constructor
  · intro hb
    simp only [hb, Bool.false_eq_true, if_false, Nat.add_zero] at h1 h2 h3
    have hne : l2.insn_cnt ≠ cfg.rv_insns_per_tick := by omega
    obtain ⟨u1, u2, u3⟩ := tno hne
    exact ⟨t1.trans h1, u1.trans h2, t2.trans h3, u2.trans h4, u3.trans h5⟩
  · intro hb
    simp only [hb, if_true] at h1 h2 h3
    by_cases he : l2.insn_cnt = cfg.rv_insns_per_tick
    · obtain ⟨u1, u2, u3⟩ := tyes he
      obtain ⟨a1, _⟩ := ayes (by omega)
      rw [a1]
      simp only [if_true]
      exact ⟨t1.trans h1, t2.trans h3, u1, by omega, by omega⟩
    · obtain ⟨u1, u2, u3⟩ := tno he
      obtain ⟨a1, _⟩ := ano (by omega)
      have hnz : ¬ ((l.step_no + 1) % cfg.rv_insns_per_tick = 0) := by omega
      rw [if_neg hnz]
      exact ⟨t1.trans h1, t2.trans h3, by omega, by omega, by omega⟩

theorem iteration_schedule_inv {σ ρ : Type} (cfg : Config) (m : Model σ) (sp : Spike ρ)
    (tr : Transport) (hT : 0 < cfg.rv_insns_per_tick) (l l1 : Loop σ ρ)
    (hcnt : l.insn_cnt = l.step_no % cfg.rv_insns_per_tick)
    (hclk : tick_clocks l.trace = l.step_no / cfg.rv_insns_per_tick)
    (hplt : tick_platforms l.trace = l.step_no / cfg.rv_insns_per_tick)
    (h : iteration cfg m sp tr l = .next l1) :
    l1.insn_cnt = l1.step_no % cfg.rv_insns_per_tick ∧
    tick_clocks l1.trace = l1.step_no / cfg.rv_insns_per_tick ∧
    tick_platforms l1.trace = l1.step_no / cfg.rv_insns_per_tick := by
  obtain ⟨hno, hyes⟩ := iteration_schedule cfg m sp tr hT l l1 hcnt h
  obtain ⟨ayes, ano⟩ := succ_div_mod cfg.rv_insns_per_tick l.step_no hT
  cases hb : (fetch_and_step cfg m tr l).2
  · obtain ⟨h1, h2, _, h4, h5⟩ := hno hb
    rw [h1, h2, h4, h5]
    exact ⟨hcnt, hclk, hplt⟩
  · obtain ⟨h1, _, h3, h4, h5⟩ := hyes hb
    rw [h1, h3, h4, h5]
    refine ⟨rfl, ?_, ?_⟩
    · by_cases he : l.step_no % cfg.rv_insns_per_tick + 1 = cfg.rv_insns_per_tick
      · obtain ⟨a1, a2⟩ := ayes he
        rw [a1, a2, hclk]; rfl
      · obtain ⟨a1, a2⟩ := ano he
        rw [a1, a2, hclk]; simp
    · by_cases he : l.step_no % cfg.rv_insns_per_tick + 1 = cfg.rv_insns_per_tick
      · obtain ⟨a1, a2⟩ := ayes he
        rw [a1, a2, hplt]; rfl
      · obtain ⟨a1, a2⟩ := ano he
        rw [a1, a2, hplt]; simp

theorem passes_schedule {σ ρ : Type} (cfg : Config) (m : Model σ) (sp : Spike ρ)
    (tr : Transport) (hT : 0 < cfg.rv_insns_per_tick) :
    ∀ (n : Nat) (l l1 : Loop σ ρ),
      l.insn_cnt = l.step_no % cfg.rv_insns_per_tick →
      tick_clocks l.trace = l.step_no / cfg.rv_insns_per_tick →
      tick_platforms l.trace = l.step_no / cfg.rv_insns_per_tick →
      passes cfg m sp tr n l = some l1 →
      l1.insn_cnt = l1.step_no % cfg.rv_insns_per_tick ∧
      tick_clocks l1.trace = l1.step_no / cfg.rv_insns_per_tick ∧
      tick_platforms l1.trace = l1.step_no / cfg.rv_insns_per_tick := by
  intro n
  induction n with
  | zero =>
    intro l l1 h1 h2 h3 hp
    cases hp
    exact ⟨h1, h2, h3⟩
  | succ n ih =>
    intro l l1 h1 h2 h3 hp
    unfold passes at hp
    cases hi : iteration cfg m sp tr l with
    | stop r l2 => rw [hi] at hp; cases hp
    | next l2 =>
      rw [hi] at hp
      obtain ⟨g1, g2, g3⟩ := iteration_schedule_inv cfg m sp tr hT l l2 h1 h2 h3 hi
      exact ih l2 l1 g1 g2 g3 hp

theorem rvfi_send_trace_not_exit {σ ρ : Type} (m : Model σ) (tr : Transport) (halted : Bool)
    (l l1 : Loop σ ρ) (r : Stop) (h : rvfi_send_trace m tr halted l = .stop r l1) :
    r ≠ .loop_exit := by
  unfold rvfi_send_trace at h
  simp only at h
  split_ifs at h <;> cases h <;> decide

theorem sail_step_not_exit {σ ρ : Type} (cfg : Config) (m : Model σ) (tr : Transport)
    (l l1 : Loop σ ρ) (r : Stop) (b : Bool) (h : sail_step cfg m tr l = (.stop r l1, b)) :
    r ≠ .loop_exit := by
  unfold sail_step at h
  simp only at h
  split_ifs at h
  · cases h; decide
  · exact rvfi_send_trace_not_exit m tr _ _ _ _ (Prod.mk.inj h).1
  · cases h

theorem fetch_and_step_not_exit {σ ρ : Type} (cfg : Config) (m : Model σ) (tr : Transport)
    (l l1 : Loop σ ρ) (r : Stop) (b : Bool)
    (h : fetch_and_step cfg m tr l = (.stop r l1, b)) : r ≠ .loop_exit := by
  unfold fetch_and_step at h
  simp only at h
  split_ifs at h
  · cases h; decide
  · cases h; decide
  · cases h; decide
  · split at h
    · cases h; decide
    · rename_i r2 l3 hs
      cases h
      exact rvfi_send_trace_not_exit m tr _ _ _ _ hs
  · exact sail_step_not_exit cfg m tr _ _ _ _ h
  · cases h; decide
  · exact sail_step_not_exit cfg m tr _ _ _ _ h

theorem tandem_check_not_exit {σ ρ : Type} (cfg : Config) (m : Model σ) (sp : Spike ρ)
    (l l1 : Loop σ ρ) (r : Stop) (h : tandem_check cfg m sp l = .stop r l1) :
    r ≠ .loop_exit := by
  unfold tandem_check compare_or_break at h
  simp only at h
  split_ifs at h <;> cases h <;> decide

theorem iteration_not_exit {σ ρ : Type} (cfg : Config) (m : Model σ) (sp : Spike ρ)
    (tr : Transport) (l l1 : Loop σ ρ) (r : Stop)
    (h : iteration cfg m sp tr l = .stop r l1) : r ≠ .loop_exit := by
  unfold iteration at h
  split at h
  · rename_i r2 l2 b hf
    cases h
    exact fetch_and_step_not_exit cfg m tr _ _ _ _ hf
  · rename_i l2 stepped hf
    unfold post_step at h
    split at h
    · rename_i r2 l3 ht
      cases h
      exact tandem_check_not_exit cfg m sp _ _ _ ht
    · cases h

theorem run_loop_exit_passes {σ ρ : Type} (cfg : Config) (m : Model σ) (sp : Spike ρ)
    (tr : Transport) :
    ∀ (fuel : Nat) (l l1 : Loop σ ρ), run_loop cfg m sp tr fuel l = some (.loop_exit, l1) →
      ∃ n, passes cfg m sp tr n l = some l1 := by
  intro fuel
  induction fuel with
  | zero => intro l l1 h; cases h
  | succ f ih =>
    intro l l1 h
    unfold run_loop at h
    by_cases hc : loop_cond cfg m l = true
    · rw [if_pos hc] at h
      cases hi : iteration cfg m sp tr l with
      | stop r l2 =>
        rw [hi] at h
        have hr := (Prod.mk.inj (Option.some.inj h)).1
        exact absurd hr (iteration_not_exit cfg m sp tr l l2 r hi)
      | next l2 =>
        rw [hi] at h
        obtain ⟨n, hn⟩ := ih l2 l1 h
        exact ⟨n + 1, by simp only [passes, hi, hn]⟩
    · rw [if_neg hc] at h
      have hl := (Prod.mk.inj (Option.some.inj h)).2
      subst hl
      exact ⟨0, rfl⟩

theorem tandem_check_state {σ ρ : Type} (cfg : Config) (m : Model σ) (sp : Spike ρ)
    (l : Loop σ ρ) : (tandem_check cfg m sp l).loop.state = l.state := by
  unfold tandem_check
  simp only
  split_ifs
  all_goals first
    | rfl
    | (rw [compare_or_break_loop])

theorem before_tick_state {σ ρ : Type} (cfg : Config) (m : Model σ) (sp : Spike ρ)
    (tr : Transport) (l : Loop σ ρ) :
    (before_tick cfg m sp tr l).state = (fetch_and_step cfg m tr l).1.loop.state := by
  unfold before_tick
  rw [tandem_check_state, (count_retired_trace _ _).2.2.1]

theorem iteration_before_tick {σ ρ : Type} (cfg : Config) (m : Model σ) (sp : Spike ρ)
    (tr : Transport) (l l1 : Loop σ ρ) (h : iteration cfg m sp tr l = .next l1) :
    l1 = tick cfg m sp (before_tick cfg m sp tr l) ∧
    (before_tick cfg m sp tr l).insn_cnt
      = l.insn_cnt + (if (fetch_and_step cfg m tr l).2 then 1 else 0) := by
  have hf := fetch_and_step_same cfg m tr l
  unfold iteration at h
  cases hfs : fetch_and_step cfg m tr l with
  | mk o b =>
    rw [hfs] at h hf
    cases o with
    | stop r l3 => cases h
    | next l3 =>
      simp only [Outcome.loop] at hf
      simp only [post_step] at h
      have ht := tandem_check_same cfg m sp (count_retired b l3)
      cases htc : tandem_check cfg m sp (count_retired b l3) with
      | stop r l4 => rw [htc] at h; cases h
      | next l4 =>
        rw [htc] at h ht
        simp only [Outcome.loop] at ht
        have hbt : before_tick cfg m sp tr l = l4 := by
          simp only [before_tick, hfs, Outcome.loop, htc]
        rw [hbt]
        refine ⟨(Outcome.next.inj h).symm, ?_⟩
        rw [ht.insn_cnt]
        cases b <;> simp [count_retired, hf.insn_cnt]

theorem tick_fires {σ ρ : Type} (cfg : Config) (m : Model σ) (sp : Spike ρ) (l : Loop σ ρ)
    (h : l.insn_cnt = cfg.rv_insns_per_tick) :
    (tick cfg m sp l).state = m.tick_platform (m.tick_clock l.state) ∧
    (tick cfg m sp l).spike = (if cfg.enable_spike then sp.tick_spike l.spike else l.spike) ∧
    (tick cfg m sp l).trace = l.trace ++ [.tick_clock, .tick_platform, .tick_spike] ∧
    (tick cfg m sp l).insn_cnt = 0 := by
  unfold tick
  rw [if_pos h]
  exact ⟨rfl, rfl, rfl, rfl⟩

theorem tick_idle {σ ρ : Type} (cfg : Config) (m : Model σ) (sp : Spike ρ) (l : Loop σ ρ)
    (h : l.insn_cnt ≠ cfg.rv_insns_per_tick) : tick cfg m sp l = l := by
  unfold tick
  rw [if_neg h]

theorem iteration_hooks {σ ρ : Type} (cfg : Config) (m : Model σ) (sp : Spike ρ)
    (tr : Transport) (hT : 0 < cfg.rv_insns_per_tick) (l l1 : Loop σ ρ)
    (hcnt : l.insn_cnt = l.step_no % cfg.rv_insns_per_tick)
    (h : iteration cfg m sp tr l = .next l1) :
    ((fetch_and_step cfg m tr l).2 = false → l1 = before_tick cfg m sp tr l) ∧
    ((fetch_and_step cfg m tr l).2 = true →
      ((l.step_no + 1) % cfg.rv_insns_per_tick = 0 →
        l1.state = m.tick_platform (m.tick_clock (before_tick cfg m sp tr l).state) ∧
        l1.spike = (if cfg.enable_spike then sp.tick_spike (before_tick cfg m sp tr l).spike
          else (before_tick cfg m sp tr l).spike) ∧
        l1.trace = (before_tick cfg m sp tr l).trace
          ++ [.tick_clock, .tick_platform, .tick_spike] ∧
        l1.insn_cnt = 0) ∧
      ((l.step_no + 1) % cfg.rv_insns_per_tick ≠ 0 → l1 = before_tick cfg m sp tr l)) := by
  obtain ⟨hl, hb⟩ := iteration_before_tick cfg m sp tr l l1 h
  have hlt := Nat.mod_lt l.step_no hT
  obtain ⟨ayes, ano⟩ := succ_div_mod cfg.rv_insns_per_tick l.step_no hT
  refine ⟨fun hs => ?_, fun hs => ⟨fun hz => ?_, fun hz => ?_⟩⟩
  · simp only [hs, Bool.false_eq_true, if_false, Nat.add_zero] at hb
    rw [hl]
    exact tick_idle cfg m sp _ (by omega)
  · simp only [hs, if_true] at hb
    have he : (before_tick cfg m sp tr l).insn_cnt = cfg.rv_insns_per_tick := by
      by_cases hc : l.step_no % cfg.rv_insns_per_tick + 1 = cfg.rv_insns_per_tick
      · omega
      · have := (ano hc).1
        omega
    rw [hl]
    exact tick_fires cfg m sp _ he
  · simp only [hs, if_true] at hb
    have he : (before_tick cfg m sp tr l).insn_cnt ≠ cfg.rv_insns_per_tick := by
      intro hc
      exact hz (ayes (by omega)).1
    rw [hl]
    exact tick_idle cfg m sp _ he

/-- C16. Tick schedule.  Let the number `T` of instructions per tick be
positive.  At every head of the loop reached from the entry of `run_sail` by
passes that ran to their end, and at the loop exit, `tick_clock` and
`tick_platform` have each been called `step_no / T` times, `step_no` being the
number of instructions retired.  A pass reaches the tick statement with the
model state its step left.  A pass whose step does not retire leaves
`step_no`, `insn_cnt`, `total_insns` and the tick counts unchanged and ends
with the variables it had at the tick statement: no hook is run.  A pass whose
step retires adds one to `step_no` and `total_insns`; when the new `step_no`
is a multiple of `T` it runs `tick_clock` and then `tick_platform` on the model
state, once each, runs `tick_spike` and resets `insn_cnt`, and otherwise it
ends with the variables it had at the tick statement. -/
theorem tick_schedule {σ ρ : Type} (cfg : Config) (m : Model σ) (sp : Spike ρ)
    (tr : Transport) (hT : 0 < cfg.rv_insns_per_tick) (s0 : σ) (t0 : ρ) (total : Nat) :
    (∀ (n : Nat) (l : Loop σ ρ),
      passes cfg m sp tr n (entry_loop s0 t0 total) = some l →
      (tick_clocks l.trace = l.step_no / cfg.rv_insns_per_tick ∧
        tick_platforms l.trace = l.step_no / cfg.rv_insns_per_tick) ∧
      (before_tick cfg m sp tr l).state = (fetch_and_step cfg m tr l).1.loop.state ∧
      ∀ l1, iteration cfg m sp tr l = .next l1 →
        ((fetch_and_step cfg m tr l).2 = false →
          l1.step_no = l.step_no ∧ l1.insn_cnt = l.insn_cnt ∧
          l1.total_insns = l.total_insns ∧
          tick_clocks l1.trace = tick_clocks l.trace ∧
          tick_platforms l1.trace = tick_platforms l.trace ∧
          l1 = before_tick cfg m sp tr l) ∧
        ((fetch_and_step cfg m tr l).2 = true →
          l1.step_no = l.step_no + 1 ∧ l1.total_insns = l.total_insns + 1 ∧
          tick_clocks l1.trace = tick_clocks l.trace
            + (if (l.step_no + 1) % cfg.rv_insns_per_tick = 0 then 1 else 0) ∧
          tick_platforms l1.trace = tick_platforms l.trace
            + (if (l.step_no + 1) % cfg.rv_insns_per_tick = 0 then 1 else 0) ∧
          ((l.step_no + 1) % cfg.rv_insns_per_tick = 0 →
            l1.state = m.tick_platform (m.tick_clock (before_tick cfg m sp tr l).state) ∧
            l1.spike = (if cfg.enable_spike then
              sp.tick_spike (before_tick cfg m sp tr l).spike
              else (before_tick cfg m sp tr l).spike) ∧
            l1.trace = (before_tick cfg m sp tr l).trace
              ++ [.tick_clock, .tick_platform, .tick_spike] ∧
            l1.insn_cnt = 0) ∧
          ((l.step_no + 1) % cfg.rv_insns_per_tick ≠ 0 →
            l1 = before_tick cfg m sp tr l))) ∧
    (∀ (fuel : Nat) (l : Loop σ ρ),
      run_sail cfg m sp tr fuel s0 t0 total = some (.loop_exit, l) →
      tick_clocks l.trace = l.step_no / cfg.rv_insns_per_tick ∧
      tick_platforms l.trace = l.step_no / cfg.rv_insns_per_tick) := by
  have h0 : (entry_loop s0 t0 total).insn_cnt
      = (entry_loop s0 t0 total).step_no % cfg.rv_insns_per_tick := (Nat.zero_mod _).symm
  have h1 : tick_clocks (entry_loop s0 t0 total).trace
      = (entry_loop s0 t0 total).step_no / cfg.rv_insns_per_tick := (Nat.zero_div _).symm
  have h2 : tick_platforms (entry_loop s0 t0 total).trace
      = (entry_loop s0 t0 total).step_no / cfg.rv_insns_per_tick := (Nat.zero_div _).symm
  constructor
  · intro n l hp
    obtain ⟨g0, g1, g2⟩ := passes_schedule cfg m sp tr hT n _ l h0 h1 h2 hp
    refine ⟨⟨g1, g2⟩, before_tick_state cfg m sp tr l, fun l1 hi => ?_⟩
    obtain ⟨hno, hyes⟩ := iteration_schedule cfg m sp tr hT l l1 g0 hi
    obtain ⟨kno, kyes⟩ := iteration_hooks cfg m sp tr hT l l1 g0 hi
    refine ⟨fun hb => ?_, fun hb => ?_⟩
    · obtain ⟨a, b, c, d, e⟩ := hno hb
      exact ⟨a, b, c, d, e, kno hb⟩
    · obtain ⟨a, b, _, c, d⟩ := hyes hb
      exact ⟨a, b, c, d, (kyes hb).1, (kyes hb).2⟩
  · intro fuel l hr
    obtain ⟨n, hn⟩ := run_loop_exit_passes cfg m sp tr fuel (entry_loop s0 t0 total) l hr
    obtain ⟨_, g1, g2⟩ := passes_schedule cfg m sp tr hT n _ l h0 h1 h2 hn
    exact ⟨g1, g2⟩

/-- The schedule on `clock_model`, whose state records the hooks, with two
instructions per tick.  After eight passes four instructions have retired and
the model state shows the clock advanced twice and seen by the platform after
each advance.  The fourth pass retires the second instruction and runs
`tick_clock` and then `tick_platform` on the state its step left; the fifth
pass does not retire and runs no hook. -/
theorem tick_schedule_witness :
    passes ticking clock_model (counter_spike none none) good_transport 8 clocked_start
      = some clocked_eight ∧
    clocked_eight.step_no = 4 ∧ clocked_eight.state = ⟨8, 2, [1, 2]⟩ ∧
    (tick_clocks clocked_eight.trace = clocked_eight.step_no / ticking.rv_insns_per_tick ∧
      tick_platforms clocked_eight.trace
        = clocked_eight.step_no / ticking.rv_insns_per_tick) ∧
    before_tick ticking clock_model (counter_spike none none) good_transport clocked_three
      = clocked_ready ∧
    (clocked_four.step_no = clocked_three.step_no + 1 ∧
      clocked_four.total_insns = clocked_three.total_insns + 1 ∧
      tick_clocks clocked_four.trace = tick_clocks clocked_three.trace
        + (if (clocked_three.step_no + 1) % ticking.rv_insns_per_tick = 0 then 1 else 0) ∧
      tick_platforms clocked_four.trace = tick_platforms clocked_three.trace
        + (if (clocked_three.step_no + 1) % ticking.rv_insns_per_tick = 0 then 1 else 0)) ∧
    (clocked_four.state = clock_model.tick_platform (clock_model.tick_clock
        (before_tick ticking clock_model (counter_spike none none) good_transport
          clocked_three).state) ∧
      clocked_four.state = ⟨4, 1, [1]⟩ ∧ clocked_ready.state = ⟨4, 0, []⟩) ∧
    (clocked_five.step_no = clocked_four.step_no ∧
      clocked_five.insn_cnt = clocked_four.insn_cnt ∧
      clocked_five.total_insns = clocked_four.total_insns ∧
      tick_clocks clocked_five.trace = tick_clocks clocked_four.trace ∧
      tick_platforms clocked_five.trace = tick_platforms clocked_four.trace ∧
      clocked_five = before_tick ticking clock_model (counter_spike none none)
        good_transport clocked_four) := by
  have h3 := ((tick_schedule ticking clock_model (counter_spike none none) good_transport
    (by decide) ⟨0, 0, []⟩ 0 0).1 3 clocked_three (by decide)).2.2 clocked_four (by decide)
  have h4 := ((tick_schedule ticking clock_model (counter_spike none none) good_transport
    (by decide) ⟨0, 0, []⟩ 0 0).1 4 clocked_four (by decide)).2.2 clocked_five (by decide)
  have h8 := ((tick_schedule ticking clock_model (counter_spike none none) good_transport
    (by decide) ⟨0, 0, []⟩ 0 0).1 8 clocked_eight (by decide)).1
  obtain ⟨a1, a2, a3, a4, afire, _⟩ := h3.2 (by decide)
  exact ⟨by decide, rfl, rfl, h8, by decide, ⟨a1, a2, a3, a4⟩,
    ⟨(afire (by decide)).1, rfl, rfl⟩, h4.1 (by decide)⟩

/-! ## The signature file -/

theorem sig_word_eq_line_of (read_mem : Nat → Nat) (a : Nat) (h : a + 3 < 2 ^ 64) :
    sig_word read_mem a = line_of read_mem a := by
  unfold sig_word line_of sig_byte
  rw [Nat.mod_eq_of_lt h, Nat.mod_eq_of_lt (by omega : a + 2 < 2 ^ 64),
    Nat.mod_eq_of_lt (by omega : a + 1 < 2 ^ 64), Nat.mod_eq_of_lt (by omega : a + 0 < 2 ^ 64)]
  rfl

theorem sig_reads_eq (a : Nat) (h : a + 3 < 2 ^ 64) :
    sig_reads a = [a + 3, a + 2, a + 1, a] := by
  unfold sig_reads
  rw [Nat.mod_eq_of_lt h, Nat.mod_eq_of_lt (by omega : a + 2 < 2 ^ 64),
    Nat.mod_eq_of_lt (by omega : a + 1 < 2 ^ 64), Nat.mod_eq_of_lt (by omega : a + 0 < 2 ^ 64)]
  rfl

theorem signature_loop_spec (read_mem : Nat → Nat) (mem_sig_end : Nat) :
    ∀ (n a : Nat) (out : SigOut) (fuel : Nat), n < fuel → a + 4 * n < 2 ^ 64 →
      mem_sig_end ≤ a + 4 * n → (0 < n → a + 4 * (n - 1) < mem_sig_end) →
      signature_loop read_mem mem_sig_end fuel a out
        = some ⟨out.lines ++ (word_addrs a n).map (line_of read_mem),
            out.reads ++ read_addrs a n⟩ := by
  intro n
  induction n with
  | zero =>
    intro a out fuel hf _ hend _
    obtain ⟨f, rfl⟩ : ∃ f, fuel = f + 1 := ⟨fuel - 1, by omega⟩
    have hna : ¬ a < mem_sig_end := by omega
    simp only [signature_loop, hna, if_false, word_addrs, read_addrs, List.map_nil,
      List.append_nil]
  | succ n ih =>
    intro a out fuel hf hw hend hlast
    obtain ⟨f, rfl⟩ : ∃ f, fuel = f + 1 := ⟨fuel - 1, by omega⟩
    have ha : a < mem_sig_end := by
      have := hlast (by omega)
      omega
    have hnext : (a + 4) % 2 ^ 64 = a + 4 := Nat.mod_eq_of_lt (by omega)
    have h3 : a + 3 < 2 ^ 64 := by omega
    have hrec := ih (a + 4)
      { lines := out.lines ++ [sig_word read_mem a], reads := out.reads ++ sig_reads a } f
      (by omega) (by omega) (by omega) (fun hn => by have := hlast (by omega); omega)
    rw [sig_word_eq_line_of read_mem a h3, sig_reads_eq a h3] at hrec
    simp only [signature_loop, ha, if_true, hnext, sig_word_eq_line_of read_mem a h3,
      sig_reads_eq a h3]
    rw [hrec]
    simp only [word_addrs, read_addrs, List.map_cons, List.append_assoc,
      List.singleton_append, List.cons_append, List.nil_append]

theorem word_addrs_length (n : Nat) : ∀ a, (word_addrs a n).length = n := by
  induction n with
  | zero => intro a; rfl
  | succ n ih => intro a; simp only [word_addrs, List.length_cons, ih]

theorem word_addrs_getElem? (n : Nat) :
    ∀ (a k : Nat), k < n → (word_addrs a n)[k]? = some (a + 4 * k) := by
  induction n with
  | zero => intro a k hk; omega
  | succ n ih =>
    intro a k hk
    cases k with
    | zero => simp only [word_addrs, List.getElem?_cons_zero, Nat.mul_zero, Nat.add_zero]
    | succ k =>
      simp only [word_addrs, List.getElem?_cons_succ]
      rw [ih (a + 4) k (by omega)]
      congr 1
      omega

theorem read_addrs_mem (n : Nat) :
    ∀ (a x : Nat), x ∈ read_addrs a n ↔ a ≤ x ∧ x < a + 4 * n := by
  induction n with
  | zero =>
    intro a x
    simp only [read_addrs, List.not_mem_nil, false_iff]
    omega
  | succ n ih =>
    intro a x
    simp only [read_addrs, List.mem_append, List.mem_cons, List.not_mem_nil, or_false, ih]
    omega

theorem read_addrs_nodup (n : Nat) : ∀ a, (read_addrs a n).Nodup := by
  induction n with
  | zero => intro a; exact List.nodup_nil
  | succ n ih =>
    intro a
    simp only [read_addrs]
    rw [List.nodup_append]
    refine ⟨?_, ih (a + 4), ?_⟩
    · simp only [List.nodup_cons, List.mem_cons, List.not_mem_nil, or_false, not_false_eq_true,
        List.nodup_nil, and_true]
      omega
    · intro x hx hx2
      rw [read_addrs_mem] at hx2
      simp only [List.mem_cons, List.not_mem_nil, or_false] at hx
      omega

theorem read_addrs_length (n : Nat) : ∀ a, (read_addrs a n).length = 4 * n := by
  induction n with
  | zero => intro a; rfl
  | succ n ih =>
    intro a
    simp only [read_addrs, List.length_append, List.length_cons, List.length_nil, ih]
    omega

theorem signature_loop_wraps (read_mem : Nat → Nat) :
    ∀ (fuel addr : Nat) (out : SigOut), addr % 4 = 0 → addr < 2 ^ 64 →
      signature_loop read_mem (2 ^ 64 - 1) fuel addr out = none := by
  intro fuel
  induction fuel with
  | zero => intro addr out _ _; rfl
  | succ f ih =>
    intro addr out h4 hlt
    have ha : addr < 2 ^ 64 - 1 := by omega
    simp only [signature_loop, ha, if_true]
    exact ih _ _ (by omega) (Nat.mod_lt _ (by decide))

theorem hex_digit_mem (n : Nat) : hex_digit n ∈ hex_alphabet := by
  by_cases h : n < 16
  · interval_cases n <;> decide
  · have hd : hex_digit n = '0' := by
      unfold hex_digit
      exact List.getD_eq_default _ _ (by simp only [List.length_cons, List.length_nil]; omega)
    rw [hd]
    decide

theorem line_of_digits (read_mem : Nat → Nat) (a : Nat) :
    ∃ d : List Char, d.length = 8 ∧ (∀ c ∈ d, c ∈ hex_alphabet) ∧
      line_of read_mem a = String.mk d ++ "\n" := by
  refine ⟨[hex_digit (read_mem (a + 3) % 256 / 16), hex_digit (read_mem (a + 3) % 256 % 16),
    hex_digit (read_mem (a + 2) % 256 / 16), hex_digit (read_mem (a + 2) % 256 % 16),
    hex_digit (read_mem (a + 1) % 256 / 16), hex_digit (read_mem (a + 1) % 256 % 16),
    hex_digit (read_mem a % 256 / 16), hex_digit (read_mem a % 256 % 16)], rfl, ?_, rfl⟩
  intro c hc
  simp only [List.mem_cons, List.not_mem_nil, or_false] at hc
  rcases hc with h | h | h | h | h | h | h | h <;> rw [h] <;> exact hex_digit_mem _

theorem word_count_spec (start stop k : Nat) (h : start < stop) :
    start + 4 * k < stop ↔ k < word_count start stop := by
  unfold word_count
  omega

/-- C12 as stated fails at the top of the address space: for the range from
2^64 - 4 to 2^64 - 1, which holds one word address, the statement `addr += 4`
wraps around to 0, which is again below the end, and the loop of
`write_signature` never ends. -/
theorem signature_loop_runs_past_top :
    2 ^ 64 - 4 < 2 ^ 64 - 1 ∧ word_count (2 ^ 64 - 4) (2 ^ 64 - 1) = 1 ∧
    ∀ fuel, write_signature true (fun _ => 0) (2 ^ 64 - 4) (2 ^ 64 - 1) fuel = none := by
  refine ⟨by decide, by decide, fun fuel => ?_⟩
  have h := signature_loop_wraps (fun _ => 0) fuel (2 ^ 64 - 4) ⟨[], []⟩ (by decide) (by decide)
  have hlt : ¬ (2 ^ 64 - 4 ≥ 2 ^ 64 - 1) := by decide
  simp only [write_signature, hlt, if_false, Bool.not_true, Bool.false_eq_true, h]

/-- C12 (amended). Signature file format.  For every memory and every range
with start below end in which the word loop stays below 2^64 (as it does for
every range whose length is a multiple of 4), `write_signature`, the file
being opened, returns after writing one line per word address start,
start + 4, ... below end; the line of the word at `a` is eight lowercase
hexadecimal digits, two for each of the bytes at `a + 3`, `a + 2`, `a + 1` and
`a` in that order, and a newline.  If start is not below end nothing is
written. -/
theorem signature_format (read_mem : Nat → Nat) (mem_sig_start mem_sig_end : Nat) :
    (mem_sig_start < mem_sig_end →
      mem_sig_start + 4 * word_count mem_sig_start mem_sig_end < 2 ^ 64 →
      ∀ fuel, word_count mem_sig_start mem_sig_end < fuel →
        ∃ out, write_signature true read_mem mem_sig_start mem_sig_end fuel
            = some (.written out) ∧
          out.lines = (word_addrs mem_sig_start (word_count mem_sig_start mem_sig_end)).map
            (line_of read_mem) ∧
          (∀ k, k < word_count mem_sig_start mem_sig_end →
            (word_addrs mem_sig_start (word_count mem_sig_start mem_sig_end))[k]?
              = some (mem_sig_start + 4 * k)) ∧
          (∀ k, mem_sig_start + 4 * k < mem_sig_end ↔
            k < word_count mem_sig_start mem_sig_end) ∧
          (∀ a, ∃ d : List Char, d.length = 8 ∧ (∀ c ∈ d, c ∈ hex_alphabet) ∧
            line_of read_mem a = String.mk d ++ "\n")) ∧
    (mem_sig_end ≤ mem_sig_start →
      ∀ fopen_ok fuel,
        write_signature fopen_ok read_mem mem_sig_start mem_sig_end fuel
          = some .invalid_region) := by
  constructor
  · intro hlt hwrap fuel hf
    have hspec := signature_loop_spec read_mem mem_sig_end
      (word_count mem_sig_start mem_sig_end) mem_sig_start ⟨[], []⟩ fuel hf hwrap
      (by unfold word_count; omega) (fun _ => by unfold word_count; omega)
    have hge : ¬ (mem_sig_start ≥ mem_sig_end) := by omega
    simp only [List.nil_append] at hspec
    refine ⟨⟨(word_addrs mem_sig_start (word_count mem_sig_start mem_sig_end)).map
        (line_of read_mem), read_addrs mem_sig_start (word_count mem_sig_start mem_sig_end)⟩,
      ?_, rfl, fun k hk => word_addrs_getElem? _ _ k hk,
      fun k => word_count_spec _ _ k hlt, fun a => line_of_digits read_mem a⟩
    simp only [write_signature, hge, if_false, Bool.not_true, Bool.false_eq_true, hspec]
  · intro hge fopen_ok fuel
    have h : mem_sig_start ≥ mem_sig_end := hge
    simp only [write_signature, h, if_true]

/-- The signature of the range from 0x1000 to 0x1008 over the bytes
DE AD BE EF CA FE BA BE: the lines efbeadde and bebafeca. -/
theorem signature_format_witness :
    0x1000 < 0x1008 ∧ 0x1000 + 4 * word_count 0x1000 0x1008 < 2 ^ 64 ∧
    word_count 0x1000 0x1008 < 3 ∧
    ∃ out, write_signature true sig_memory 0x1000 0x1008 3 = some (.written out) ∧
      out.lines = ["efbeadde\n", "bebafeca\n"] ∧
      file_content out = "efbeadde\nbebafeca\n" := by
  refine ⟨by decide, by decide, by decide, ?_⟩
  obtain ⟨out, h1, h2, _⟩ := (signature_format sig_memory 0x1000 0x1008).1 (by decide)
    (by decide) 3 (by decide)
  have hl : out.lines = ["efbeadde\n", "bebafeca\n"] := h2.trans (by decide)
  refine ⟨out, h1, hl, ?_⟩
  unfold file_content
  rw [hl]
  decide

/-- C13 as stated fails for a range whose length is not a multiple of 4: for
the range from 0 to 6 `write_signature` reads the addresses 6 and 7, which are
not below the end, and writes two lines, not 6 / 4 = 1. -/
theorem signature_reads_past_end :
    write_signature true (fun _ => 0) 0 6 3
      = some (.written ⟨["00000000\n", "00000000\n"], [3, 2, 1, 0, 7, 6, 5, 4]⟩) ∧
    (0 : Nat) < 6 ∧ 7 ∈ [3, 2, 1, 0, 7, 6, 5, 4] ∧ ¬ (7 < 6) ∧
    ["00000000\n", "00000000\n"].length ≠ (6 - 0) / 4 := by
  refine ⟨by decide, by decide, by decide, by decide, by decide⟩

/-- C13 (amended). Signature range coverage.  For every range of 64-bit
addresses with start below end whose length is a multiple of 4,
`write_signature`, the file being opened,
returns having read exactly the addresses from start up to but not including
end, each once, and having written (end - start) / 4 lines. -/
theorem signature_coverage (read_mem : Nat → Nat) (mem_sig_start mem_sig_end : Nat)
    (hlt : mem_sig_start < mem_sig_end) (hend : mem_sig_end < 2 ^ 64)
    (hal : (mem_sig_end - mem_sig_start) % 4 = 0) :
    ∀ fuel, (mem_sig_end - mem_sig_start) / 4 < fuel →
      ∃ out, write_signature true read_mem mem_sig_start mem_sig_end fuel
          = some (.written out) ∧
        out.lines.length = (mem_sig_end - mem_sig_start) / 4 ∧
        out.reads.Nodup ∧
        ∀ x, x ∈ out.reads ↔ mem_sig_start ≤ x ∧ x < mem_sig_end := by
  intro fuel hf
  have hspec := signature_loop_spec read_mem mem_sig_end
    ((mem_sig_end - mem_sig_start) / 4) mem_sig_start ⟨[], []⟩ fuel hf (by omega) (by omega)
    (fun _ => by omega)
  have hge : ¬ (mem_sig_start ≥ mem_sig_end) := by omega
  simp only [List.nil_append] at hspec
  refine ⟨⟨(word_addrs mem_sig_start ((mem_sig_end - mem_sig_start) / 4)).map
      (line_of read_mem), read_addrs mem_sig_start ((mem_sig_end - mem_sig_start) / 4)⟩,
    ?_, ?_, read_addrs_nodup _ _, ?_⟩
  · simp only [write_signature, hge, if_false, Bool.not_true, Bool.false_eq_true, hspec]
  · simp only [List.length_map, word_addrs_length]
  · intro x
    simp only [read_addrs_mem]
    omega

/-- The coverage of the range from 0x1000 to 0x1008: two lines and the eight
addresses 0x1000 to 0x1007. -/
theorem signature_coverage_witness :
    0x1000 < 0x1008 ∧ 0x1008 < 2 ^ 64 ∧ (0x1008 - 0x1000) % 4 = 0 ∧
    ∃ out, write_signature true sig_memory 0x1000 0x1008 3 = some (.written out) ∧
      out.lines.length = (0x1008 - 0x1000) / 4 ∧ out.reads.Nodup ∧
      ∀ x, x ∈ out.reads ↔ 0x1000 ≤ x ∧ x < 0x1008 :=
  ⟨by decide, by decide, by decide,
    signature_coverage sig_memory 0x1000 0x1008 (by decide) (by decide) (by decide) 3
      (by decide)⟩

end Sim
